import Mathlib

/-! go-eml: a recursive MIME message decoder.

A shallow embedding of `eml.go` (package `eml`) and a verification of its
specification.

* Go `string` and `[]byte` values are byte sequences: lists of natural numbers
  below 256 (`Bytes`, `GoString`).
* A Go `map[string][]string` is the list of its entries, in the order a `range`
  loop visits them; keys are distinct.
* An `io.Reader` is represented by what `ioutil.ReadAll` returns on it.
* A Go `error` is a value of `Error`; a run-time panic and the exhaustion of the
  recursion budget are the two other ways a call can fail (`Failure`).
* The functions of the Go standard library that `eml.go` calls are the fields of
  a `Lib`; `parseMessage`, `decodeBody` and `decodeHeaders` are translated over an
  arbitrary `Lib`, and most statements hold for every `Lib`. `encoding/base64`
  is translated directly. `goLib` is the `Lib` of the Go library itself, used
  where a statement depends on what the library does and for concrete inputs.
* `parseMessage` recurses into the parts of a multipart body; its first
  argument bounds the depth of that recursion.
-/

set_option autoImplicit false

namespace Eml

/-! ## Bytes, strings, maps, errors -/

/-- A Go `[]byte`. -/
abbrev Bytes := List Nat

/-- A Go `string`: its bytes. -/
abbrev GoString := List Nat

/-- The UTF-8 encoding of one code point. -/
def utf8EncodeRune (r : Nat) : Bytes :=
  if r < 0x80 then [r]
  else if r < 0x800 then [0xC0 + r / 64, 0x80 + r % 64]
  else if r < 0x10000 then [0xE0 + r / 4096, 0x80 + r / 64 % 64, 0x80 + r % 64]
  else [0xF0 + r / 262144, 0x80 + r / 4096 % 64, 0x80 + r / 64 % 64, 0x80 + r % 64]

/-- The Go string written by a literal: the UTF-8 bytes of the text. -/
def str (s : String) : GoString :=
  s.data.flatMap fun c => utf8EncodeRune c.toNat

/-- A Go `error`. `New text` is `errors.New(text)`; `Newf format args` is
`fmt.Errorf(format, args...)` with arguments that are not errors; `Errorf format
args err` is `fmt.Errorf(format, args..., err)`, the error formatted last. -/
inductive Error where
  | New (text : String)
  | Newf (format : String) (args : List GoString)
  | Errorf (format : String) (args : List GoString) (err : Error)
  deriving DecidableEq, Repr

deriving instance DecidableEq for Except

/-- How a call can fail: it returns a Go `error`, it panics, or the embedding ran
out of recursion budget. -/
inductive Failure where
  | error (err : Error)
  | panic
  | outOfFuel
  deriving DecidableEq, Repr

/-- An `io.Reader`, as the result of reading it to the end. -/
abbrev Reader := Except Error Bytes

/-- Go `ioutil.ReadAll`. -/
def ioutil.ReadAll (r : Reader) : Except Error Bytes := r

/-- Go `bytes.NewBufferString` / `bytes.NewBuffer` / `bytes.NewReader`. -/
def bytes.NewBuffer (b : Bytes) : Reader := .ok b

/-- Go `strings.HasPrefix`. -/
def strings.HasPrefix (s p : GoString) : Bool :=
  p.isPrefixOf s

/-- A Go `map[string]V`, as its entries. -/
abbrev GoMap (V : Type) := List (GoString × V)

/-- The entry of key `k`, if the map has one (Go `v, ok := m[k]`). -/
def GoMap.get? {V : Type} : GoMap V → GoString → Option V
  | [], _ => none
  | (k, v) :: rest, key => if k = key then some v else GoMap.get? rest key

/-- Go `m[k]` on a `map[string][]string`: the nil slice when the key is absent. -/
def GoMap.index (m : GoMap (List GoString)) (k : GoString) : List GoString :=
  (m.get? k).getD []

/-- Go `m[k]` on a `map[string]string`: the empty string when the key is absent. -/
def GoMap.indexStr (m : GoMap GoString) (k : GoString) : GoString :=
  (m.get? k).getD []

/-- The keys of a map. -/
def GoMap.keys {V : Type} (m : GoMap V) : List GoString :=
  m.map Prod.fst

/-- A `map[string][]string` (`textproto.MIMEHeader`). -/
abbrev MIMEHeader := GoMap (List GoString)

/-! ## encoding/base64 -/

namespace base64

/-- The alphabet of `StdEncoding`. -/
def encodeStd : Bytes :=
  str "ABCDEFGHIJKLMNOPQRSTUVWXYZabcdefghijklmnopqrstuvwxyz0123456789+/"

/-- The `decodeMap` of `StdEncoding`: the index of an alphabet byte, `none` for
every other byte (Go stores 0xff). -/
def decodeMap (c : Nat) : Option Nat :=
  if encodeStd.indexOf c < 64 then some (encodeStd.indexOf c) else none

/-- `CorruptInputError(n)`. -/
def CorruptInputError (n : Nat) : Error :=
  .Newf "illegal base64 data at input byte %d" [str (toString n)]

/-- The bytes a quantum of two, three or four sextets decodes to. -/
def quantumBytes (dbuf : List Nat) : Bytes :=
  let val := dbuf.getD 0 0 <<< 18 ||| dbuf.getD 1 0 <<< 12 ||| dbuf.getD 2 0 <<< 6 ||| dbuf.getD 3 0
  [val >>> 16 % 256, val >>> 8 % 256, val % 256].take (dbuf.length - 1)

/-- Skip `\r` and `\n`; returns what is left and its offset. -/
def skipNewlines : Bytes → Nat → Bytes × Nat
  | [], si => ([], si)
  | c :: rest, si => if c = 10 ∨ c = 13 then skipNewlines rest (si + 1) else (c :: rest, si)

/-- What `decodeQuantum` does once it has read a padding byte `=` with `dbuf`
already holding `j` sextets; `src` starts right after that byte, at offset `si`. -/
def decodePadding (src : Bytes) (si : Nat) (dbuf : List Nat) (out : Bytes) : Except Error Bytes :=
  if dbuf.length < 2 then .error (CorruptInputError (si - 1))
  else
    let afterPad : Except Error (Bytes × Nat) :=
      if dbuf.length = 2 then
        match skipNewlines src si with
        | ([], si1) => .error (CorruptInputError si1)
        | (c :: rest, si1) =>
          if c ≠ 61 then .error (CorruptInputError (si1 - 1)) else .ok (rest, si1 + 1)
      else .ok (src, si)
    match afterPad with
    | .error e => .error e
    | .ok (src1, si1) =>
      match skipNewlines src1 si1 with
      | ([], _) => .ok (out ++ quantumBytes dbuf)
      | (_ :: _, si2) => .error (CorruptInputError si2)

/-- The loop of `Encoding.Decode` over `decodeQuantum`, for `StdEncoding`: `src`
is the input from offset `si` on, `dbuf` the sextets of the quantum under way,
`out` the bytes decoded so far. -/
def decode : Bytes → Nat → List Nat → Bytes → Except Error Bytes
  | [], si, dbuf, out =>
    if dbuf = [] then .ok out else .error (CorruptInputError (si - dbuf.length))
  | c :: rest, si, dbuf, out =>
    match decodeMap c with
    | some v =>
      if dbuf.length = 3 then decode rest (si + 1) [] (out ++ quantumBytes (dbuf ++ [v]))
      else decode rest (si + 1) (dbuf ++ [v]) out
    | none =>
      if c = 10 ∨ c = 13 then decode rest (si + 1) dbuf out
      else if c ≠ 61 then .error (CorruptInputError si)
      else decodePadding rest (si + 1) dbuf out

/-- Go `base64.StdEncoding.DecodeString`. -/
def StdEncoding.DecodeString (s : GoString) : Except Error Bytes :=
  decode s 0 [] []

/-- The sextets of a group of one, two or three bytes. -/
def sextets : Bytes → List Nat
  | [a] => [a / 4, a % 4 * 16]
  | [a, b] => [a / 4, a % 4 * 16 + b / 16, b % 16 * 4]
  | [a, b, c] => [a / 4, a % 4 * 16 + b / 16, b % 16 * 4 + c / 64, c % 64]
  | _ => []

/-- Go `base64.StdEncoding.EncodeToString`: RFC 4648 base64 with `=` padding. -/
def StdEncoding.EncodeToString : Bytes → GoString
  | [] => []
  | [a] => (sextets [a]).map (fun v => encodeStd.getD v 0) ++ [61, 61]
  | [a, b] => (sextets [a, b]).map (fun v => encodeStd.getD v 0) ++ [61]
  | a :: b :: c :: rest =>
    (sextets [a, b, c]).map (fun v => encodeStd.getD v 0) ++ StdEncoding.EncodeToString rest

end base64

/-! ## The standard library, as the program sees it -/

/-- What a `multipart.Reader` yields to the loop `for { p, err := mr.NextPart();
... ioutil.ReadAll(p) ... }`: `eof` when `NextPart` returns `io.EOF`, `fail err`
when it returns another error, `part Header body next` when it returns a part
with that header whose `ioutil.ReadAll` gives `body`, the reader going on as
`next`. -/
inductive PartStream where
  | eof
  | fail (err : Error)
  | part (Header : MIMEHeader) (body : Except Error Bytes) (next : PartStream)

/-- A decoder of `golang.org/x/text/encoding`, as `transform.NewReader(input,
enc.NewDecoder())` acts on the bytes of `input`. -/
abbrev Encoding := Bytes → Except Error Bytes

/-- Go `transform.NewReader(input, enc.NewDecoder())`. -/
def transform.NewReader (input : Reader) (enc : Encoding) : Reader :=
  match input with
  | .error err => .error err
  | .ok b => enc b

/-- The functions of the Go standard library and of `golang.org/x/text` that
`eml.go` calls. -/
structure Lib where
  /-- Go `strings.ToLower`. -/
  ToLower : GoString → GoString
  /-- Go `mime.ParseMediaType`: the media type and its parameters, or an error. -/
  ParseMediaType : GoString → Except Error (GoString × GoMap GoString)
  /-- Go `(&mime.WordDecoder{CharsetReader: f}).DecodeHeader`. -/
  DecodeHeader : (GoString → Reader → Except Error Reader) → GoString → Except Error GoString
  /-- Go `multipart.NewReader(bytes.NewBuffer(body), boundary)`, as the parts it
  yields. -/
  NewReader : Bytes → GoString → PartStream
  /-- Go `quotedprintable.NewReader`. -/
  quotedprintable : Reader → Reader
  /-- Go `japanese.ISO2022JP`. -/
  ISO2022JP : Encoding
  /-- Go `japanese.EUCJP`. -/
  EUCJP : Encoding
  /-- Go `japanese.ShiftJIS`. -/
  ShiftJIS : Encoding
  /-- Go `textproto.NewReader(bufio.NewReader(r)).ReadMIMEHeader()` on the input
  `r`, with the reader `tp.R` left for the body. -/
  ReadMIMEHeader : Bytes → Except Error MIMEHeader × Reader

/-! ## eml.go -/

/-- Go `type Message struct`. `DecodedBody` is a `*string`: `none` is nil.
`Parts` is a slice; nil and the empty slice are both the empty list. -/
inductive Message where
  | mk (RawHeaders : MIMEHeader) (RawBody : GoString) (DecodedHeaders : MIMEHeader)
      (DecodedBody : Option GoString) (Parts : List Message)

namespace Message

/-- Field `RawHeaders`. -/
def RawHeaders : Message → MIMEHeader
  | mk h _ _ _ _ => h

/-- Field `RawBody`. -/
def RawBody : Message → GoString
  | mk _ b _ _ _ => b

/-- Field `DecodedHeaders`. -/
def DecodedHeaders : Message → MIMEHeader
  | mk _ _ d _ _ => d

/-- Field `DecodedBody`. -/
def DecodedBody : Message → Option GoString
  | mk _ _ _ d _ => d

/-- Field `Parts`. -/
def Parts : Message → List Message
  | mk _ _ _ _ p => p

/-- Go `func (m *Message) transferEncoding() string`. -/
def transferEncoding (m : Message) : GoString :=
  match m.RawHeaders.get? (str "Content-Transfer-Encoding") with
  | none => []
  | some values =>
    match values with
    | v :: _ => v
    | [] => []

end Message

/-- Go `var encodings = map[string]encoding.Encoding`. -/
def encodings (L : Lib) : GoMap Encoding :=
  [(str "iso-2022-jp", L.ISO2022JP),
   (str "euc-jp", L.EUCJP),
   (str "shift_jis", L.ShiftJIS)]

/-- Go `func charsetReader(charset string, input io.Reader) (io.Reader, error)`. -/
def charsetReader (L : Lib) (charset : GoString) (input : Reader) : Except Error Reader :=
  match (encodings L).get? (L.ToLower charset) with
  | none => .ok input
  | some enc => .ok (transform.NewReader input enc)

/-- Go `func decodeBody(charset, transferEncoding string, body io.Reader) (string, error)`. -/
def decodeBody (L : Lib) (charset transferEncoding : GoString) (body : Reader) :
    Except Error GoString :=
  match charsetReader L charset body with
  | .error err => .error (.Errorf "failed to get charsetReader: %s" [] err)
  | .ok r =>
    match ioutil.ReadAll r with
    | .error err => .error (.Errorf "failed to convert charset: %s" [] err)
    | .ok b =>
      let te := L.ToLower transferEncoding
      if te = str "base64" then
        match base64.StdEncoding.DecodeString b with
        | .error err => .error (.Errorf "failed to decode b64: %s" [] err)
        | .ok data => .ok data
      else if te = str "quoted-printable" then
        match ioutil.ReadAll (L.quotedprintable (bytes.NewBuffer b)) with
        | .error err => .error (.Errorf "failed to decode quoted-printable: %s" [] err)
        | .ok b1 => .ok b1
      else .ok b

/-- The inner loop of `decodeHeaders`, `for i, v := range values`. -/
def decodeValues (L : Lib) (k : GoString) : List GoString → Except Error (List GoString)
  | [] => .ok []
  | v :: values =>
    match L.DecodeHeader (charsetReader L) v with
    | .error err => .error (.Errorf "failed to decode %s: %s: %s" [k, v] err)
    | .ok d =>
      match decodeValues L k values with
      | .error err => .error err
      | .ok ds => .ok (d :: ds)

/-- Go `func decodeHeaders(hdr map[string][]string) (map[string][]string, error)`. -/
def decodeHeaders (L : Lib) : MIMEHeader → Except Error MIMEHeader
  | [] => .ok []
  | (k, values) :: hdr =>
    match decodeValues L k values with
    | .error err => .error err
    | .ok ds =>
      match decodeHeaders L hdr with
      | .error err => .error err
      | .ok decoded => .ok ((k, ds) :: decoded)

/-- The loop `for { p, err := mr.NextPart(); ... }` of `parseMessage`, with
`parse` the recursive call and `parts` the value of `msg.Parts` so far. -/
def parseParts (parse : Bytes → MIMEHeader → Except Failure Message) :
    PartStream → List Message → Except Failure (List Message)
  | .eof, parts => .ok parts
  | .fail err, _ => .error (.error (.Errorf "error at NextPart in multipart parsing: %s" [] err))
  | .part Header body next, parts =>
    match body with
    | .error err => .error (.error (.Errorf "error at ReadAll in multipart parsing: %s" [] err))
    | .ok partBody =>
      match parse partBody Header with
      | .error (.error err) => .error (.error (.Errorf "failed to parse multipart: %s" [] err))
      | .error f => .error f
      | .ok partMsg => parseParts parse next (parts ++ [partMsg])

/-- Go `func parseMessage(body []byte, header map[string][]string) (*Message, error)`.
The first argument bounds the depth of the recursion. -/
def parseMessage (L : Lib) : Nat → Bytes → MIMEHeader → Except Failure Message
  | 0, _, _ => .error .outOfFuel
  | fuel + 1, body, header =>
    match decodeHeaders L header with
    | .error err => .error (.error (.Errorf "failed to decode headers: %s" [] err))
    | .ok dhdr =>
      let msg := Message.mk header body dhdr none []
      match (msg.RawHeaders.index (str "Content-Type")).head? with
      | none => .error .panic
      | some v =>
        match L.ParseMediaType v with
        | .error err => .error (.error (.Errorf "failed to parse Content-Type header: %s" [] err))
        | .ok (ctype, params) =>
          let charset := params.indexStr (str "charset")
          let te := msg.transferEncoding
          if strings.HasPrefix ctype (str "text/") then
            match decodeBody L charset te (bytes.NewBuffer msg.RawBody) with
            | .error err => .error (.error (.Errorf "failed to decode body: %s" [] err))
            | .ok decBody => .ok (Message.mk header body dhdr (some decBody) [])
          else if strings.HasPrefix ctype (str "multipart/") then
            match parseParts (fun b h => parseMessage L fuel b h)
                (L.NewReader body (params.indexStr (str "boundary"))) [] with
            | .error f => .error f
            | .ok parts => .ok (Message.mk header body dhdr none parts)
          else .ok msg

/-- Go `func Parse(r io.Reader) (*Message, error)`, on an input that reads as the
bytes `r`. -/
def Parse (L : Lib) (fuel : Nat) (r : Bytes) : Except Failure Message :=
  match L.ReadMIMEHeader r with
  | (.error err, _) => .error (.error (.Errorf "failed to read mime header: %s" [] err))
  | (.ok hdr, R) =>
    match ioutil.ReadAll R with
    | .error err => .error (.error (.Errorf "failed to read body: %s" [] err))
    | .ok b => parseMessage L fuel b hdr

/-! ## The Go standard library

The library functions `eml.go` calls, translated from the Go sources (Go 1.22,
`golang.org/x/text` v0.14) for inputs held in memory. What is not reproduced is
a parameter (`Tables`): the code-point tables of the Japanese encodings, the
EUC-JP and Shift_JIS decoders, and Unicode lower-casing outside ASCII. The size
limits of the library (the 4096-byte line buffers of `bufio`, the limits of
10 MB and 10000 header fields of `multipart`) are not modelled: inputs stay below
them. -/

/-- The parts of the library that are taken as given. -/
structure Tables where
  /-- The table `jis0208Decode` of `golang.org/x/text/encoding/japanese`. -/
  jis0208Decode : List Nat
  /-- The table `jis0212Decode` of `golang.org/x/text/encoding/japanese`. -/
  jis0212Decode : List Nat
  /-- The decoder of `japanese.EUCJP`. -/
  EUCJP : Encoding
  /-- The decoder of `japanese.ShiftJIS`. -/
  ShiftJIS : Encoding
  /-- Go `strings.Map(unicode.ToLower, s)`, for a string with a byte outside ASCII. -/
  mapToLower : GoString → GoString

/-- Go `bytes.Index` / `strings.Index`: the offset of the first occurrence. -/
def bytes.Index : Bytes → Bytes → Option Nat
  | [], sep => if sep = [] then some 0 else none
  | c :: s, sep =>
    if sep.isPrefixOf (c :: s) then some 0
    else (bytes.Index s sep).map (fun i => i + 1)

/-- Lower-case an ASCII letter. -/
def asciiLower (c : Nat) : Nat :=
  if 65 ≤ c ∧ c ≤ 90 then c + 32 else c

/-- Go `strings.ToLower`. -/
def strings.ToLower (T : Tables) (s : GoString) : GoString :=
  if s.all (fun c => c < 0x80) then s.map asciiLower else T.mapToLower s

/-- Replace the two runes outside ASCII that Unicode simple case folding
identifies with an ASCII letter, U+017F with `s` and U+212A with `k`, and
lower-case ASCII letters. -/
def foldASCII : GoString → GoString
  | 0xC5 :: 0xBF :: rest => 115 :: foldASCII rest
  | 0xE2 :: 0x84 :: 0xAA :: rest => 107 :: foldASCII rest
  | c :: rest => asciiLower c :: foldASCII rest
  | [] => []

/-- Go `strings.EqualFold(s, t)` for a `t` of ASCII bytes. -/
def strings.EqualFold (s t : GoString) : Bool :=
  foldASCII s = t.map asciiLower

/-- The UTF-8 encodings of the code points of `unicode.IsSpace`. -/
def unicodeSpaces : List Bytes :=
  ([9, 10, 11, 12, 13, 32, 0x85, 0xA0, 0x1680, 0x2000, 0x2001, 0x2002, 0x2003, 0x2004,
    0x2005, 0x2006, 0x2007, 0x2008, 0x2009, 0x200A, 0x2028, 0x2029, 0x202F, 0x205F,
    0x3000] : List Nat).map utf8EncodeRune

/-- Remove one leading white-space rune, if there is one. -/
def dropSpace (s : GoString) : Option GoString :=
  (unicodeSpaces.find? (fun w => w.isPrefixOf s)).map (fun w => s.drop w.length)

/-- Go `strings.TrimLeftFunc(s, unicode.IsSpace)`, with at most `fuel` runes removed. -/
def trimLeftSpaceAux : Nat → GoString → GoString
  | 0, s => s
  | fuel + 1, s =>
    match dropSpace s with
    | none => s
    | some s1 => trimLeftSpaceAux fuel s1

/-- Go `strings.TrimLeftFunc(s, unicode.IsSpace)`. -/
def strings.TrimLeftSpace (s : GoString) : GoString :=
  trimLeftSpaceAux s.length s

/-- Remove one trailing white-space rune, if there is one. -/
def dropLastSpace (s : GoString) : Option GoString :=
  (unicodeSpaces.find? (fun w => w.reverse.isPrefixOf s.reverse)).map
    (fun w => s.take (s.length - w.length))

/-- Go `strings.TrimRightFunc(s, unicode.IsSpace)`, with at most `fuel` runes removed. -/
def trimRightSpaceAux : Nat → GoString → GoString
  | 0, s => s
  | fuel + 1, s =>
    match dropLastSpace s with
    | none => s
    | some s1 => trimRightSpaceAux fuel s1

/-- Go `strings.TrimSpace`. -/
def strings.TrimSpace (s : GoString) : GoString :=
  trimRightSpaceAux s.length (strings.TrimLeftSpace s)

/-! ### golang.org/x/text/encoding/japanese -/

namespace japanese

/-- The states of `iso2022JPDecoder`. -/
inductive State where
  | asciiState
  | katakanaState
  | jis0208State
  | jis0212State
  deriving DecidableEq, Repr

/-- A table entry: the rune at index `i`, U+FFFD when the index is outside the
table or the entry is 0. -/
def tableRune (table : List Nat) (i : Nat) : Nat :=
  match table.get? i with
  | none => 0xFFFD
  | some r => if r = 0 then 0xFFFD else r

/-- Go `iso2022JPDecoder.Transform` at the end of input: the runes written for
`src` from state `d`. -/
def iso2022JPRunes (T : Tables) : Nat → State → Bytes → List Nat
  | 0, _, _ => []
  | _, _, [] => []
  | fuel + 1, d, c0 :: src =>
    if c0 ≥ 0x80 then 0xFFFD :: iso2022JPRunes T fuel d src
    else if c0 = 0x1b then
      match src with
      | c1 :: c2 :: rest =>
        if c1 = 0x24 ∧ (c2 = 0x40 ∨ c2 = 0x42) then iso2022JPRunes T fuel .jis0208State rest
        else if c1 = 0x24 ∧ c2 = 0x28 then
          match rest with
          | c3 :: rest3 =>
            if c3 = 0x44 then iso2022JPRunes T fuel .jis0212State rest3
            else 0xFFFD :: iso2022JPRunes T fuel d src
          | [] => 0xFFFD :: iso2022JPRunes T fuel d src
        else if c1 = 0x28 ∧ (c2 = 0x42 ∨ c2 = 0x4A) then iso2022JPRunes T fuel .asciiState rest
        else if c1 = 0x28 ∧ c2 = 0x49 then iso2022JPRunes T fuel .katakanaState rest
        else 0xFFFD :: iso2022JPRunes T fuel d src
      | _ => 0xFFFD :: iso2022JPRunes T fuel d src
    else
      match d with
      | .asciiState => c0 :: iso2022JPRunes T fuel d src
      | .katakanaState =>
        if c0 < 0x21 ∨ 0x60 ≤ c0 then 0xFFFD :: iso2022JPRunes T fuel d src
        else (c0 + (0xff61 - 0x21)) :: iso2022JPRunes T fuel d src
      | _ =>
        if c0 = 0x0a then c0 :: iso2022JPRunes T fuel .asciiState src
        else
          match src with
          | [] => [0xFFFD]
          | c1 :: rest =>
            let i := (c0 + 256 - 0x21) % 256 * 94 + (c1 + 256 - 0x21) % 256
            let table := if d = .jis0208State then T.jis0208Decode else T.jis0212Decode
            tableRune table i :: iso2022JPRunes T fuel d rest

/-- The decoder of `japanese.ISO2022JP`, reading its input to the end. -/
def ISO2022JP (T : Tables) : Encoding :=
  fun src => .ok ((iso2022JPRunes T (src.length + 1) .asciiState src).flatMap utf8EncodeRune)

end japanese

/-! ### mime: encoded words -/

namespace mime

/-- Go `errInvalidWord`. -/
def errInvalidWord : Error := .New "mime: invalid RFC 2047 encoded-word"

/-- Go `fromHex` of `mime/encodedword.go`. -/
def fromHex (b : Nat) : Except Error Nat :=
  if 48 ≤ b ∧ b ≤ 57 then .ok (b - 48)
  else if 65 ≤ b ∧ b ≤ 70 then .ok (b - 65 + 10)
  else if 97 ≤ b ∧ b ≤ 102 then .ok (b - 97 + 10)
  else .error (.Newf "mime: invalid hex byte %#02x" [[b]])

/-- Go `readHexByte` of `mime/encodedword.go`. -/
def readHexByte (a b : Nat) : Except Error Nat :=
  match fromHex a with
  | .error err => .error err
  | .ok hb =>
    match fromHex b with
    | .error err => .error err
    | .ok lb => .ok (hb <<< 4 ||| lb)

/-- Go `qDecode`. -/
def qDecode : GoString → Except Error Bytes
  | [] => .ok []
  | c :: s =>
    if c = 95 then (qDecode s).map (fun dec => 32 :: dec)
    else if c = 61 then
      match s with
      | a :: b :: rest =>
        match readHexByte a b with
        | .error err => .error err
        | .ok v => (qDecode rest).map (fun dec => v :: dec)
      | _ => .error errInvalidWord
    else if (c ≤ 126 ∧ c ≥ 32) ∨ c = 10 ∨ c = 13 ∨ c = 9 then
      (qDecode s).map (fun dec => c :: dec)
    else .error errInvalidWord

/-- Go `decode(encoding byte, text string)`. -/
def decode (encoding : Nat) (text : GoString) : Except Error Bytes :=
  if encoding = 66 ∨ encoding = 98 then base64.StdEncoding.DecodeString text
  else if encoding = 81 ∨ encoding = 113 then qDecode text
  else .error errInvalidWord

/-- Go `hasNonWhitespace`. -/
def hasNonWhitespace (s : GoString) : Bool :=
  s.any (fun b => ¬ (b = 32 ∨ b = 9 ∨ b = 10 ∨ b = 13))

/-- Go `(d *WordDecoder).convert`, with `buf` the builder written to. -/
def convert (T : Tables) (CharsetReader : GoString → Reader → Except Error Reader)
    (buf : Bytes) (charset : GoString) (content : Bytes) : Except Error Bytes :=
  if strings.EqualFold charset (str "utf-8") then .ok (buf ++ content)
  else if strings.EqualFold charset (str "iso-8859-1") then
    .ok (buf ++ content.flatMap utf8EncodeRune)
  else if strings.EqualFold charset (str "us-ascii") then
    .ok (buf ++ content.flatMap (fun c => if c ≥ 0x80 then utf8EncodeRune 0xFFFD else [c]))
  else
    match CharsetReader (strings.ToLower T charset) (bytes.NewBuffer content) with
    | .error err => .error err
    | .ok r =>
      match r with
      | .error err => .error err
      | .ok b => .ok (buf ++ b)

/-- The loop of `(d *WordDecoder).DecodeHeader`: `header` is what is left of the
value, `buf` what has been written. Every turn shortens `header`; `fuel` bounds
the number of turns. -/
def decodeHeaderLoop (T : Tables) (CharsetReader : GoString → Reader → Except Error Reader) :
    Nat → GoString → Bool → Bytes → Except Error GoString
  | 0, header, _, buf => .ok (buf ++ header)
  | fuel + 1, header, betweenWords, buf =>
    match bytes.Index header (str "=?") with
    | none => .ok (buf ++ header)
    | some start =>
      let cur := start + 2
      match bytes.Index (header.drop cur) (str "?") with
      | none => .ok (buf ++ header)
      | some i =>
        let charset := (header.drop cur).take i
        let cur1 := cur + i + 1
        if header.length < cur1 + 4 then .ok (buf ++ header)
        else
          let encoding := header.getD cur1 0
          let cur2 := cur1 + 1
          if header.getD cur2 0 ≠ 63 then .ok (buf ++ header)
          else
            let cur3 := cur2 + 1
            match bytes.Index (header.drop cur3) (str "?=") with
            | none => .ok (buf ++ header)
            | some j =>
              let text := (header.drop cur3).take j
              let stop := cur3 + j + 2
              match decode encoding text with
              | .error _ =>
                decodeHeaderLoop T CharsetReader fuel (header.drop (start + 2)) false
                  (buf ++ header.take (start + 2))
              | .ok content =>
                let buf1 :=
                  if start > 0 ∧ (betweenWords = false ∨ hasNonWhitespace (header.take start) = true)
                  then buf ++ header.take start else buf
                match convert T CharsetReader buf1 charset content with
                | .error err => .error err
                | .ok buf2 => decodeHeaderLoop T CharsetReader fuel (header.drop stop) true buf2

/-- Go `(d *WordDecoder).DecodeHeader`, for a decoder with the given
`CharsetReader`. -/
def DecodeHeader (T : Tables) (CharsetReader : GoString → Reader → Except Error Reader)
    (header : GoString) : Except Error GoString :=
  match bytes.Index header (str "=?") with
  | none => .ok header
  | some i =>
    decodeHeaderLoop T CharsetReader (header.length + 1) (header.drop i) false (header.take i)

end mime

/-! ### mime: media types -/

/-- Go `m[k] = v`. -/
def GoMap.set {V : Type} : GoMap V → GoString → V → GoMap V
  | [], key, val => [(key, val)]
  | (k, v) :: rest, key, val =>
    if k = key then (k, val) :: rest else (k, v) :: GoMap.set rest key val

/-- Go `delete(m, k)`. -/
def GoMap.del {V : Type} (m : GoMap V) (key : GoString) : GoMap V :=
  m.filter (fun e => e.1 ≠ key)

namespace mime

/-- Go `isTSpecial`. -/
def isTSpecial (r : Nat) : Bool :=
  (str "()<>@,;:\\\"/[]?=").contains r

/-- Go `isTokenChar`. -/
def isTokenChar (r : Nat) : Bool :=
  r > 0x20 ∧ r < 0x7f ∧ ¬ isTSpecial r

/-- Go `consumeToken`. -/
def consumeToken (v : GoString) : GoString × GoString :=
  (v.takeWhile isTokenChar, v.dropWhile isTokenChar)

/-- Go `checkMediaTypeDisposition`. -/
def checkMediaTypeDisposition (s : GoString) : Except Error Unit :=
  let (typ, rest) := consumeToken s
  if typ = [] then .error (.New "mime: no media type")
  else if rest = [] then .ok ()
  else if ¬ strings.HasPrefix rest (str "/") then
    .error (.New "mime: expected slash after first token")
  else
    let (subtype, rest1) := consumeToken (rest.drop 1)
    if subtype = [] then .error (.New "mime: expected token after slash")
    else if rest1 ≠ [] then .error (.New "mime: unexpected content after media subtype")
    else .ok ()

/-- The loop of `consumeValue` over a quoted string: `v` is what follows the
opening quote (or the last byte read), `buffer` the value so far; `none` when the
closing quote is missing or a line break is met. -/
def consumeQuoted : Nat → GoString → Bytes → Option (GoString × GoString)
  | 0, _, _ => none
  | _, [], _ => none
  | fuel + 1, r :: v, buffer =>
    if r = 34 then some (buffer, v)
    else
      match v with
      | n :: v1 =>
        if r = 92 ∧ isTSpecial n then consumeQuoted fuel v1 (buffer ++ [n])
        else if r = 13 ∨ r = 10 then none
        else consumeQuoted fuel v (buffer ++ [r])
      | [] =>
        if r = 13 ∨ r = 10 then none
        else consumeQuoted fuel v (buffer ++ [r])

/-- Go `consumeValue`. -/
def consumeValue (v : GoString) : GoString × GoString :=
  match v with
  | [] => ([], [])
  | c :: rest =>
    if c ≠ 34 then consumeToken v
    else
      match consumeQuoted (rest.length + 1) rest [] with
      | none => ([], v)
      | some r => r

/-- Go `consumeMediaParam`. -/
def consumeMediaParam (T : Tables) (v : GoString) : GoString × GoString × GoString :=
  let rest := strings.TrimLeftSpace v
  if ¬ strings.HasPrefix rest (str ";") then ([], [], v)
  else
    let rest1 := strings.TrimLeftSpace (rest.drop 1)
    let (param0, rest2) := consumeToken rest1
    let param := strings.ToLower T param0
    if param = [] then ([], [], v)
    else
      let rest3 := strings.TrimLeftSpace rest2
      if ¬ strings.HasPrefix rest3 (str "=") then ([], [], v)
      else
        let rest4 := strings.TrimLeftSpace (rest3.drop 1)
        let (value, rest5) := consumeValue rest4
        if value = [] ∧ rest5 = rest4 then ([], [], v)
        else (param, value, rest5)

/-- Go `ishex`. -/
def ishex (c : Nat) : Bool :=
  (48 ≤ c ∧ c ≤ 57) ∨ (97 ≤ c ∧ c ≤ 102) ∨ (65 ≤ c ∧ c ≤ 70)

/-- Go `unhex`. -/
def unhex (c : Nat) : Nat :=
  if 48 ≤ c ∧ c ≤ 57 then c - 48
  else if 97 ≤ c ∧ c ≤ 102 then c - 97 + 10
  else if 65 ≤ c ∧ c ≤ 70 then c - 65 + 10
  else 0

/-- Go `percentHexUnescape`: `none` for the error. -/
def percentHexUnescape : Nat → GoString → Option GoString
  | 0, _ => some []
  | _, [] => some []
  | fuel + 1, c :: s =>
    if c ≠ 37 then (percentHexUnescape fuel s).map (fun t => c :: t)
    else
      match s with
      | a :: b :: rest =>
        if ishex a ∧ ishex b then
          (percentHexUnescape fuel rest).map (fun t => (unhex a <<< 4 ||| unhex b) % 256 :: t)
        else none
      | _ => none

/-- Go `strings.SplitN(v, "'", 3)` when it gives three pieces. -/
def splitQuote3 (v : GoString) : Option (GoString × GoString × GoString) :=
  match bytes.Index v [39] with
  | none => none
  | some i =>
    match bytes.Index (v.drop (i + 1)) [39] with
    | none => none
    | some j => some (v.take i, (v.drop (i + 1)).take j, v.drop (i + 1 + j + 1))

/-- Go `decode2231Enc`: `none` when it reports failure. -/
def decode2231Enc (T : Tables) (v : GoString) : Option GoString :=
  match splitQuote3 v with
  | none => none
  | some (sv0, _, sv2) =>
    let charset := strings.ToLower T sv0
    if charset = [] then none
    else if charset ≠ str "us-ascii" ∧ charset ≠ str "utf-8" then none
    else percentHexUnescape (sv2.length + 1) sv2

/-- The loop `for n := 0; ; n++` that stitches the pieces `key*n` and `key*n*`
of one continued parameter: the value built and whether a piece was found. -/
def stitchPieces (T : Tables) (key : GoString) (pieceMap : GoMap GoString) :
    Nat → Nat → Bytes → Bool → Bytes × Bool
  | 0, _, buf, valid => (buf, valid)
  | fuel + 1, n, buf, valid =>
    let simplePart := key ++ str "*" ++ str (toString n)
    match pieceMap.get? simplePart with
    | some v => stitchPieces T key pieceMap fuel (n + 1) (buf ++ v) true
    | none =>
      match pieceMap.get? (simplePart ++ str "*") with
      | none => (buf, valid)
      | some v =>
        if n = 0 then
          match decode2231Enc T v with
          | some decv => stitchPieces T key pieceMap fuel (n + 1) (buf ++ decv) true
          | none => stitchPieces T key pieceMap fuel (n + 1) buf true
        else
          stitchPieces T key pieceMap fuel (n + 1)
            (buf ++ (percentHexUnescape (v.length + 1) v).getD []) true

/-- The loop `for key, pieceMap := range continuation` of `ParseMediaType`. -/
def stitch (T : Tables) : GoMap (GoMap GoString) → GoMap GoString → GoMap GoString
  | [], params => params
  | (key, pieceMap) :: continuation, params =>
    match pieceMap.get? (key ++ str "*") with
    | some v =>
      match decode2231Enc T v with
      | some decv => stitch T continuation (params.set key decv)
      | none => stitch T continuation params
    | none =>
      match stitchPieces T key pieceMap (pieceMap.length + 1) 0 [] false with
      | (buf, true) => stitch T continuation (params.set key buf)
      | (_, false) => stitch T continuation params

/-- The loop `for len(v) > 0` of `ParseMediaType`. -/
def parseParams (T : Tables) (mediatype : GoString) :
    Nat → GoString → GoMap GoString → GoMap (GoMap GoString) →
      Except Error (GoString × GoMap GoString)
  | 0, _, params, continuation => .ok (mediatype, stitch T continuation params)
  | fuel + 1, v, params, continuation =>
    if v = [] then .ok (mediatype, stitch T continuation params)
    else
      let v1 := strings.TrimLeftSpace v
      if v1 = [] then .ok (mediatype, stitch T continuation params)
      else
        let (key, value, rest) := consumeMediaParam T v1
        if key = [] then
          if strings.TrimSpace rest = str ";" then .ok (mediatype, stitch T continuation params)
          else .error (.New "mime: invalid media parameter")
        else
          match bytes.Index key (str "*") with
          | some idx =>
            let baseName := key.take idx
            let pmap := (continuation.get? baseName).getD []
            match pmap.get? key with
            | some old =>
              if old ≠ value then .error (.New "mime: duplicate parameter name")
              else parseParams T mediatype fuel rest params
                (continuation.set baseName (pmap.set key value))
            | none =>
              parseParams T mediatype fuel rest params
                (continuation.set baseName (pmap.set key value))
          | none =>
            match params.get? key with
            | some old =>
              if old ≠ value then .error (.New "mime: duplicate parameter name")
              else parseParams T mediatype fuel rest (params.set key value) continuation
            | none => parseParams T mediatype fuel rest (params.set key value) continuation

/-- Go `mime.ParseMediaType`. -/
def ParseMediaType (T : Tables) (v : GoString) : Except Error (GoString × GoMap GoString) :=
  let base := v.take ((bytes.Index v (str ";")).getD v.length)
  let mediatype := strings.TrimSpace (strings.ToLower T base)
  match checkMediaTypeDisposition mediatype with
  | .error err => .error err
  | .ok _ => parseParams T mediatype (v.length + 1) (v.drop base.length) [] []

end mime

/-! ### bufio, net/textproto -/

/-- Go `io.EOF`. -/
def io.EOF : Error := .New "EOF"

/-- Go `io.ErrUnexpectedEOF`. -/
def io.ErrUnexpectedEOF : Error := .New "unexpected EOF"

/-- Go `(*bufio.Reader).ReadSlice(10)`: the line up to and with the first line
feed and what follows it, or everything that is left with `true` for the error
`io.EOF`. -/
def bufio.ReadSlice (s : Bytes) : Bytes × Bytes × Bool :=
  match bytes.Index s [10] with
  | none => (s, [], true)
  | some i => (s.take (i + 1), s.drop (i + 1), false)

/-- Go `(*bufio.Reader).ReadLine`: the next line without its end-of-line bytes and
what follows it, `none` for `io.EOF`. -/
def bufio.ReadLine (s : Bytes) : Option (Bytes × Bytes) :=
  if s = [] then none
  else
    match bytes.Index s [10] with
    | none => some (s, [])
    | some i =>
      let line := s.take i
      some (if line.getLast? = some 13 then line.dropLast else line, s.drop (i + 1))

/-- Go `m[key] = append(m[key], value)`. -/
def GoMap.add (m : GoMap (List GoString)) (key value : GoString) : GoMap (List GoString) :=
  m.set key (m.index key ++ [value])

namespace textproto

/-- Go `trim`: leading and trailing spaces and tabs removed. -/
def trim (s : Bytes) : Bytes :=
  ((s.dropWhile (fun c => c = 32 ∨ c = 9)).reverse.dropWhile (fun c => c = 32 ∨ c = 9)).reverse

/-- Go `errMessageTooLarge`. -/
def errMessageTooLarge : Error := .New "message too large"

/-- Go `ProtocolError`. -/
def ProtocolError (text : String) (line : Bytes) : Error :=
  .Newf text [line]

/-- The continuation lines of `readContinuedLineSlice`: `buf` is the line so
far, `s` the input after it. -/
def readContinuation : Nat → Bytes → Bytes → Bytes × Bytes
  | 0, buf, s => (buf, s)
  | fuel + 1, buf, s =>
    let s1 := s.dropWhile (fun c => c = 32 ∨ c = 9)
    if s1.length = s.length then (buf, s)
    else
      match bufio.ReadLine s1 with
      | none => (buf ++ [32], s1)
      | some (line, rest) => readContinuation fuel (buf ++ [32] ++ trim line) rest

/-- Go `(*Reader).readContinuedLineSlice(lim, mustHaveFieldNameColon)`: the
logical line and the input after it. -/
def readContinuedLineSlice (s : Bytes) : Except Error Bytes × Bytes :=
  match bufio.ReadLine s with
  | none => (.error io.EOF, s)
  | some (line, rest) =>
    if line = [] then (.ok [], rest)
    else if bytes.Index line [58] = none then
      (.error (ProtocolError "malformed MIME header: missing colon: %q" line), rest)
    else
      let (buf, rest1) := readContinuation (rest.length + 1) (trim line) rest
      (.ok buf, rest1)

/-- Go `validHeaderFieldByte`. -/
def validHeaderFieldByte (c : Nat) : Bool :=
  (48 ≤ c ∧ c ≤ 57) ∨ (97 ≤ c ∧ c ≤ 122) ∨ (65 ≤ c ∧ c ≤ 90) ∨ (str "!#$%&*+-.^_|~").contains c
    ∨ c = 39 ∨ c = 96

/-- Go `validHeaderValueByte`. -/
def validHeaderValueByte (c : Nat) : Bool :=
  c = 9 ∨ (0x20 ≤ c ∧ c ≤ 0x7e) ∨ 0x80 ≤ c

/-- The second loop of `canonicalMIMEHeaderKey`: upper case for the first letter
and after each dash, lower case elsewhere. -/
def canonicalize : Bool → Bytes → Bytes
  | _, [] => []
  | upper, c :: a =>
    let c1 := if upper ∧ 97 ≤ c ∧ c ≤ 122 then c - 32
      else if ¬ upper ∧ 65 ≤ c ∧ c ≤ 90 then c + 32 else c
    c1 :: canonicalize (c1 = 45) a

/-- Go `canonicalMIMEHeaderKey`. -/
def canonicalMIMEHeaderKey (a : Bytes) : GoString × Bool :=
  if a = [] then ([], false)
  else if a.any (fun c => ¬ validHeaderFieldByte c ∧ c ≠ 32) then (a, false)
  else if a.any (fun c => c = 32) then (a, true)
  else (canonicalize true a, true)

/-- The loop of `readMIMEHeader`: `m` is the header read so far. -/
def readHeaderLoop : Nat → Bytes → MIMEHeader → Except Error MIMEHeader × Bytes
  | 0, s, m => (.ok m, s)
  | fuel + 1, s, m =>
    match readContinuedLineSlice s with
    | (.error err, rest) => (.error err, rest)
    | (.ok kv, rest) =>
      if kv = [] then (.ok m, rest)
      else
        match bytes.Index kv [58] with
        | none => (.error (ProtocolError "malformed MIME header line: %s" kv), rest)
        | some i =>
          let k := kv.take i
          let v := kv.drop (i + 1)
          let (key, ok) := canonicalMIMEHeaderKey k
          if ¬ ok then (.error (ProtocolError "malformed MIME header line: %s" kv), rest)
          else if v.any (fun c => ¬ validHeaderValueByte c) then
            (.error (ProtocolError "malformed MIME header line: %s" kv), rest)
          else if key = [] then readHeaderLoop fuel rest m
          else
            let value := v.dropWhile (fun c => c = 32 ∨ c = 9)
            readHeaderLoop fuel rest (m.add key value)

/-- Go `(*Reader).ReadMIMEHeader`: the header, or the error, and the input that
follows what was read. -/
def ReadMIMEHeader (s : Bytes) : Except Error MIMEHeader × Bytes :=
  match s with
  | c :: _ =>
    if c = 32 ∨ c = 9 then
      match bufio.ReadLine s with
      | none => (.error io.EOF, s)
      | some (line, rest) =>
        if line.length > 80 then (.error errMessageTooLarge, rest)
        else (.error (ProtocolError "malformed MIME header initial line: %s" line), rest)
    else readHeaderLoop (s.length + 1) s []
  | [] => readHeaderLoop 1 s []

end textproto

/-! ### mime/quotedprintable -/

namespace quotedprintable

/-- Go `isQPDiscardWhitespace`. -/
def isQPDiscardWhitespace (r : Nat) : Bool :=
  r = 10 ∨ r = 13 ∨ r = 32 ∨ r = 9

/-- Go `fromHex` of `mime/quotedprintable`. -/
def fromHex (b : Nat) : Except Error Nat :=
  if 48 ≤ b ∧ b ≤ 57 then .ok (b - 48)
  else if 65 ≤ b ∧ b ≤ 70 then .ok (b - 65 + 10)
  else if 97 ≤ b ∧ b ≤ 102 then .ok (b - 97 + 10)
  else .error (.Newf "quotedprintable: invalid hex byte 0x%02x" [[b]])

/-- Go `readHexByte` of `mime/quotedprintable`. -/
def readHexByte (v : Bytes) : Except Error Nat :=
  match v with
  | a :: b :: _ =>
    match fromHex a with
    | .error err => .error err
    | .ok hb =>
      match fromHex b with
      | .error err => .error err
      | .ok lb => .ok (hb <<< 4 ||| lb)
  | _ => .error io.ErrUnexpectedEOF

/-- The bytes `Read` delivers for the content `r.line` of one line. -/
def decodeLine : Nat → Bytes → Except Error Bytes
  | 0, _ => .ok []
  | _, [] => .ok []
  | fuel + 1, b :: line =>
    if b = 61 then
      match readHexByte line with
      | .ok v => (decodeLine fuel (line.drop 2)).map (fun out => v :: out)
      | .error err =>
        match line with
        | c :: _ =>
          if c ≠ 13 ∧ c ≠ 10 then (decodeLine fuel line).map (fun out => 61 :: out)
          else .error err
        | [] => .error err
    else if b = 9 ∨ b = 13 ∨ b = 10 then (decodeLine fuel line).map (fun out => b :: out)
    else if b ≥ 0x80 then (decodeLine fuel line).map (fun out => b :: out)
    else if b < 32 ∨ b > 126 then
      .error (.Newf "quotedprintable: invalid unprintable byte 0x%02x" [[b]])
    else (decodeLine fuel line).map (fun out => b :: out)

/-- Go `(*Reader).Read`, line after line to the end of the input `s`. -/
def readAll : Nat → Bytes → Except Error Bytes
  | 0, _ => .ok []
  | fuel + 1, s =>
    let (wholeLine, rest, eof) := bufio.ReadSlice s
    let hasLF := wholeLine.getLast? = some 10
    let hasCR := [13, 10].isSuffixOf wholeLine
    let line := (wholeLine.reverse.dropWhile isQPDiscardWhitespace).reverse
    let rightStripped := wholeLine.drop line.length
    let soft := line.getLast? = some 61
    let content :=
      if soft then line.dropLast
      else if hasLF then line ++ (if hasCR then [13, 10] else [10])
      else line
    let bad := soft ∧ ¬ strings.HasPrefix rightStripped [10] ∧
      ¬ strings.HasPrefix rightStripped [13, 10] ∧
      ¬ (rightStripped = [] ∧ content ≠ [] ∧ eof)
    match decodeLine (content.length + 1) content with
    | .error err => .error err
    | .ok out =>
      if bad then .error (.Newf "quotedprintable: invalid bytes after =: %q" [rightStripped])
      else if eof then .ok out
      else (readAll fuel rest).map (fun more => out ++ more)

/-- Go `quotedprintable.NewReader(r)`, read to the end; when `r` fails the
reader fails with the error of `r`. -/
def NewReader (r : Reader) : Reader :=
  match r with
  | .error err => .error err
  | .ok s => readAll (s.length + 1) s

end quotedprintable

/-! ### mime/multipart -/

namespace multipart

/-- Go `skipLWSPChar`. -/
def skipLWSPChar (b : Bytes) : Bytes :=
  b.dropWhile (fun c => c = 32 ∨ c = 9)

/-- Go `(*Reader).isFinalBoundary`, for a reader with the given `--boundary--`
and line ending. -/
def isFinalBoundary (dashBoundaryDash nl line : Bytes) : Bool :=
  if ¬ strings.HasPrefix line dashBoundaryDash then false
  else
    let rest := skipLWSPChar (line.drop dashBoundaryDash.length)
    rest = [] ∨ rest = nl

/-- Go `(*Reader).isBoundaryDelimiterLine`: whether the line is a delimiter, and
the line ending of the reader afterwards (it becomes a bare line feed when the
first delimiter ends in one). -/
def isBoundaryDelimiterLine (dashBoundary nl : Bytes) (partsRead : Nat) (line : Bytes) :
    Bool × Bytes :=
  if ¬ strings.HasPrefix line dashBoundary then (false, nl)
  else
    let rest := skipLWSPChar (line.drop dashBoundary.length)
    let nl1 := if partsRead = 0 ∧ rest = [10] then nl.drop 1 else nl
    (rest = nl1, nl1)

/-- Go `matchAfterPrefix(buf, prefix, readErr)` once the input has been read to
its end (`readErr` is set), for a `buf` that starts with `prefix`: `true` for +1
(the prefix is a boundary), `false` for -1. -/
def matchAfterPrefix (buf pfx : Bytes) : Bool :=
  match buf.drop pfx.length with
  | [] => true
  | c :: rest =>
    if c = 32 ∨ c = 9 ∨ c = 13 ∨ c = 10 then true
    else if c = 45 then
      match rest with
      | [] => false
      | d :: _ => d = 45
    else false

/-- Go `scanUntilBoundary` driven by `partReader.Read` to the end of a part, once
some of the part has been read (`total > 0`): `data` is what has been read, `buf`
the input that follows. The body of the part and the input from its closing
boundary on, or `io.ErrUnexpectedEOF` when no boundary closes the part. -/
def scanRest (nlDashBoundary : Bytes) : Nat → Bytes → Bytes → Except Error (Bytes × Bytes)
  | 0, _, _ => .error io.ErrUnexpectedEOF
  | fuel + 1, buf, data =>
    match bytes.Index buf nlDashBoundary with
    | none => .error io.ErrUnexpectedEOF
    | some i =>
      if matchAfterPrefix (buf.drop i) nlDashBoundary then .ok (data ++ buf.take i, buf.drop i)
      else
        scanRest nlDashBoundary fuel (buf.drop (i + nlDashBoundary.length))
          (data ++ buf.take (i + nlDashBoundary.length))

/-- Go `ioutil.ReadAll` on the `partReader` of a part whose body starts at `buf`
(`total == 0`, where the boundary may follow at once). -/
def readPart (dashBoundary nlDashBoundary buf : Bytes) : Except Error (Bytes × Bytes) :=
  if strings.HasPrefix buf dashBoundary then
    if matchAfterPrefix buf dashBoundary then .ok ([], buf)
    else scanRest nlDashBoundary (buf.length + 1) (buf.drop dashBoundary.length) dashBoundary
  else if strings.HasPrefix dashBoundary buf then .error io.ErrUnexpectedEOF
  else scanRest nlDashBoundary (buf.length + 1) buf []

/-- Go `MIMEHeader.Get`: the first value of the key, or the empty string. -/
def headerGet (h : MIMEHeader) (key : GoString) : GoString :=
  (h.index key).headD []

/-- The calls of `(*Reader).NextPart`, each followed by `ioutil.ReadAll` on the
part: `s` is the input left, `partsRead` and `nl` the fields of the reader,
`expectNewPart` the local variable of the loop of `nextPart`. -/
def nextParts (boundary : GoString) : Nat → Bytes → Nat → Bytes → Bool → PartStream
  | 0, _, _, _, _ => .fail io.ErrUnexpectedEOF
  | fuel + 1, s, partsRead, nl, expectNewPart =>
    let dashBoundary := str "--" ++ boundary
    let dashBoundaryDash := dashBoundary ++ str "--"
    if dashBoundary = str "--" then .fail (.New "multipart: boundary is empty")
    else
      let (line, rest, eof) := bufio.ReadSlice s
      if eof ∧ isFinalBoundary dashBoundaryDash nl line then .eof
      else if eof then .fail (.Errorf "multipart: NextPart: %w" [] io.EOF)
      else
        match isBoundaryDelimiterLine dashBoundary nl partsRead line with
        | (true, nl1) =>
          match textproto.ReadMIMEHeader rest with
          | (.error err, _) =>
            if err = io.EOF then .eof
            else if err = textproto.errMessageTooLarge then
              .fail (.New "multipart: message too large")
            else .fail err
          | (.ok Header, rest1) =>
            let qp := strings.EqualFold (headerGet Header (str "Content-Transfer-Encoding"))
              (str "quoted-printable")
            let Header1 := if qp then Header.del (str "Content-Transfer-Encoding") else Header
            match readPart dashBoundary (nl1 ++ dashBoundary) rest1 with
            | .error err => .part Header1 (.error err) .eof
            | .ok (data, rest2) =>
              .part Header1
                (if qp then quotedprintable.NewReader (.ok data) else .ok data)
                (nextParts boundary fuel rest2 (partsRead + 1) nl1 false)
        | (false, _) =>
          if isFinalBoundary dashBoundaryDash nl line then .eof
          else if expectNewPart then
            .fail (.Newf "multipart: expecting a new Part; got line %q" [line])
          else if partsRead = 0 then nextParts boundary fuel rest partsRead nl false
          else if line = nl then nextParts boundary fuel rest partsRead nl true
          else .fail (.Newf "multipart: unexpected line in Next(): %q" [line])

/-- Go `multipart.NewReader(bytes.NewBuffer(body), boundary)`, as the parts the
loop of `parseMessage` gets from it. -/
def NewReader (body : Bytes) (boundary : GoString) : PartStream :=
  nextParts boundary (body.length + 1) body 0 [13, 10] false

end multipart

/-- The Go standard library: the `Lib` of the translations above. -/
def goLib (T : Tables) : Lib where
  ToLower := strings.ToLower T
  ParseMediaType := mime.ParseMediaType T
  DecodeHeader := mime.DecodeHeader T
  NewReader := multipart.NewReader
  quotedprintable := quotedprintable.NewReader
  ISO2022JP := japanese.ISO2022JP T
  EUCJP := T.EUCJP
  ShiftJIS := T.ShiftJIS
  ReadMIMEHeader := fun r =>
    match textproto.ReadMIMEHeader r with
    | (hdr, rest) => (hdr, bytes.NewBuffer rest)

/-! ## Specification-side notions -/

/-- `Message.Node n m`: `n` is a node of the tree `m` (the root, or a node of one
of its parts). -/
inductive Message.Node : Message → Message → Prop where
  | root (m : Message) : Message.Node m m
  | part {n p m : Message} : p ∈ m.Parts → Message.Node n p → Message.Node n m

/-- The media type of a node: what `mime.ParseMediaType` makes of the first
`Content-Type` value of its raw headers. -/
def Message.mediaType (L : Lib) (m : Message) : Option GoString :=
  match (m.RawHeaders.index (str "Content-Type")).head? with
  | none => none
  | some v =>
    match L.ParseMediaType v with
    | .error _ => none
    | .ok (ctype, _) => some ctype

/-- The parameters of the `Content-Type` of a node. -/
def Message.mediaParams (L : Lib) (m : Message) : GoMap GoString :=
  match (m.RawHeaders.index (str "Content-Type")).head? with
  | none => []
  | some v =>
    match L.ParseMediaType v with
    | .error _ => []
    | .ok (_, params) => params

/-- A node whose media type is `text/*`. -/
def Message.isText (L : Lib) (m : Message) : Prop :=
  ∃ ctype, m.mediaType L = some ctype ∧ strings.HasPrefix ctype (str "text/") = true

/-- A node whose media type is `multipart/*`. -/
def Message.isMultipart (L : Lib) (m : Message) : Prop :=
  ∃ ctype, m.mediaType L = some ctype ∧ strings.HasPrefix ctype (str "multipart/") = true

/-- The segments a multipart reader yields before it stops: the header of each
part and what reading its body gives. -/
def PartStream.segments : PartStream → List (MIMEHeader × Except Error Bytes)
  | .eof => []
  | .fail _ => []
  | .part Header body next => (Header, body) :: next.segments

/-- Transfer-encoding handling, in the words of the specification: standard
base64 for `base64`, quoted-printable for `quoted-printable`, the bytes unchanged
for any other value; `te` is the lower-cased `Content-Transfer-Encoding`. -/
def transferDecode (L : Lib) (te : GoString) (b : Bytes) : Except Error Bytes :=
  if te = str "base64" then base64.StdEncoding.DecodeString b
  else if te = str "quoted-printable" then L.quotedprintable (.ok b)
  else .ok b

/-- Charset transcoding, in the words of the specification: the decoder of the
fixed table for the lower-cased name, the bytes unchanged for a name outside
the table. -/
def charsetDecode (L : Lib) (charset : GoString) (b : Bytes) : Except Error Bytes :=
  match (encodings L).get? charset with
  | none => .ok b
  | some enc => enc b

/-- The order of `decodeBody`: the charset decoder on the raw bytes, then the
transfer decoding of its output. -/
def charsetThenTransfer (L : Lib) (charset te : GoString) (raw : Bytes) : Except Error Bytes :=
  match charsetDecode L (L.ToLower charset) raw with
  | .error err => .error err
  | .ok b => transferDecode L (L.ToLower te) b

/-- The order of the data model of the specification: the transfer decoding of
the raw bytes, then the charset decoder on its output. -/
def transferThenCharset (L : Lib) (charset te : GoString) (raw : Bytes) : Except Error Bytes :=
  match transferDecode L (L.ToLower te) raw with
  | .error err => .error err
  | .ok b => charsetDecode L (L.ToLower charset) b

/-- A charset name outside the fixed table: its lower-cased form is none of
`iso-2022-jp`, `euc-jp`, `shift_jis`. -/
def passThrough (L : Lib) (charset : GoString) : Prop :=
  L.ToLower charset ≠ str "iso-2022-jp" ∧ L.ToLower charset ≠ str "euc-jp" ∧
    L.ToLower charset ≠ str "shift_jis"

instance (L : Lib) (charset : GoString) : Decidable (passThrough L charset) := by
  unfold passThrough
  infer_instance

/-- Tables with no entry and decoders that copy their input, for the concrete
statements below: their inputs hold no double-byte character, no EUC-JP or
Shift_JIS text and no letter outside ASCII, so that none of these is consulted. -/
def noTables : Tables where
  jis0208Decode := []
  jis0212Decode := []
  EUCJP := fun b => .ok b
  ShiftJIS := fun b => .ok b
  mapToLower := fun s => s

/-! ### Inputs of the concrete statements -/

/-- The header `Content-Type: multipart/mixed; boundary=b`. -/
def mixedHeader : MIMEHeader :=
  [(str "Content-Type", [str "multipart/mixed; boundary=b"])]

/-- The header `Content-Type: text/plain`. -/
def plainHeader : MIMEHeader :=
  [(str "Content-Type", [str "text/plain"])]

/-- A multipart body with one `text/plain` part `hi`. -/
def onePartBody : Bytes :=
  str "--b\r\nContent-Type: text/plain\r\n\r\nhi\r\n--b--\r\n"

/-- The node of `onePartBody` under `mixedHeader`. -/
def onePartNode : Message :=
  .mk mixedHeader onePartBody mixedHeader none
    [.mk plainHeader (str "hi") plainHeader (some (str "hi")) []]

/-- A multipart body whose part is declared `quoted-printable`, with body `a=3Db`. -/
def qpPartBody : Bytes :=
  str ("--b\r\nContent-Type: text/plain\r\nContent-Transfer-Encoding: quoted-printable\r\n" ++
    "\r\na=3Db\r\n--b--\r\n")

/-- A multipart body whose part is declared `base64`, with body `aGk=`. -/
def base64PartBody : Bytes :=
  str ("--b\r\nContent-Type: text/plain\r\nContent-Transfer-Encoding: base64\r\n" ++
    "\r\naGk=\r\n--b--\r\n")

/-- The header of the part of `base64PartBody`. -/
def base64PartHeader : MIMEHeader :=
  [(str "Content-Type", [str "text/plain"]), (str "Content-Transfer-Encoding", [str "base64"])]

/-- The node of `base64PartBody` under `mixedHeader`. -/
def base64PartNode : Message :=
  .mk mixedHeader base64PartBody mixedHeader none
    [.mk base64PartHeader (str "aGk=") base64PartHeader (some (str "hi")) []]

/-- The header of a `text/plain` entity in ISO-2022-JP sent as base64. -/
def jisBase64Header : MIMEHeader :=
  [(str "Content-Type", [str "text/plain; charset=ISO-2022-JP"]),
   (str "Content-Transfer-Encoding", [str "base64"])]

/-- A header whose `Subject` holds two encoded words with a malformed payload,
`!!!` for base64 and `=ZZ` for quoted-printable. -/
def malformedWordHeader : MIMEHeader :=
  [(str "Subject", [str "=?UTF-8?B?!!!?=", str "=?UTF-8?Q?=ZZ?="]),
   (str "Content-Type", [str "text/plain"])]

/-! ### Notions for the later claims -/

/-- How a multipart reader stops: `none` when `NextPart` ends with `io.EOF` (the
terminating boundary), the error when it ends with another error. -/
def PartStream.stop : PartStream → Option Error
  | .eof => none
  | .fail err => some err
  | .part _ _ next => next.stop

/-- The two-part `multipart/mixed` fixture of `eml_test.go`: its raw headers. -/
def fixtureHeader : MIMEHeader :=
  [(str "Content-Language", [str "en-US"]),
   (str "Content-Type",
     [str "multipart/mixed; boundary=\"------------661FE4891A157355A5B6C1E2\""]),
   (str "Date", [str "Mon, 11 Feb 2019 11:51:57 +0900"]),
   (str "From", [str "Yushi Nakai <nyushi@example.com>"]),
   (str "Message-Id", [str "<744ea9a4-95b8-007d-657b-a6d909ce61f0@gmail.com>"]),
   (str "Mime-Version", [str "1.0"]),
   (str "Return-Path", [str "<nyushi@example.com>"]),
   (str "Subject", [str "multipart"]),
   (str "To", [str "nyushi@example.com"]),
   (str "User-Agent",
     [str ("Mozilla/5.0 (Macintosh; Intel Mac OS X 10.14; rv:60.0) " ++
       "Gecko/20100101 Thunderbird/60.5.0")])]

/-- The two-part fixture: its raw body. -/
def fixtureBody : Bytes :=
  str ("This is a multi-part message in MIME format.\r\n" ++
    "--------------661FE4891A157355A5B6C1E2\r\n" ++
    "Content-Type: text/plain; charset=utf-8; format=flowed\r\n" ++
    "Content-Transfer-Encoding: 7bit\r\n\r\n" ++
    "this is test mail\r\n\r\n" ++
    "--------------661FE4891A157355A5B6C1E2\r\n" ++
    "Content-Type: text/plain; charset=UTF-8; x-mac-type=\"0\"; x-mac-creator=\"0\";\r\n" ++
    " name=\"data\"\r\n" ++
    "Content-Transfer-Encoding: base64\r\n" ++
    "Content-Disposition: attachment;\r\n filename=\"data\"\r\n\r\n" ++
    "dGhpcyBpcyBkYXRhCg==\r\n" ++
    "--------------661FE4891A157355A5B6C1E2--\r\n")

/-- The header of the first part of the fixture, as the multipart reader returns it. -/
def fixturePart1Header : MIMEHeader :=
  [(str "Content-Type", [str "text/plain; charset=utf-8; format=flowed"]),
   (str "Content-Transfer-Encoding", [str "7bit"])]

/-- The header of the second part of the fixture, as the multipart reader returns it. -/
def fixturePart2Header : MIMEHeader :=
  [(str "Content-Type",
     [str "text/plain; charset=UTF-8; x-mac-type=\"0\"; x-mac-creator=\"0\"; name=\"data\""]),
   (str "Content-Transfer-Encoding", [str "base64"]),
   (str "Content-Disposition", [str "attachment; filename=\"data\""])]

/-- The node the test expects for the fixture. -/
def fixtureNode : Message :=
  .mk fixtureHeader fixtureBody fixtureHeader none
    [.mk fixturePart1Header (str "this is test mail\r\n") fixturePart1Header
        (some (str "this is test mail\r\n")) [],
     .mk fixturePart2Header (str "dGhpcyBpcyBkYXRhCg==") fixturePart2Header
        (some (str "this is data\n")) []]

/-- The header `Content-Type: application/octet-stream` with a transfer encoding. -/
def octetHeader : MIMEHeader :=
  [(str "Content-Type", [str "application/octet-stream"]),
   (str "Content-Transfer-Encoding", [str "base64"])]

/-- The segments of a multipart entity: what the multipart reader yields on its
body with the boundary of its `Content-Type`; none for another entity. -/
def subSegments (L : Lib) (body : Bytes) (header : MIMEHeader) :
    List (MIMEHeader × Except Error Bytes) :=
  match (header.index (str "Content-Type")).head? with
  | none => []
  | some v =>
    match L.ParseMediaType v with
    | .error _ => []
    | .ok (ctype, params) =>
      if strings.HasPrefix ctype (str "multipart/") then
        (L.NewReader body (params.indexStr (str "boundary"))).segments
      else []

/-- `SubPart L child parent`: the entity `child` (body and header) is a segment
of the multipart entity `parent`. -/
def SubPart (L : Lib) (child parent : Bytes × MIMEHeader) : Prop :=
  (child.2, Except.ok child.1) ∈ subSegments L parent.1 parent.2

instance (L : Lib) (child parent : Bytes × MIMEHeader) : Decidable (SubPart L child parent) := by
  unfold SubPart
  infer_instance

/-- `parseMessage` fails on an entity: whatever the budget, it returns no message. -/
def Fails (L : Lib) (body : Bytes) (header : MIMEHeader) : Prop :=
  ∀ fuel m, parseMessage L fuel body header ≠ .ok m

/-- A multipart body with two parts: the first has no `Content-Type`, the second
a `Content-Type` that is no media type. -/
def badPartsBody : Bytes :=
  str ("--b\r\nSubject: x\r\n\r\nhi\r\n" ++
    "--b\r\nContent-Type: text/plain; charset\r\n\r\nyo\r\n--b--\r\n")

namespace base64

/-- The bytes of `s` that are neither CR nor LF. -/
def stripNewlines (s : Bytes) : Bytes :=
  s.filter (fun c => decide (¬ (c = 10 ∨ c = 13)))

/-- `ValidFrom j t`: after `j` characters of the alphabet, `t` completes a padded
base64 text: it is characters of the alphabet, then as many `=` as bring the
number of characters to a multiple of four, at most two. -/
def ValidFrom (j : Nat) (t : Bytes) : Prop :=
  ∃ body pad, t = body ++ pad ∧ (∀ c ∈ body, (decodeMap c).isSome = true) ∧
    ((pad = [] ∧ (j + body.length) % 4 = 0) ∨
     (pad = [61] ∧ (j + body.length) % 4 = 3) ∨
     (pad = [61, 61] ∧ (j + body.length) % 4 = 2))

/-- A valid standard base64 payload (RFC 4648, section 4): characters of the
alphabet in groups of four, the last group padded with `=`. -/
def ValidPayload (t : Bytes) : Prop := ValidFrom 0 t

end base64

/-- A `text/plain` header with `Content-Transfer-Encoding: base64`. -/
def base64TextHeader : MIMEHeader :=
  [(str "Content-Type", [str "text/plain; charset=utf-8"]),
   (str "Content-Transfer-Encoding", [str "base64"])]

mutual
/-- The depth of a message tree: the number of levels below its root. -/
def Message.depth : Message → Nat
  | .mk _ _ _ _ parts => Message.depthParts parts
/-- One more than the greatest depth among the trees of a list, 0 for none. -/
def Message.depthParts : List Message → Nat
  | [] => 0
  | p :: ps => max (p.depth + 1) (Message.depthParts ps)
end

/-- The multipart reader of `L` hands out part bodies strictly shorter than the
body it reads. -/
def Shrinking (L : Lib) : Prop :=
  ∀ (body : Bytes) (boundary : GoString), ∀ seg ∈ (L.NewReader body boundary).segments,
    ∀ b, seg.2 = .ok b → b.length < body.length

set_option maxRecDepth 100000

/-! ## encoding/base64: the round trip -/

section Base64

open base64

theorem decodeMap_encodeStd : ∀ v, v < 64 → decodeMap (encodeStd.getD v 0) = some v := by
  decide

theorem or_shift (x y k : Nat) (h : y < 2 ^ k) : x <<< k ||| y = x * 2 ^ k + y := by
  rw [Nat.shiftLeft_eq, Nat.mul_comm, Nat.mul_add_lt_is_or h]

theorem quantum_val (v0 v1 v2 v3 : Nat) (h1 : v1 < 64) (h2 : v2 < 64) (h3 : v3 < 64) :
    v0 <<< 18 ||| v1 <<< 12 ||| v2 <<< 6 ||| v3 = v0 * 262144 + v1 * 4096 + v2 * 64 + v3 := by
  have e1 : v0 <<< 18 ||| v1 <<< 12 = (v0 * 64 + v1) <<< 12 := by
    rw [Nat.shiftLeft_eq v1, or_shift v0 (v1 * 2 ^ 12) 18 (by omega), Nat.shiftLeft_eq]
    omega
  have e2 : (v0 * 64 + v1) <<< 12 ||| v2 <<< 6 = ((v0 * 64 + v1) * 64 + v2) <<< 6 := by
    rw [Nat.shiftLeft_eq v2, or_shift _ (v2 * 2 ^ 6) 12 (by omega), Nat.shiftLeft_eq]
    omega
  rw [e1, e2, or_shift _ v3 6 (by omega)]
  omega

theorem quantumBytes_three (a b c : Nat) (ha : a < 256) (hb : b < 256) (hc : c < 256) :
    quantumBytes (sextets [a, b, c]) = [a, b, c] := by
  simp only [quantumBytes, sextets, List.getD_cons_zero, List.getD_cons_succ, List.length_cons,
    List.length_nil]
  rw [quantum_val _ _ _ _ (by omega) (by omega) (by omega)]
  simp only [Nat.shiftRight_eq_div_pow]
  have h1 : (a / 4 * 262144 + (a % 4 * 16 + b / 16) * 4096 + (b % 16 * 4 + c / 64) * 64 + c % 64)
      / 2 ^ 16 % 256 = a := by omega
  have h2 : (a / 4 * 262144 + (a % 4 * 16 + b / 16) * 4096 + (b % 16 * 4 + c / 64) * 64 + c % 64)
      / 2 ^ 8 % 256 = b := by omega
  have h3 : (a / 4 * 262144 + (a % 4 * 16 + b / 16) * 4096 + (b % 16 * 4 + c / 64) * 64 + c % 64)
      % 256 = c := by omega
  rw [h1, h2, h3]
  rfl

theorem quantumBytes_two (a b : Nat) (ha : a < 256) (hb : b < 256) :
    quantumBytes (sextets [a, b]) = [a, b] := by
  simp only [quantumBytes, sextets, List.getD_cons_zero, List.getD_cons_succ, List.length_cons,
    List.length_nil, List.getD_nil]
  rw [quantum_val _ _ _ _ (by omega) (by omega) (by omega)]
  simp only [Nat.shiftRight_eq_div_pow]
  have h1 : (a / 4 * 262144 + (a % 4 * 16 + b / 16) * 4096 + (b % 16 * 4) * 64 + 0)
      / 2 ^ 16 % 256 = a := by omega
  have h2 : (a / 4 * 262144 + (a % 4 * 16 + b / 16) * 4096 + (b % 16 * 4) * 64 + 0)
      / 2 ^ 8 % 256 = b := by omega
  rw [h1, h2]
  rfl

theorem quantumBytes_one (a : Nat) (ha : a < 256) :
    quantumBytes (sextets [a]) = [a] := by
  simp only [quantumBytes, sextets, List.getD_cons_zero, List.getD_cons_succ, List.length_cons,
    List.length_nil, List.getD_nil]
  rw [quantum_val _ _ _ _ (by omega) (by omega) (by omega)]
  simp only [Nat.shiftRight_eq_div_pow]
  have h1 : (a / 4 * 262144 + (a % 4 * 16) * 4096 + 0 * 64 + 0) / 2 ^ 16 % 256 = a := by omega
  rw [h1]
  rfl

theorem decode_alphabet (v : Nat) (hv : v < 64) (rest : Bytes) (si : Nat) (dbuf : List Nat)
    (out : Bytes) :
    decode (encodeStd.getD v 0 :: rest) si dbuf out =
      if dbuf.length = 3 then decode rest (si + 1) [] (out ++ quantumBytes (dbuf ++ [v]))
      else decode rest (si + 1) (dbuf ++ [v]) out := by
  rw [decode, decodeMap_encodeStd v hv]

theorem decodeMap_pad : decodeMap 61 = none := by decide

theorem decode_pad2 (si : Nat) (dbuf : List Nat) (out : Bytes) (h : dbuf.length = 2) :
    decode [61, 61] si dbuf out = .ok (out ++ quantumBytes dbuf) := by
  rw [decode, decodeMap_pad]
  simp [decodePadding, skipNewlines, h]

theorem decode_pad1 (si : Nat) (dbuf : List Nat) (out : Bytes) (h : dbuf.length = 3) :
    decode [61] si dbuf out = .ok (out ++ quantumBytes dbuf) := by
  rw [decode, decodeMap_pad]
  simp [decodePadding, skipNewlines, h]

theorem sextets_lt (a b c : Nat) (ha : a < 256) (hb : b < 256) (hc : c < 256) :
    a / 4 < 64 ∧ a % 4 * 16 + b / 16 < 64 ∧ b % 16 * 4 + c / 64 < 64 ∧ c % 64 < 64 ∧
      a % 4 * 16 < 64 ∧ b % 16 * 4 < 64 := by
  omega

theorem decode_encode : ∀ (x : Bytes), (∀ b ∈ x, b < 256) → ∀ (si : Nat) (out : Bytes),
    decode (StdEncoding.EncodeToString x) si [] out = .ok (out ++ x)
  | [], _, si, out => by simp [StdEncoding.EncodeToString, decode]
  | [a], h, si, out => by
    have ha : a < 256 := h a (by simp)
    obtain ⟨h0, _, _, _, h1, _⟩ := sextets_lt a 0 0 ha (by omega) (by omega)
    have e : StdEncoding.EncodeToString [a] =
        encodeStd.getD (a / 4) 0 :: encodeStd.getD (a % 4 * 16) 0 :: [61, 61] := rfl
    rw [e, decode_alphabet _ h0, if_neg (by simp), decode_alphabet _ h1, if_neg (by simp)]
    have q := quantumBytes_one a ha
    simp only [sextets] at q
    rw [decode_pad2 _ _ _ (by simp)]
    simp only [List.nil_append, List.cons_append] at q ⊢
    rw [q]
  | [a, b], h, si, out => by
    have ha : a < 256 := h a (by simp)
    have hb : b < 256 := h b (by simp)
    obtain ⟨h0, h1, _, _, _, h2⟩ := sextets_lt a b 0 ha hb (by omega)
    have e : StdEncoding.EncodeToString [a, b] =
        encodeStd.getD (a / 4) 0 :: encodeStd.getD (a % 4 * 16 + b / 16) 0 ::
          encodeStd.getD (b % 16 * 4) 0 :: [61] := rfl
    rw [e, decode_alphabet _ h0, if_neg (by simp), decode_alphabet _ h1, if_neg (by simp),
      decode_alphabet _ h2, if_neg (by simp)]
    have q := quantumBytes_two a b ha hb
    simp only [sextets] at q
    rw [decode_pad1 _ _ _ (by simp)]
    simp only [List.nil_append, List.cons_append] at q ⊢
    rw [q]
  | a :: b :: c :: rest, h, si, out => by
    have ha : a < 256 := h a (by simp)
    have hb : b < 256 := h b (by simp)
    have hc : c < 256 := h c (by simp)
    obtain ⟨h0, h1, h2, h3, _, _⟩ := sextets_lt a b c ha hb hc
    have e : StdEncoding.EncodeToString (a :: b :: c :: rest) =
        encodeStd.getD (a / 4) 0 :: encodeStd.getD (a % 4 * 16 + b / 16) 0 ::
          encodeStd.getD (b % 16 * 4 + c / 64) 0 :: encodeStd.getD (c % 64) 0 ::
            StdEncoding.EncodeToString rest := rfl
    rw [e, decode_alphabet _ h0, if_neg (by simp), decode_alphabet _ h1, if_neg (by simp),
      decode_alphabet _ h2, if_neg (by simp), decode_alphabet _ h3, if_pos (by simp)]
    have q := quantumBytes_three a b c ha hb hc
    simp only [sextets] at q
    simp only [List.nil_append, List.cons_append] at q ⊢
    rw [q, decode_encode rest (fun x hx => h x (by simp [hx]))]
    simp

end Base64

/-! ## Header decoding -/

theorem decodeValues_length (L : Lib) (k : GoString) :
    ∀ (values ds : List GoString), decodeValues L k values = .ok ds →
      ds.length = values.length := by
  intro values
  induction values with
  | nil =>
    intro ds h
    simp only [decodeValues, Except.ok.injEq] at h
    subst h
    rfl
  | cons v values ih =>
    intro ds h
    simp only [decodeValues] at h
    split at h
    · exact absurd h (by simp)
    · split at h
      · exact absurd h (by simp)
      · rename_i ds1 hds1
        simp only [Except.ok.injEq] at h
        subst h
        simp [ih ds1 hds1]

theorem decodeHeaders_entries (L : Lib) :
    ∀ (hdr decoded : MIMEHeader), decodeHeaders L hdr = .ok decoded →
      decoded.keys = hdr.keys ∧
      ∀ k, Option.map List.length (decoded.get? k) = Option.map List.length (hdr.get? k) := by
  intro hdr
  induction hdr with
  | nil =>
    intro decoded h
    simp only [decodeHeaders, Except.ok.injEq] at h
    subst h
    exact ⟨rfl, fun _ => rfl⟩
  | cons e hdr ih =>
    obtain ⟨k, values⟩ := e
    intro decoded h
    simp only [decodeHeaders] at h
    split at h
    · exact absurd h (by simp)
    · rename_i ds hds
      split at h
      · exact absurd h (by simp)
      · rename_i dec1 hdec1
        simp only [Except.ok.injEq] at h
        subst h
        obtain ⟨hk, hl⟩ := ih dec1 hdec1
        refine ⟨by simp [GoMap.keys] at hk ⊢; exact hk, fun key => ?_⟩
        simp only [GoMap.get?]
        by_cases hkey : k = key
        · simp [hkey, decodeValues_length L k values ds hds]
        · simp [hkey, hl key]

/-! ## The shape of what parseMessage returns -/

/-- What a successful call of `parseMessage` went through. -/
theorem parseMessage_ok_inv (L : Lib) (fuel : Nat) (body : Bytes) (header : MIMEHeader)
    (m : Message) (h : parseMessage L fuel body header = .ok m) :
    ∃ fuel1 dhdr v ctype params, fuel = fuel1 + 1 ∧
      decodeHeaders L header = .ok dhdr ∧
      (header.index (str "Content-Type")).head? = some v ∧
      L.ParseMediaType v = .ok (ctype, params) ∧
      ((strings.HasPrefix ctype (str "text/") = true ∧
          ∃ decBody, decodeBody L (params.indexStr (str "charset"))
              (Message.mk header body dhdr none []).transferEncoding (bytes.NewBuffer body)
            = .ok decBody ∧ m = Message.mk header body dhdr (some decBody) []) ∨
       (strings.HasPrefix ctype (str "text/") = false ∧
          strings.HasPrefix ctype (str "multipart/") = true ∧
          ∃ parts, parseParts (fun b h => parseMessage L fuel1 b h)
              (L.NewReader body (params.indexStr (str "boundary"))) [] = .ok parts ∧
            m = Message.mk header body dhdr none parts) ∨
       (strings.HasPrefix ctype (str "text/") = false ∧
          strings.HasPrefix ctype (str "multipart/") = false ∧
          m = Message.mk header body dhdr none [])) := by
  cases fuel with
  | zero => simp [parseMessage] at h
  | succ fuel1 =>
    simp only [parseMessage, Message.RawHeaders, Message.RawBody] at h
    split at h
    · exact absurd h (by simp)
    · rename_i dhdr hd
      split at h
      · exact absurd h (by simp)
      · rename_i v hv
        split at h
        · exact absurd h (by simp)
        · rename_i ctype params hp
          refine ⟨fuel1, dhdr, v, ctype, params, rfl, hd, hv, hp, ?_⟩
          split at h
          · rename_i ht
            split at h
            · exact absurd h (by simp)
            · rename_i decBody hb
              simp only [Except.ok.injEq] at h
              exact Or.inl ⟨ht, decBody, hb, h.symm⟩
          · rename_i ht
            split at h
            · rename_i hm
              split at h
              · exact absurd h (by simp)
              · rename_i parts hparts
                simp only [Except.ok.injEq] at h
                exact Or.inr (Or.inl ⟨by simpa using ht, hm, parts, hparts, h.symm⟩)
            · rename_i hm
              simp only [Except.ok.injEq] at h
              exact Or.inr (Or.inr ⟨by simpa using ht, by simpa using hm, h.symm⟩)

theorem parseParts_ok (parse : Bytes → MIMEHeader → Except Failure Message) :
    ∀ (s : PartStream) (acc parts : List Message), parseParts parse s acc = .ok parts →
      ∃ new, parts = acc ++ new ∧
        List.Forall₂ (fun seg p => ∃ b, seg.2 = .ok b ∧ parse b seg.1 = .ok p) s.segments new := by
  intro s
  induction s with
  | eof =>
    intro acc parts h
    simp only [parseParts, Except.ok.injEq] at h
    exact ⟨[], by simp [h], by simp [PartStream.segments]⟩
  | fail err =>
    intro acc parts h
    simp [parseParts] at h
  | part Header body next ih =>
    intro acc parts h
    simp only [parseParts] at h
    split at h
    · exact absurd h (by simp)
    · rename_i partBody
      split at h
      · exact absurd h (by simp)
      · exact absurd h (by simp)
      · rename_i partMsg hp
        obtain ⟨new, hnew, hall⟩ := ih _ _ h
        refine ⟨partMsg :: new, by simp [hnew], ?_⟩
        simp only [PartStream.segments]
        exact List.Forall₂.cons ⟨partBody, rfl, hp⟩ hall

theorem parseMessage_ok_raw (L : Lib) (fuel : Nat) (body : Bytes) (header : MIMEHeader)
    (m : Message) (h : parseMessage L fuel body header = .ok m) :
    m.RawBody = body ∧ m.RawHeaders = header := by
  obtain ⟨_, _, _, _, _, _, _, _, _, hc⟩ := parseMessage_ok_inv L fuel body header m h
  rcases hc with ⟨_, _, _, rfl⟩ | ⟨_, _, _, _, rfl⟩ | ⟨_, _, rfl⟩ <;> exact ⟨rfl, rfl⟩

theorem forall₂_right_mem {α β : Type} {R : α → β → Prop} {l1 : List α} {l2 : List β}
    (h : List.Forall₂ R l1 l2) : ∀ b ∈ l2, ∃ a ∈ l1, R a b := by
  induction h with
  | nil => simp
  | cons hr _ ih =>
    intro b hb
    rcases List.mem_cons.mp hb with rfl | hb
    · exact ⟨_, List.mem_cons_self _ _, hr⟩
    · obtain ⟨a, ha, hr1⟩ := ih b hb
      exact ⟨a, List.mem_cons_of_mem _ ha, hr1⟩

/-- The parts of a node that `parseMessage` returned were returned by
`parseMessage` too. -/
theorem parseMessage_ok_parts (L : Lib) (fuel : Nat) (body : Bytes) (header : MIMEHeader)
    (m : Message) (h : parseMessage L fuel body header = .ok m) :
    ∀ p ∈ m.Parts, ∃ fuel1 b hd, parseMessage L fuel1 b hd = .ok p := by
  obtain ⟨fuel1, _, _, _, _, _, _, _, _, hc⟩ := parseMessage_ok_inv L fuel body header m h
  rcases hc with ⟨_, _, _, rfl⟩ | ⟨_, _, parts, hparts, rfl⟩ | ⟨_, _, rfl⟩
  · simp [Message.Parts]
  · intro p hp
    obtain ⟨new, hnew, hall⟩ := parseParts_ok _ _ _ _ hparts
    simp only [Message.Parts, hnew, List.nil_append] at hp
    obtain ⟨seg, _, b, _, hb⟩ := forall₂_right_mem hall p hp
    exact ⟨fuel1, b, seg.1, hb⟩
  · simp [Message.Parts]

/-- Every node of a tree that `parseMessage` returned is what `parseMessage`
returns on the raw body and the raw headers of that node. -/
theorem node_parsed (L : Lib) {n m : Message} (hn : Message.Node n m) :
    ∀ (fuel : Nat) (body : Bytes) (header : MIMEHeader),
      parseMessage L fuel body header = .ok m →
      ∃ fuel1, parseMessage L fuel1 n.RawBody n.RawHeaders = .ok n := by
  induction hn with
  | root =>
    intro fuel body header h
    obtain ⟨hb, hh⟩ := parseMessage_ok_raw L fuel body header _ h
    exact ⟨fuel, by rw [hb, hh]; exact h⟩
  | part hp _ ih =>
    intro fuel body header h
    obtain ⟨fuel1, b, hd, hpm⟩ := parseMessage_ok_parts L fuel body header _ h _ hp
    exact ih fuel1 b hd hpm

theorem hasPrefix_multipart_not_text (ctype : GoString)
    (h : strings.HasPrefix ctype (str "multipart/") = true) :
    strings.HasPrefix ctype (str "text/") = false := by
  cases ctype with
  | nil => simp [strings.HasPrefix, str, utf8EncodeRune] at h
  | cons c rest =>
    have e1 : str "multipart/" = 109 :: str "ultipart/" := by decide
    have e2 : str "text/" = 116 :: str "ext/" := by decide
    rw [strings.HasPrefix, e1] at h
    rw [strings.HasPrefix, e2]
    simp only [List.isPrefixOf, Bool.and_eq_true, beq_iff_eq] at h
    simp only [List.isPrefixOf, Bool.and_eq_false_imp, beq_iff_eq]
    omega

/-- What a successful call of `parseMessage` returns, in terms of the node. -/
theorem parseMessage_ok_shape (L : Lib) (fuel : Nat) (body : Bytes) (header : MIMEHeader)
    (m : Message) (h : parseMessage L fuel body header = .ok m) :
    ∃ fuel1 ctype, fuel = fuel1 + 1 ∧
      m.RawHeaders = header ∧ m.RawBody = body ∧
      decodeHeaders L header = .ok m.DecodedHeaders ∧
      m.mediaType L = some ctype ∧
      ((strings.HasPrefix ctype (str "text/") = true ∧
          ∃ d, decodeBody L ((m.mediaParams L).indexStr (str "charset")) m.transferEncoding
              (bytes.NewBuffer body) = .ok d ∧ m.DecodedBody = some d ∧ m.Parts = []) ∨
       (strings.HasPrefix ctype (str "text/") = false ∧
          strings.HasPrefix ctype (str "multipart/") = true ∧ m.DecodedBody = none ∧
          parseParts (fun b h => parseMessage L fuel1 b h)
            (L.NewReader body ((m.mediaParams L).indexStr (str "boundary"))) [] = .ok m.Parts) ∨
       (strings.HasPrefix ctype (str "text/") = false ∧
          strings.HasPrefix ctype (str "multipart/") = false ∧
          m.DecodedBody = none ∧ m.Parts = [])) := by
  obtain ⟨fuel1, dhdr, v, ctype, params, hf, hd, hv, hp, hc⟩ :=
    parseMessage_ok_inv L fuel body header m h
  refine ⟨fuel1, ctype, hf, ?_⟩
  rcases hc with ⟨ht, d, hb, rfl⟩ | ⟨ht, hm, parts, hparts, rfl⟩ | ⟨ht, hm, rfl⟩
  · refine ⟨rfl, rfl, hd, ?_, Or.inl ⟨ht, d, ?_, rfl, rfl⟩⟩
    · simp [Message.mediaType, Message.RawHeaders, hv, hp]
    · simpa [Message.mediaParams, Message.RawHeaders, hv, hp, Message.transferEncoding] using hb
  · refine ⟨rfl, rfl, hd, ?_, Or.inr (Or.inl ⟨ht, hm, rfl, ?_⟩)⟩
    · simp [Message.mediaType, Message.RawHeaders, hv, hp]
    · simpa [Message.mediaParams, Message.RawHeaders, hv, hp, Message.Parts] using hparts
  · refine ⟨rfl, rfl, hd, ?_, Or.inr (Or.inr ⟨ht, hm, rfl, rfl⟩)⟩
    simp [Message.mediaType, Message.RawHeaders, hv, hp]

/-- The parts of a multipart node are, in order, what `parseMessage` returns on
the segments of the multipart reader. -/
theorem parseMessage_ok_segments (L : Lib) (fuel : Nat) (body : Bytes) (header : MIMEHeader)
    (m : Message) (h : parseMessage L fuel body header = .ok m)
    (hm : m.isMultipart L) :
    m.DecodedBody = none ∧
      List.Forall₂ (fun seg p => ∃ b, seg.2 = .ok b ∧ parseMessage L (fuel - 1) b seg.1 = .ok p)
        (L.NewReader body ((m.mediaParams L).indexStr (str "boundary"))).segments m.Parts := by
  obtain ⟨fuel1, ctype, hf, _, _, _, hmt, hc⟩ := parseMessage_ok_shape L fuel body header m h
  obtain ⟨ctype1, hmt1, hmp⟩ := hm
  rw [hmt] at hmt1
  cases hmt1
  have htext := hasPrefix_multipart_not_text ctype hmp
  rcases hc with ⟨ht, _⟩ | ⟨_, _, hnone, hparts⟩ | ⟨_, hmf, _⟩
  · rw [ht] at htext
    exact absurd htext (by simp)
  · obtain ⟨new, hnew, hall⟩ := parseParts_ok _ _ _ _ hparts
    subst hf
    simp only [List.nil_append] at hnew
    rw [hnew]
    exact ⟨hnone, hall⟩
  · rw [hmp] at hmf
    exact absurd hmf (by simp)

/-! ## Body decoding -/

theorem passThrough_iff (L : Lib) (charset : GoString) :
    passThrough L charset ↔ (encodings L).get? (L.ToLower charset) = none := by
  simp only [passThrough, encodings, GoMap.get?]
  constructor
  · rintro ⟨h1, h2, h3⟩
    rw [if_neg (fun h => h1 h.symm), if_neg (fun h => h2 h.symm), if_neg (fun h => h3 h.symm)]
  · intro h
    by_cases h1 : str "iso-2022-jp" = L.ToLower charset
    · rw [if_pos h1] at h
      exact absurd h (by simp)
    · rw [if_neg h1] at h
      by_cases h2 : str "euc-jp" = L.ToLower charset
      · rw [if_pos h2] at h
        exact absurd h (by simp)
      · rw [if_neg h2] at h
        by_cases h3 : str "shift_jis" = L.ToLower charset
        · rw [if_pos h3] at h
          exact absurd h (by simp)
        · exact ⟨fun e => h1 e.symm, fun e => h2 e.symm, fun e => h3 e.symm⟩

/-- `decodeBody` succeeds exactly when the charset decoder followed by the
transfer decoding does, with the same result. -/
theorem decodeBody_ok_iff (L : Lib) (charset te : GoString) (raw d : Bytes) :
    decodeBody L charset te (bytes.NewBuffer raw) = .ok d ↔
      charsetThenTransfer L charset te raw = .ok d := by
  simp only [decodeBody, charsetReader, charsetThenTransfer, charsetDecode, bytes.NewBuffer,
    ioutil.ReadAll, transferDecode, transform.NewReader]
  cases hget : (encodings L).get? (L.ToLower charset) with
  | none =>
    simp only []
    split_ifs with h1 h2
    · cases hb : base64.StdEncoding.DecodeString raw <;> simp
    · cases hq : L.quotedprintable (Except.ok raw) <;> simp
    · rfl
  | some enc =>
    simp only []
    cases he : enc raw with
    | error e => simp
    | ok b =>
      simp only []
      split_ifs with h1 h2
      · cases hb : base64.StdEncoding.DecodeString b <;> simp
      · cases hq : L.quotedprintable (Except.ok b) <;> simp
      · rfl

/-- A node of a tree returned by `parseMessage` that is a `text/*` node has the
result of `decodeBody` on its raw body as decoded body. -/
theorem text_node_decoded (L : Lib) (fuel : Nat) (body : Bytes) (header : MIMEHeader)
    (m n : Message) (h : parseMessage L fuel body header = .ok m)
    (hn : Message.Node n m) (ht : n.isText L) :
    ∃ d, n.DecodedBody = some d ∧
      decodeBody L ((n.mediaParams L).indexStr (str "charset")) n.transferEncoding
        (bytes.NewBuffer n.RawBody) = .ok d := by
  obtain ⟨fuel1, hp⟩ := node_parsed L hn fuel body header h
  obtain ⟨_, ctype, _, _, _, _, hmt, hc⟩ := parseMessage_ok_shape L _ _ _ n hp
  obtain ⟨ctype1, hmt1, htext⟩ := ht
  rw [hmt] at hmt1
  cases hmt1
  rcases hc with ⟨_, d, hb, hd, _⟩ | ⟨hf, _⟩ | ⟨hf, _⟩
  · exact ⟨d, hd, hb⟩
  · rw [htext] at hf
    exact absurd hf (by simp)
  · rw [htext] at hf
    exact absurd hf (by simp)

/-- A multipart reader made with the empty boundary fails at the first
`NextPart`. -/
theorem NewReader_empty_boundary (body : Bytes) :
    multipart.NewReader body [] = .fail (.New "multipart: boundary is empty") := by
  simp [multipart.NewReader, multipart.nextParts]

/-! ## Errors of the header decoder -/

theorem decodeValues_error (L : Lib) (k : GoString) :
    ∀ (values : List GoString) (err : Error), decodeValues L k values = .error err →
      ∃ v e, v ∈ values ∧ L.DecodeHeader (charsetReader L) v = .error e ∧
        err = .Errorf "failed to decode %s: %s: %s" [k, v] e := by
  intro values
  induction values with
  | nil => intro err h; simp [decodeValues] at h
  | cons v values ih =>
    intro err h
    simp only [decodeValues] at h
    split at h
    · rename_i e he
      simp only [Except.error.injEq] at h
      exact ⟨v, e, List.mem_cons_self _ _, he, h.symm⟩
    · split at h
      · rename_i e1 he1
        simp only [Except.error.injEq] at h
        subst h
        obtain ⟨v1, e, hv1, he, herr⟩ := ih _ he1
        exact ⟨v1, e, List.mem_cons_of_mem _ hv1, he, herr⟩
      · exact absurd h (by simp)

theorem decodeHeaders_error (L : Lib) :
    ∀ (hdr : MIMEHeader) (err : Error), decodeHeaders L hdr = .error err →
      ∃ k values v e, (k, values) ∈ hdr ∧ v ∈ values ∧
        L.DecodeHeader (charsetReader L) v = .error e ∧
        err = .Errorf "failed to decode %s: %s: %s" [k, v] e := by
  intro hdr
  induction hdr with
  | nil => intro err h; simp [decodeHeaders] at h
  | cons entry hdr ih =>
    obtain ⟨k, values⟩ := entry
    intro err h
    simp only [decodeHeaders] at h
    split at h
    · rename_i e he
      simp only [Except.error.injEq] at h
      subst h
      obtain ⟨v, e1, hv, he1, herr⟩ := decodeValues_error L k values _ he
      exact ⟨k, values, v, e1, List.mem_cons_self _ _, hv, he1, herr⟩
    · split at h
      · rename_i e1 he1
        simp only [Except.error.injEq] at h
        subst h
        obtain ⟨k1, values1, v, e, hmem, hv, he, herr⟩ := ih _ he1
        exact ⟨k1, values1, v, e, List.mem_cons_of_mem _ hmem, hv, he, herr⟩
      · exact absurd h (by simp)

/-- The word decoder returns no error of its own: an error of `DecodeHeader` is
an error of `convert`, the charset conversion of a word whose payload decoded. -/
theorem decodeHeaderLoop_error (T : Tables)
    (CharsetReader : GoString → Reader → Except Error Reader) :
    ∀ (fuel : Nat) (header : GoString) (betweenWords : Bool) (buf : Bytes) (e : Error),
      mime.decodeHeaderLoop T CharsetReader fuel header betweenWords buf = .error e →
      ∃ buf1 charset content, mime.convert T CharsetReader buf1 charset content = .error e := by
  intro fuel
  induction fuel with
  | zero => intro header bw buf e h; simp [mime.decodeHeaderLoop] at h
  | succ fuel ih =>
    intro header bw buf e h
    simp only [mime.decodeHeaderLoop] at h
    split at h
    · exact absurd h (by simp)
    · split at h
      · exact absurd h (by simp)
      · split at h
        · exact absurd h (by simp)
        · split at h
          · exact absurd h (by simp)
          · split at h
            · exact absurd h (by simp)
            · split at h
              · exact ih _ _ _ _ h
              · split at h
                · rename_i err hconv
                  simp only [Except.error.injEq] at h
                  subst h
                  exact ⟨_, _, _, hconv⟩
                · exact ih _ _ _ _ h

/-- With `charsetReader` as its `CharsetReader`, the only errors of `convert` are
those of the EUC-JP and Shift_JIS decoders. -/
theorem convert_error (T : Tables) (buf : Bytes) (charset : GoString) (content : Bytes)
    (e : Error) (h : mime.convert T (charsetReader (goLib T)) buf charset content = .error e) :
    T.EUCJP content = .error e ∨ T.ShiftJIS content = .error e := by
  simp only [mime.convert] at h
  split_ifs at h
  cases hget : (encodings (goLib T)).get? ((goLib T).ToLower (strings.ToLower T charset)) with
  | none => simp [charsetReader, hget, bytes.NewBuffer] at h
  | some enc =>
    simp only [charsetReader, hget, bytes.NewBuffer, transform.NewReader] at h
    have henc : enc = japanese.ISO2022JP T ∨ enc = T.EUCJP ∨ enc = T.ShiftJIS := by
      simp only [encodings, GoMap.get?, goLib] at hget
      split_ifs at hget <;> simp_all
    cases he : enc content with
    | ok b => simp [he] at h
    | error err =>
      simp only [he, Except.error.injEq] at h
      subst h
      rcases henc with rfl | rfl | rfl
      · simp [japanese.ISO2022JP] at he
      · exact Or.inl he
      · exact Or.inr he

theorem decodeValues_ok_all (L : Lib) (k : GoString) :
    ∀ (values ds : List GoString), decodeValues L k values = .ok ds →
      ∀ v ∈ values, ∃ d, L.DecodeHeader (charsetReader L) v = .ok d := by
  intro values
  induction values with
  | nil => intro ds _ v hv; simp at hv
  | cons v0 values ih =>
    intro ds h v hv
    simp only [decodeValues] at h
    split at h
    · exact absurd h (by simp)
    · rename_i d hd
      split at h
      · exact absurd h (by simp)
      · rename_i ds1 hds1
        rcases List.mem_cons.mp hv with rfl | hv1
        · exact ⟨d, hd⟩
        · exact ih ds1 hds1 v hv1

theorem decodeHeaders_ok_all (L : Lib) :
    ∀ (hdr decoded : MIMEHeader), decodeHeaders L hdr = .ok decoded →
      ∀ k values, (k, values) ∈ hdr → ∀ v ∈ values,
        ∃ d, L.DecodeHeader (charsetReader L) v = .ok d := by
  intro hdr
  induction hdr with
  | nil => intro decoded _ k values hmem; simp at hmem
  | cons entry hdr ih =>
    obtain ⟨k0, values0⟩ := entry
    intro decoded h k values hmem v hv
    simp only [decodeHeaders] at h
    split at h
    · exact absurd h (by simp)
    · rename_i ds hds
      split at h
      · exact absurd h (by simp)
      · rename_i dec1 hdec1
        rcases List.mem_cons.mp hmem with heq | hmem1
        · cases heq
          exact decodeValues_ok_all L _ _ ds hds v hv
        · exact ih dec1 hdec1 k values hmem1 v hv
/-! ## Encoded words that do not decode -/

/-- Go `bytes.Index` finds nothing exactly when `sep` does not occur in `s`. -/
theorem bytes.Index_none_iff (sep : Bytes) :
    ∀ s : Bytes, bytes.Index s sep = none ↔ ¬ sep <:+: s := by
  intro s
  induction s with
  | nil =>
    simp only [bytes.Index, List.infix_nil]
    split_ifs with h <;> simp [h]
  | cons c s ih =>
    simp only [bytes.Index, List.infix_cons_iff, not_or]
    split_ifs with h
    · simp [List.isPrefixOf_iff_prefix.mp h]
    · have hp : ¬ sep <+: c :: s := fun hp => h (List.isPrefixOf_iff_prefix.mpr hp)
      simp [hp, ih]

/-- Go `bytes.Index` finds a separator right after a text that does not hold its
first byte. -/
theorem bytes.Index_after (c : Nat) (sep post : Bytes) :
    ∀ pre : Bytes, c ∉ pre →
      bytes.Index (pre ++ (c :: sep ++ post)) (c :: sep) = some pre.length := by
  intro pre
  induction pre with
  | nil =>
    intro _
    have hp : List.isPrefixOf (c :: sep) (c :: sep ++ post) = true :=
      List.isPrefixOf_iff_prefix.mpr (List.prefix_append _ _)
    cases hs : c :: sep ++ post with
    | nil => simp at hs
    | cons d rest =>
      rw [hs] at hp
      simp only [List.nil_append, bytes.Index, hp, if_true, List.length_nil]
  | cons d pre ih =>
    intro h
    have hd : ¬ c = d := fun hd => h (by simp [hd])
    have hp : c ∉ pre := fun hp => h (List.mem_cons_of_mem _ hp)
    have hpre : List.isPrefixOf (c :: sep) (d :: (pre ++ (c :: sep ++ post))) = false := by
      simp [List.isPrefixOf, hd]
    rw [List.cons_append, bytes.Index, hpre, ih hp]
    rfl

/-- Go `bytes.Index` finds `=?` at the end of a text in which there is none,
also none that ends in the `=` of this one. -/
theorem bytes.Index_first_marker (rest : Bytes) :
    ∀ pre : Bytes, ¬ [61, 63] <:+: pre ++ [61] →
      bytes.Index (pre ++ 61 :: 63 :: rest) [61, 63] = some pre.length := by
  intro pre
  induction pre with
  | nil => intro _; simp [bytes.Index, List.isPrefixOf]
  | cons d pre ih =>
    intro h
    have hnot : ¬ [61, 63] <:+: pre ++ [61] := by
      intro hin
      exact h (by
        rw [List.cons_append]
        exact List.infix_cons hin)
    have hpre : List.isPrefixOf [61, 63] (d :: (pre ++ 61 :: 63 :: rest)) = false := by
      cases hb : List.isPrefixOf [61, 63] (d :: (pre ++ 61 :: 63 :: rest)) with
      | false => rfl
      | true =>
        exfalso
        cases pre with
        | nil => simp [List.isPrefixOf] at hb
        | cons p pre1 =>
          simp only [List.cons_append, List.isPrefixOf, Bool.and_true, Bool.and_eq_true,
            beq_iff_eq] at hb
          apply h
          rw [← hb.1, ← hb.2]
          exact ⟨[], pre1 ++ [61], by simp⟩
    rw [List.cons_append, bytes.Index, hpre, ih hnot]
    rfl

/-- The loop of `DecodeHeader` returns a text with no `=?` as it is, after what
has been written. -/
theorem decodeHeaderLoop_plain (T : Tables) (cr : GoString → Reader → Except Error Reader)
    (fuel : Nat) (header : GoString) (bw : Bool) (buf : Bytes)
    (h : ¬ str "=?" <:+: header) :
    mime.decodeHeaderLoop T cr fuel header bw buf = .ok (buf ++ header) := by
  cases fuel with
  | zero => simp [mime.decodeHeaderLoop]
  | succ n => simp only [mime.decodeHeaderLoop, (bytes.Index_none_iff (str "=?") header).mpr h]

/-- The loop of `DecodeHeader` at an encoded word whose payload does not decode,
with no other `=?` after it: the word and what follows are written as they are. -/
theorem decodeHeaderLoop_malformed (T : Tables)
    (cr : GoString → Reader → Except Error Reader) (fuel : Nat) (bw : Bool) (buf : Bytes)
    (cs : GoString) (enc : Nat) (text post : GoString) (e : Error)
    (hcs : (63 : Nat) ∉ cs) (htext : (63 : Nat) ∉ text)
    (hdec : mime.decode enc text = .error e)
    (hrest : ¬ str "=?" <:+: cs ++ 63 :: enc :: 63 :: (text ++ (63 :: [61] ++ post))) :
    mime.decodeHeaderLoop T cr (fuel + 1)
        (61 :: 63 :: (cs ++ 63 :: enc :: 63 :: (text ++ (63 :: [61] ++ post)))) bw buf
      = .ok (buf ++ 61 :: 63 :: (cs ++ 63 :: enc :: 63 :: (text ++ (63 :: [61] ++ post)))) := by
  have hsuf : str "?=" = [63, 61] := by decide
  have hmark : str "=?" = [61, 63] := by decide
  have hq : str "?" = [63] := by decide
  have hplain := decodeHeaderLoop_plain T cr
  rw [hmark] at hrest hplain
  have h1 : ∀ R : Bytes, bytes.Index (61 :: 63 :: R) [61, 63] = some 0 := by
    intro R
    simp [bytes.Index, List.isPrefixOf]
  have h3 := bytes.Index_after 63 [61] post text htext
  have hlen : 2 ≤ (text ++ (63 :: [61] ++ post)).length := by
    simp only [List.length_append, List.length_cons, List.length_nil]
    omega
  generalize htail : text ++ (63 :: [61] ++ post) = tail at h3 hrest hlen
  have h2 := bytes.Index_after 63 [] (enc :: 63 :: tail) cs hcs
  simp only [List.nil_append, List.singleton_append, List.cons_append] at h2
  have h4 : ¬ (61 :: 63 :: (cs ++ 63 :: enc :: 63 :: tail)).length
      < 0 + 2 + cs.length + 1 + 4 := by
    simp only [List.length_cons, List.length_append]
    omega
  have h5 : (61 :: 63 :: (cs ++ 63 :: enc :: 63 :: tail)).getD (0 + 2 + cs.length + 1) 0
      = enc := by
    have hi : 0 + 2 + cs.length + 1 = (cs.length + 1) + 1 + 1 := by omega
    rw [hi, List.getD_cons_succ, List.getD_cons_succ,
      List.getD_append_right _ _ _ _ (by omega)]
    simp
  have h6 : (61 :: 63 :: (cs ++ 63 :: enc :: 63 :: tail)).getD (0 + 2 + cs.length + 1 + 1) 0
      = 63 := by
    have hi : 0 + 2 + cs.length + 1 + 1 = (cs.length + 2) + 1 + 1 := by omega
    rw [hi, List.getD_cons_succ, List.getD_cons_succ,
      List.getD_append_right _ _ _ _ (by omega)]
    simp
  have h7 : List.drop (0 + 2 + cs.length + 1) (cs ++ 63 :: enc :: 63 :: tail) = tail := by
    have hi : 0 + 2 + cs.length + 1 = cs.length + 3 := by omega
    rw [hi, List.drop_append]
    rfl
  have h8 : tail.take text.length = text := by
    rw [← htail]
    exact List.take_left _ _
  rw [mime.decodeHeaderLoop]
  simp only [hmark, hq, hsuf, h1, h2, List.drop, List.take]
  rw [if_neg h4, h6, if_neg (by simp), h7, h3]
  simp only [h5, h8, hdec]
  rw [hplain _ _ _ _ hrest]
  simp

/-- Go `DecodeHeader` leaves an encoded word whose payload does not decode as
literal text: a value that holds one such word and no other `=?` is returned as
it is. -/
theorem DecodeHeader_malformed_word (T : Tables)
    (cr : GoString → Reader → Except Error Reader)
    (pre cs : GoString) (enc : Nat) (text post : GoString) (e : Error)
    (hpre : ¬ str "=?" <:+: pre ++ str "=")
    (hcs : (63 : Nat) ∉ cs) (htext : (63 : Nat) ∉ text)
    (hdec : mime.decode enc text = .error e)
    (hrest : ¬ str "=?" <:+: cs ++ [63, enc, 63] ++ text ++ str "?=" ++ post) :
    mime.DecodeHeader T cr
        (pre ++ str "=?" ++ cs ++ [63, enc, 63] ++ text ++ str "?=" ++ post)
      = .ok (pre ++ str "=?" ++ cs ++ [63, enc, 63] ++ text ++ str "?=" ++ post) := by
  have hsuf : str "?=" = [63, 61] := by decide
  have hmark : str "=?" = [61, 63] := by decide
  have heq : str "=" = [61] := by decide
  have hv : pre ++ str "=?" ++ cs ++ [63, enc, 63] ++ text ++ str "?=" ++ post
      = pre ++ 61 :: 63 :: (cs ++ 63 :: enc :: 63 :: (text ++ (63 :: [61] ++ post))) := by
    rw [hsuf, hmark]
    simp
  have hr : cs ++ [63, enc, 63] ++ text ++ str "?=" ++ post
      = cs ++ 63 :: enc :: 63 :: (text ++ (63 :: [61] ++ post)) := by
    rw [hsuf]
    simp
  rw [hr] at hrest
  rw [hmark, heq] at hpre
  rw [hv]
  have hi := bytes.Index_first_marker
    (cs ++ 63 :: enc :: 63 :: (text ++ (63 :: [61] ++ post))) pre hpre
  simp only [mime.DecodeHeader, hmark, hi, List.drop_left, List.take_left]
  exact decodeHeaderLoop_malformed T cr _ false pre cs enc text post e hcs htext hdec hrest

/-- With charset decoders that never fail, the word decoder never fails. -/
theorem DecodeHeader_total (T : Tables)
    (hE : ∀ b, ∃ r, T.EUCJP b = .ok r) (hS : ∀ b, ∃ r, T.ShiftJIS b = .ok r)
    (v : GoString) : ∃ d, mime.DecodeHeader T (charsetReader (goLib T)) v = .ok d := by
  cases hd : mime.DecodeHeader T (charsetReader (goLib T)) v with
  | ok d => exact ⟨d, rfl⟩
  | error e =>
    simp only [mime.DecodeHeader] at hd
    split at hd
    · exact absurd hd (by simp)
    · obtain ⟨buf1, charset, content, hc⟩ := decodeHeaderLoop_error T _ _ _ _ _ e hd
      rcases convert_error T buf1 charset content e hc with h | h
      · obtain ⟨r, hr⟩ := hE content
        rw [hr] at h
        exact absurd h (by simp)
      · obtain ⟨r, hr⟩ := hS content
        rw [hr] at h
        exact absurd h (by simp)

/-- With charset decoders that never fail, `decodeHeaders` never fails. -/
theorem decodeHeaders_total (T : Tables)
    (hE : ∀ b, ∃ r, T.EUCJP b = .ok r) (hS : ∀ b, ∃ r, T.ShiftJIS b = .ok r)
    (hdr : MIMEHeader) : ∃ decoded, decodeHeaders (goLib T) hdr = .ok decoded := by
  cases hd : decodeHeaders (goLib T) hdr with
  | ok decoded => exact ⟨decoded, rfl⟩
  | error err =>
    obtain ⟨k, values, v, e, _, _, he, _⟩ := decodeHeaders_error (goLib T) hdr err hd
    obtain ⟨d, hd1⟩ := DecodeHeader_total T hE hS v
    have he1 : mime.DecodeHeader T (charsetReader (goLib T)) v = .error e := he
    rw [hd1] at he1
    exact absurd he1 (by simp)

/-- The errors of the loop over the parts are those of `NextPart`, of `ReadAll`
and of the recursive call, each under its own text. -/
theorem parseParts_error_format (parse : Bytes → MIMEHeader → Except Failure Message) :
    ∀ (s : PartStream) (acc : List Message) (err : Error),
      parseParts parse s acc = .error (.error err) →
      ∃ e, err = .Errorf "error at NextPart in multipart parsing: %s" [] e ∨
        err = .Errorf "error at ReadAll in multipart parsing: %s" [] e ∨
        err = .Errorf "failed to parse multipart: %s" [] e := by
  intro s
  induction s with
  | eof => intro acc err h; simp [parseParts] at h
  | fail e =>
    intro acc err h
    simp only [parseParts, Except.error.injEq, Failure.error.injEq] at h
    exact ⟨e, Or.inl h.symm⟩
  | part Header body next ih =>
    intro acc err h
    cases body with
    | error e =>
      simp only [parseParts, Except.error.injEq, Failure.error.injEq] at h
      exact ⟨e, Or.inr (Or.inl h.symm)⟩
    | ok partBody =>
      simp only [parseParts] at h
      cases hp : parse partBody Header with
      | ok partMsg =>
        rw [hp] at h
        exact ih _ err h
      | error f =>
        rw [hp] at h
        cases f with
        | error e =>
          simp only [Except.error.injEq, Failure.error.injEq] at h
          exact ⟨e, Or.inr (Or.inr h.symm)⟩
        | panic => simp at h
        | outOfFuel => simp at h

/-- When the headers decode, no error of `parseMessage` is that of header
decoding. -/
theorem parseMessage_no_header_error (L : Lib) (fuel : Nat) (body : Bytes)
    (hdr dhdr : MIMEHeader) (err : Error) (hd : decodeHeaders L hdr = .ok dhdr) :
    parseMessage L fuel body hdr
      ≠ .error (.error (.Errorf "failed to decode headers: %s" [] err)) := by
  cases fuel with
  | zero => simp [parseMessage]
  | succ fuel =>
    intro h
    simp only [parseMessage, hd, Message.RawHeaders] at h
    split at h
    · simp at h
    · split at h
      · simp only [Except.error.injEq, Failure.error.injEq, Error.Errorf.injEq] at h
        exact absurd h.1 (by decide)
      · split_ifs at h
        · split at h
          · simp only [Except.error.injEq, Failure.error.injEq, Error.Errorf.injEq] at h
            exact absurd h.1 (by decide)
          · simp at h
        · split at h
          · rename_i f hf
            simp only [Except.error.injEq] at h
            subst h
            obtain ⟨e, he | he | he⟩ := parseParts_error_format _ _ _ _ hf
            all_goals
              simp only [Error.Errorf.injEq] at he
              exact absurd he.1 (by decide)
          · simp at h

/-! ## The parts of the multipart reader -/

/-- What Go `ReadSlice` leaves is the end of its input. -/
theorem ReadSlice_suffix (s : Bytes) : (bufio.ReadSlice s).2.1 <:+ s := by
  unfold bufio.ReadSlice
  cases hi : bytes.Index s [10] with
  | none => exact List.nil_suffix
  | some i => exact List.drop_suffix _ _

theorem ReadLine_suffix (s line rest : Bytes) (h : bufio.ReadLine s = some (line, rest)) :
    rest <:+ s := by
  unfold bufio.ReadLine at h
  split_ifs at h
  cases hi : bytes.Index s [10] with
  | none =>
    simp only [hi, Option.some.injEq, Prod.mk.injEq] at h
    rw [← h.2]
    exact List.nil_suffix
  | some i =>
    simp only [hi, Option.some.injEq, Prod.mk.injEq] at h
    rw [← h.2]
    exact List.drop_suffix _ _

theorem readContinuation_suffix :
    ∀ (fuel : Nat) (buf s : Bytes), (textproto.readContinuation fuel buf s).2 <:+ s := by
  intro fuel
  induction fuel with
  | zero => intro buf s; exact List.suffix_refl _
  | succ fuel ih =>
    intro buf s
    simp only [textproto.readContinuation]
    have hdrop : s.dropWhile (fun c => decide (c = 32 ∨ c = 9)) <:+ s :=
      List.dropWhile_suffix _
    split_ifs with h
    · exact List.suffix_refl _
    · cases hr : bufio.ReadLine (s.dropWhile (fun c => decide (c = 32 ∨ c = 9))) with
      | none => exact hdrop
      | some lr =>
        obtain ⟨line, rest⟩ := lr
        have h1 := ReadLine_suffix _ line rest hr
        have h2 := ih (buf ++ [32] ++ textproto.trim line) rest
        exact (h2.trans h1).trans hdrop

theorem readContinuedLineSlice_suffix (s : Bytes) :
    (textproto.readContinuedLineSlice s).2 <:+ s := by
  unfold textproto.readContinuedLineSlice
  cases hr : bufio.ReadLine s with
  | none => exact List.suffix_refl _
  | some lr =>
    obtain ⟨line, rest⟩ := lr
    have h1 := ReadLine_suffix s line rest hr
    simp only []
    split_ifs
    · exact h1
    · exact h1
    · exact (readContinuation_suffix (rest.length + 1) (textproto.trim line) rest).trans h1

theorem readHeaderLoop_suffix :
    ∀ (fuel : Nat) (s : Bytes) (m : MIMEHeader), (textproto.readHeaderLoop fuel s m).2 <:+ s := by
  intro fuel
  induction fuel with
  | zero => intro s m; exact List.suffix_refl _
  | succ fuel ih =>
    intro s m
    have h1 := readContinuedLineSlice_suffix s
    simp only [textproto.readHeaderLoop]
    cases hr : textproto.readContinuedLineSlice s with
    | mk r rest =>
      rw [hr] at h1
      simp only [] at h1
      cases r with
      | error err => exact h1
      | ok kv =>
        simp only []
        split_ifs
        · exact h1
        · cases hi : bytes.Index kv [58] with
          | none => exact h1
          | some i =>
            simp only []
            split_ifs
            all_goals first
              | exact h1
              | exact (ih rest _).trans h1

/-- What Go `ReadMIMEHeader` leaves for the body is the end of its input. -/
theorem ReadMIMEHeader_suffix (s : Bytes) : (textproto.ReadMIMEHeader s).2 <:+ s := by
  unfold textproto.ReadMIMEHeader
  cases s with
  | nil => exact readHeaderLoop_suffix 1 [] []
  | cons c s =>
    simp only []
    split_ifs
    · cases hr : bufio.ReadLine (c :: s) with
      | none => exact List.suffix_refl _
      | some lr =>
        obtain ⟨line, rest⟩ := lr
        have h1 := ReadLine_suffix _ line rest hr
        simp only []
        split_ifs
        · exact h1
        · exact h1
    · exact readHeaderLoop_suffix _ _ _

theorem scanRest_append (nlDashBoundary : Bytes) :
    ∀ (fuel : Nat) (buf data d r : Bytes),
      multipart.scanRest nlDashBoundary fuel buf data = .ok (d, r) →
      d ++ r = data ++ buf := by
  intro fuel
  induction fuel with
  | zero => intro buf data d r h; simp [multipart.scanRest] at h
  | succ fuel ih =>
    intro buf data d r h
    simp only [multipart.scanRest] at h
    cases hi : bytes.Index buf nlDashBoundary with
    | none => simp [hi] at h
    | some i =>
      simp only [hi] at h
      split_ifs at h
      · simp only [Except.ok.injEq, Prod.mk.injEq] at h
        rw [← h.1, ← h.2, List.append_assoc, List.take_append_drop]
      · rw [ih _ _ d r h, List.append_assoc, List.take_append_drop]

/-- The body Go reads for a part, and what follows it, make up the input at the
start of the body. -/
theorem readPart_append (dashBoundary nlDashBoundary buf d r : Bytes)
    (h : multipart.readPart dashBoundary nlDashBoundary buf = .ok (d, r)) :
    d ++ r = buf := by
  unfold multipart.readPart at h
  split_ifs at h with h1 h2 h3
  · simp only [Except.ok.injEq, Prod.mk.injEq] at h
    rw [← h.1, ← h.2]
    rfl
  · obtain ⟨t, ht⟩ := List.isPrefixOf_iff_prefix.mp h1
    rw [scanRest_append _ _ _ _ d r h, ← ht]
    simp
  · rw [scanRest_append _ _ _ _ d r h]
    rfl

/-- The parts of Go's multipart reader: the body of a part is a slice of the
input, as it is, unless the header of the part declares `quoted-printable`; then
it is the quoted-printable decoding of the slice and the header has lost its
`Content-Transfer-Encoding`. -/
theorem nextParts_parts (boundary : GoString) :
    ∀ (fuel : Nat) (s : Bytes) (partsRead : Nat) (nl : Bytes) (e : Bool),
      ∀ seg ∈ (multipart.nextParts boundary fuel s partsRead nl e).segments,
        ∀ b, seg.2 = .ok b →
        ∃ (H : MIMEHeader) (data : Bytes), data <:+: s ∧
          ((strings.EqualFold (multipart.headerGet H (str "Content-Transfer-Encoding"))
                (str "quoted-printable") = false ∧ seg.1 = H ∧ b = data) ∨
           (strings.EqualFold (multipart.headerGet H (str "Content-Transfer-Encoding"))
                (str "quoted-printable") = true ∧
              seg.1 = H.del (str "Content-Transfer-Encoding") ∧
              quotedprintable.NewReader (.ok data) = .ok b)) := by
  intro fuel
  induction fuel with
  | zero =>
    intro s partsRead nl e seg hseg
    simp [multipart.nextParts, PartStream.segments] at hseg
  | succ fuel ih =>
    intro s partsRead nl e seg hseg b hb
    have hsuf := ReadSlice_suffix s
    cases hrs : bufio.ReadSlice s with
    | mk line re =>
      obtain ⟨rest, eof⟩ := re
      rw [hrs] at hsuf
      simp only [] at hsuf
      have hup : ∀ (t : Bytes), t <:+ rest →
          (∃ (H : MIMEHeader) (data : Bytes), data <:+: t ∧
            ((strings.EqualFold (multipart.headerGet H (str "Content-Transfer-Encoding"))
                  (str "quoted-printable") = false ∧ seg.1 = H ∧ b = data) ∨
             (strings.EqualFold (multipart.headerGet H (str "Content-Transfer-Encoding"))
                  (str "quoted-printable") = true ∧
                seg.1 = H.del (str "Content-Transfer-Encoding") ∧
                quotedprintable.NewReader (.ok data) = .ok b))) →
          ∃ (H : MIMEHeader) (data : Bytes), data <:+: s ∧
            ((strings.EqualFold (multipart.headerGet H (str "Content-Transfer-Encoding"))
                  (str "quoted-printable") = false ∧ seg.1 = H ∧ b = data) ∨
             (strings.EqualFold (multipart.headerGet H (str "Content-Transfer-Encoding"))
                  (str "quoted-printable") = true ∧
                seg.1 = H.del (str "Content-Transfer-Encoding") ∧
                quotedprintable.NewReader (.ok data) = .ok b)) := by
        rintro t ht ⟨H, data, hd, hc⟩
        exact ⟨H, data, hd.trans ((ht.trans hsuf).isInfix), hc⟩
      simp only [multipart.nextParts, hrs] at hseg
      split at hseg
      · simp [PartStream.segments] at hseg
      split at hseg
      · simp [PartStream.segments] at hseg
      split at hseg
      · simp [PartStream.segments] at hseg
      split at hseg
      · split at hseg
        · split_ifs at hseg <;> simp [PartStream.segments] at hseg
        · rename_i Header rest1 hh
          have hr1 : rest1 <:+ rest := by
            have := ReadMIMEHeader_suffix rest
            rw [hh] at this
            exact this
          split at hseg
          · simp only [PartStream.segments, List.mem_singleton] at hseg
            rw [hseg] at hb
            exact absurd hb (by simp)
          · rename_i data rest2 hp
            have hd := readPart_append _ _ _ _ _ hp
            simp only [PartStream.segments, List.mem_cons] at hseg
            rcases hseg with hseg | hseg
            · apply hup rest1 hr1
              refine ⟨Header, data, ⟨[], rest2, by simpa using hd⟩, ?_⟩
              rw [hseg] at hb ⊢
              simp only [] at hb ⊢
              cases hq : strings.EqualFold
                  (multipart.headerGet Header (str "Content-Transfer-Encoding"))
                  (str "quoted-printable") with
              | false =>
                simp only [hq, Bool.false_eq_true, if_false, Except.ok.injEq] at hb
                exact Or.inl ⟨rfl, by simp, hb.symm⟩
              | true =>
                simp only [hq, if_true] at hb
                exact Or.inr ⟨rfl, by simp, hb⟩
            · apply hup rest2 (List.IsSuffix.trans ⟨data, hd⟩ hr1)
              exact ih _ _ _ _ seg hseg b hb
      · split_ifs at hseg
        · simp [PartStream.segments] at hseg
        · simp [PartStream.segments] at hseg
        · exact hup rest (List.suffix_refl _) (ih _ _ _ _ seg hseg b hb)
        · exact hup rest (List.suffix_refl _) (ih _ _ _ _ seg hseg b hb)
        · simp [PartStream.segments] at hseg

/-! ## The claims -/

/-- C1, which the code breaks. A header mapping with no `Content-Type` entry never
gives a message, but it does not give the error result of the claim either:
whenever the headers decode, `msg.RawHeaders["Content-Type"][0]` indexes the nil
slice and `parseMessage` panics. -/
theorem C1_missing_content_type_panics (L : Lib) (fuel : Nat) (body : Bytes)
    (header dhdr : MIMEHeader)
    (hct : header.get? (str "Content-Type") = none)
    (hdec : decodeHeaders L header = .ok dhdr) :
    parseMessage L (fuel + 1) body header = .error .panic ∧
      ∀ fuel1 m, parseMessage L fuel1 body header ≠ .ok m := by
  have hidx : (header.index (str "Content-Type")).head? = none := by
    simp [GoMap.index, hct]
  refine ⟨?_, ?_⟩
  · simp only [parseMessage, hdec, Message.RawHeaders, hidx]
  · intro fuel1 m h
    obtain ⟨_, _, v, _, _, _, _, hv, _⟩ := parseMessage_ok_inv L fuel1 body header m h
    rw [hidx] at hv
    exact absurd hv (by simp)

/-- C1, at a concrete input: the header of the message `Subject: x` has no
`Content-Type` and decodes; `parseMessage` panics on it, and so does `Parse` on
the message. -/
theorem C1_missing_content_type_panics_witness :
    (GoMap.get? [(str "Subject", [str "x"])] (str "Content-Type") = none ∧
      decodeHeaders (goLib noTables) [(str "Subject", [str "x"])]
        = .ok [(str "Subject", [str "x"])]) ∧
    (parseMessage (goLib noTables) 1 (str "hello") [(str "Subject", [str "x"])] = .error .panic ∧
      ∀ fuel1 m, parseMessage (goLib noTables) fuel1 (str "hello") [(str "Subject", [str "x"])]
        ≠ .ok m) ∧
    Parse (goLib noTables) 1 (str "Subject: x\r\n\r\nhello") = .error .panic :=
  ⟨⟨by decide, by rfl⟩,
    C1_missing_content_type_panics (goLib noTables) 0 (str "hello") [(str "Subject", [str "x"])]
      [(str "Subject", [str "x"])] (by decide) (by rfl),
    by rfl⟩

/-- C2, a counterexample. The body `--b--` of a `multipart/mixed` entity with
boundary `b` holds the terminating boundary only: `parseMessage` succeeds and
the multipart node it returns has no part. -/
theorem C2_multipart_without_parts :
    parseMessage (goLib noTables) 2 (str "--b--") mixedHeader
      = .ok (.mk mixedHeader (str "--b--") mixedHeader none []) ∧
    (Message.mk mixedHeader (str "--b--") mixedHeader none []).mediaType (goLib noTables)
      = some (str "multipart/mixed") ∧
    strings.HasPrefix (str "multipart/mixed") (str "multipart/") = true ∧
    (Message.mk mixedHeader (str "--b--") mixedHeader none []).Parts = [] := by
  refine ⟨by rfl, by rfl, by decide, by rfl⟩

/-- C2, amended. A multipart node that `parseMessage` returns has `DecodedBody`
absent, and its `Parts` hold one node for each segment the multipart reader
yields, so that `Parts` is non-empty exactly when the reader yields a part. -/
theorem C2_multipart_node (L : Lib) (fuel : Nat) (body : Bytes) (header : MIMEHeader)
    (m : Message) (h : parseMessage L fuel body header = .ok m) (hm : m.isMultipart L) :
    m.DecodedBody = none ∧
      m.Parts.length =
        (L.NewReader body ((m.mediaParams L).indexStr (str "boundary"))).segments.length ∧
      (m.Parts ≠ [] ↔
        (L.NewReader body ((m.mediaParams L).indexStr (str "boundary"))).segments ≠ []) := by
  obtain ⟨hnone, hall⟩ := parseMessage_ok_segments L fuel body header m h hm
  have hlen := List.Forall₂.length_eq hall
  refine ⟨hnone, hlen.symm, ?_⟩
  rw [← List.length_pos, ← List.length_pos, hlen]

/-- C2, amended, at a concrete input: a `multipart/mixed` body with one part. -/
theorem C2_multipart_node_witness :
    (parseMessage (goLib noTables) 2 onePartBody mixedHeader = .ok onePartNode ∧
      onePartNode.isMultipart (goLib noTables)) ∧
    (onePartNode.DecodedBody = none ∧
      onePartNode.Parts.length =
        ((goLib noTables).NewReader onePartBody
          ((onePartNode.mediaParams (goLib noTables)).indexStr (str "boundary"))).segments.length ∧
      (onePartNode.Parts ≠ [] ↔
        ((goLib noTables).NewReader onePartBody
          ((onePartNode.mediaParams (goLib noTables)).indexStr (str "boundary"))).segments
          ≠ [])) :=
  ⟨⟨by rfl, ⟨str "multipart/mixed", by rfl, by decide⟩⟩,
    C2_multipart_node (goLib noTables) 2 onePartBody mixedHeader onePartNode (by rfl)
      ⟨str "multipart/mixed", by rfl, by decide⟩⟩

/-- C3. Every `text/*` node of a tree returned by `parseMessage`, hence by
`Parse`, has `DecodedBody` present and `Parts` empty. -/
theorem C3_text_node (L : Lib) (fuel : Nat) (body : Bytes) (header : MIMEHeader)
    (m n : Message) (h : parseMessage L fuel body header = .ok m)
    (hn : Message.Node n m) (ht : n.isText L) :
    n.DecodedBody ≠ none ∧ n.Parts = [] ∧
      ∀ fuel1 r m1, Parse L fuel1 r = .ok m1 → ∀ n1, Message.Node n1 m1 → n1.isText L →
        n1.DecodedBody ≠ none ∧ n1.Parts = [] := by
  have key : ∀ (fuel : Nat) (body : Bytes) (header : MIMEHeader) (m n : Message),
      parseMessage L fuel body header = .ok m → Message.Node n m → n.isText L →
      n.DecodedBody ≠ none ∧ n.Parts = [] := by
    intro fuel body header m n h hn ht
    obtain ⟨d, hd, _⟩ := text_node_decoded L fuel body header m n h hn ht
    obtain ⟨fuel1, hp⟩ := node_parsed L hn fuel body header h
    obtain ⟨_, ctype, _, _, _, _, hmt, hc⟩ := parseMessage_ok_shape L _ _ _ n hp
    obtain ⟨ctype1, hmt1, htext⟩ := ht
    rw [hmt] at hmt1
    cases hmt1
    rcases hc with ⟨_, _, _, _, hparts⟩ | ⟨hf, _⟩ | ⟨hf, _⟩
    · exact ⟨by simp [hd], hparts⟩
    · rw [htext] at hf
      exact absurd hf (by simp)
    · rw [htext] at hf
      exact absurd hf (by simp)
  refine ⟨(key fuel body header m n h hn ht).1, (key fuel body header m n h hn ht).2, ?_⟩
  intro fuel1 r m1 hP n1 hn1 ht1
  simp only [Parse] at hP
  split at hP
  · exact absurd hP (by simp)
  · split at hP
    · exact absurd hP (by simp)
    · exact key _ _ _ m1 n1 hP hn1 ht1

/-- C3, at a concrete input: the `text/plain` part of a `multipart/mixed` message. -/
theorem C3_text_node_witness :
    (parseMessage (goLib noTables) 2 onePartBody mixedHeader = .ok onePartNode ∧
      Message.Node (.mk plainHeader (str "hi") plainHeader (some (str "hi")) []) onePartNode ∧
      (Message.mk plainHeader (str "hi") plainHeader (some (str "hi")) []).isText
        (goLib noTables)) ∧
    (Message.mk plainHeader (str "hi") plainHeader (some (str "hi")) []).DecodedBody ≠ none ∧
    (Message.mk plainHeader (str "hi") plainHeader (some (str "hi")) []).Parts = [] :=
  ⟨⟨by rfl, Message.Node.part (List.mem_singleton.mpr rfl) (Message.Node.root _),
      ⟨str "text/plain", by rfl, by decide⟩⟩,
    (C3_text_node (goLib noTables) 2 onePartBody mixedHeader onePartNode _ (by rfl)
      (Message.Node.part (List.mem_singleton.mpr rfl) (Message.Node.root _))
      ⟨str "text/plain", by rfl, by decide⟩).1,
    (C3_text_node (goLib noTables) 2 onePartBody mixedHeader onePartNode _ (by rfl)
      (Message.Node.part (List.mem_singleton.mpr rfl) (Message.Node.root _))
      ⟨str "text/plain", by rfl, by decide⟩).2.1⟩

/-- C4. When `decodeHeaders` succeeds its result has the keys of its argument
and, for every key, as many values; hence every node of a tree returned by
`parseMessage` has `len(DecodedHeaders[k]) == len(RawHeaders[k])` for every key. -/
theorem C4_header_value_count (L : Lib) (hdr decoded : MIMEHeader)
    (h : decodeHeaders L hdr = .ok decoded) :
    decoded.keys = hdr.keys ∧
      (∀ k, Option.map List.length (decoded.get? k) = Option.map List.length (hdr.get? k)) ∧
      ∀ fuel body m n, parseMessage L fuel body hdr = .ok m → Message.Node n m →
        n.DecodedHeaders.keys = n.RawHeaders.keys ∧
        ∀ k, (n.DecodedHeaders.index k).length = (n.RawHeaders.index k).length := by
  obtain ⟨hk, hl⟩ := decodeHeaders_entries L hdr decoded h
  refine ⟨hk, hl, ?_⟩
  intro fuel body m n hm hn
  obtain ⟨fuel1, hp⟩ := node_parsed L hn fuel body hdr hm
  obtain ⟨_, _, _, _, _, hd, _⟩ := parseMessage_ok_shape L _ _ _ n hp
  obtain ⟨hk1, hl1⟩ := decodeHeaders_entries L _ _ hd
  refine ⟨hk1, fun k => ?_⟩
  have := hl1 k
  simp only [GoMap.index]
  cases h1 : GoMap.get? n.DecodedHeaders k <;> cases h2 : GoMap.get? n.RawHeaders k <;>
    simp_all

/-- C4, at a concrete input: a header with a repeated field and an encoded word. -/
theorem C4_header_value_count_witness :
    decodeHeaders (goLib noTables)
        [(str "Received", [str "a", str "b"]), (str "Subject", [str "=?UTF-8?Q?c?="])]
      = .ok [(str "Received", [str "a", str "b"]), (str "Subject", [str "c"])] ∧
    GoMap.keys [(str "Received", [str "a", str "b"]), (str "Subject", [str "c"])]
      = GoMap.keys [(str "Received", [str "a", str "b"]), (str "Subject", [str "=?UTF-8?Q?c?="])] :=
  ⟨by rfl, (C4_header_value_count (goLib noTables)
    [(str "Received", [str "a", str "b"]), (str "Subject", [str "=?UTF-8?Q?c?="])]
    [(str "Received", [str "a", str "b"]), (str "Subject", [str "c"])] (by rfl)).1⟩

/-- C5, a counterexample. A `text/plain` entity in ISO-2022-JP sent as base64:
the raw body `GyhCYQ==` is the base64 form of `ESC ( B a`, which transfer decoding
followed by charset transcoding turns into `a`; `parseMessage` runs the charset
decoder on the base64 text and returns the four bytes `ESC ( B a`. -/
theorem C5_transfer_then_charset_fails :
    parseMessage (goLib noTables) 1 (str "GyhCYQ==") jisBase64Header
      = .ok (.mk jisBase64Header (str "GyhCYQ==") jisBase64Header (some [27, 40, 66, 97]) []) ∧
    (Message.mk jisBase64Header (str "GyhCYQ==") jisBase64Header (some [27, 40, 66, 97])
        []).mediaType (goLib noTables) = some (str "text/plain") ∧
    transferThenCharset (goLib noTables) (str "ISO-2022-JP") (str "base64") (str "GyhCYQ==")
      = .ok (str "a") ∧
    some [27, 40, 66, 97] ≠ some (str "a") := by
  refine ⟨by rfl, by rfl, by rfl, by decide⟩

/-- C5, amended. The decoded body of every `text/*` node that `parseMessage`
returns is the raw body run through the charset decoder of the `Content-Type`
charset first and through the transfer decoding of the `Content-Transfer-Encoding`
second; for a charset outside the table this is the transfer decoding of the raw
body, which is also what the other order gives. -/
theorem C5_charset_then_transfer (L : Lib) (fuel : Nat) (body : Bytes) (header : MIMEHeader)
    (m n : Message) (h : parseMessage L fuel body header = .ok m)
    (hn : Message.Node n m) (ht : n.isText L) :
    ∃ d, n.DecodedBody = some d ∧
      charsetThenTransfer L ((n.mediaParams L).indexStr (str "charset")) n.transferEncoding
        n.RawBody = .ok d ∧
      (passThrough L ((n.mediaParams L).indexStr (str "charset")) →
        transferDecode L (L.ToLower n.transferEncoding) n.RawBody = .ok d ∧
        transferThenCharset L ((n.mediaParams L).indexStr (str "charset")) n.transferEncoding
          n.RawBody = .ok d) := by
  obtain ⟨d, hd, hb⟩ := text_node_decoded L fuel body header m n h hn ht
  have hcode := (decodeBody_ok_iff L _ _ _ _).mp hb
  refine ⟨d, hd, hcode, fun hpass => ?_⟩
  have hnone := (passThrough_iff L _).mp hpass
  have ht : transferDecode L (L.ToLower n.transferEncoding) n.RawBody = .ok d := by
    simpa [charsetThenTransfer, charsetDecode, hnone] using hcode
  refine ⟨ht, ?_⟩
  simp [transferThenCharset, ht, charsetDecode, hnone]

/-- C5, amended, at a concrete input: the ISO-2022-JP entity sent as base64. -/
theorem C5_charset_then_transfer_witness :
    parseMessage (goLib noTables) 1 (str "GyhCYQ==") jisBase64Header
      = .ok (.mk jisBase64Header (str "GyhCYQ==") jisBase64Header (some [27, 40, 66, 97]) []) ∧
    ∃ d, some [27, 40, 66, 97] = some d ∧
      charsetThenTransfer (goLib noTables) (str "ISO-2022-JP") (str "base64") (str "GyhCYQ==")
        = .ok d := by
  refine ⟨by rfl, ?_⟩
  obtain ⟨d, hd, hc, _⟩ := C5_charset_then_transfer (goLib noTables) 1 (str "GyhCYQ==")
    jisBase64Header _ _ (by rfl) (Message.Node.root _) ⟨str "text/plain", by rfl, by decide⟩
  exact ⟨d, hd, hc⟩

/-- C6. When the `Content-Type` is a well-formed `multipart/*` media type with no
`boundary` parameter, `parseMessage` returns an error and no message. -/
theorem C6_missing_boundary (T : Tables) (fuel : Nat) (body : Bytes) (header : MIMEHeader)
    (v ctype : GoString) (params : GoMap GoString)
    (hv : (header.index (str "Content-Type")).head? = some v)
    (hp : mime.ParseMediaType T v = .ok (ctype, params))
    (hm : strings.HasPrefix ctype (str "multipart/") = true)
    (hb : params.get? (str "boundary") = none) :
    ∃ err, parseMessage (goLib T) (fuel + 1) body header = .error (.error err) := by
  have ht := hasPrefix_multipart_not_text ctype hm
  have hidx : params.indexStr (str "boundary") = [] := by simp [GoMap.indexStr, hb]
  have hp1 : (goLib T).ParseMediaType v = .ok (ctype, params) := hp
  have hr : (goLib T).NewReader body [] = .fail (.New "multipart: boundary is empty") :=
    NewReader_empty_boundary body
  cases hd : decodeHeaders (goLib T) header with
  | error e =>
    exact ⟨.Errorf "failed to decode headers: %s" [] e, by simp only [parseMessage, hd]⟩
  | ok dhdr =>
    refine ⟨.Errorf "error at NextPart in multipart parsing: %s" []
      (.New "multipart: boundary is empty"), ?_⟩
    simp only [parseMessage, hd, Message.RawHeaders, hv, hp1, ht, hm, hidx, hr, parseParts]
    simp

/-- C6, at a concrete input: `Content-Type: multipart/mixed` with no parameter. -/
theorem C6_missing_boundary_witness :
    mime.ParseMediaType noTables (str "multipart/mixed") = .ok (str "multipart/mixed", []) ∧
    ∃ err, parseMessage (goLib noTables) 1 (str "--b--")
      [(str "Content-Type", [str "multipart/mixed"])] = .error (.error err) :=
  ⟨by rfl, C6_missing_boundary noTables 0 (str "--b--")
    [(str "Content-Type", [str "multipart/mixed"])]
    (str "multipart/mixed") (str "multipart/mixed") [] (by rfl) (by rfl) (by decide) (by rfl)⟩

/-- C7, a counterexample. The payloads `!!!` (base64) and `=ZZ` (quoted-printable)
of the encoded words of this `Subject` are malformed; `decodeHeaders` returns no
error but the values as they are, and `parseMessage` returns a message. -/
theorem C7_malformed_word_is_kept :
    mime.decode 66 (str "!!!") = .error (base64.CorruptInputError 0) ∧
    mime.decode 81 (str "=ZZ") = .error (.Newf "mime: invalid hex byte %#02x" [[90]]) ∧
    decodeHeaders (goLib noTables) malformedWordHeader = .ok malformedWordHeader ∧
    parseMessage (goLib noTables) 1 (str "hi") malformedWordHeader
      = .ok (.mk malformedWordHeader (str "hi") malformedWordHeader (some (str "hi")) []) := by
  refine ⟨by rfl, by rfl, by rfl, by rfl⟩

/-- C7, amended. A malformed payload of an encoded word makes `decodeHeaders`
return no error: Go's word decoder leaves the word as literal text, so a value
that holds one encoded word whose payload does not decode for its encoding, in
text with no other `=?`, is returned as it is. With charset decoders that never
fail, as those of the library, `decodeHeaders` succeeds on every header mapping
and `parseMessage` never returns the error of header decoding. -/
theorem C7_malformed_word_is_literal (T : Tables)
    (hE : ∀ b, ∃ r, T.EUCJP b = .ok r) (hS : ∀ b, ∃ r, T.ShiftJIS b = .ok r) :
    (∀ (pre cs : GoString) (enc : Nat) (text post : GoString) (e : Error),
      ¬ str "=?" <:+: pre ++ str "=" → (63 : Nat) ∉ cs → (63 : Nat) ∉ text →
      mime.decode enc text = .error e →
      ¬ str "=?" <:+: cs ++ [63, enc, 63] ++ text ++ str "?=" ++ post →
      ∀ k : GoString,
        decodeHeaders (goLib T)
            [(k, [pre ++ str "=?" ++ cs ++ [63, enc, 63] ++ text ++ str "?=" ++ post])]
          = .ok [(k, [pre ++ str "=?" ++ cs ++ [63, enc, 63] ++ text ++ str "?=" ++ post])]) ∧
    (∀ hdr, ∃ decoded, decodeHeaders (goLib T) hdr = .ok decoded) ∧
    (∀ fuel body hdr err, parseMessage (goLib T) fuel body hdr
      ≠ .error (.error (.Errorf "failed to decode headers: %s" [] err))) := by
  refine ⟨?_, decodeHeaders_total T hE hS, ?_⟩
  · intro pre cs enc text post e hpre hcs htext hdec hrest k
    have h := DecodeHeader_malformed_word T (charsetReader (goLib T)) pre cs enc text post e
      hpre hcs htext hdec hrest
    have h1 : (goLib T).DecodeHeader (charsetReader (goLib T))
        (pre ++ str "=?" ++ cs ++ [63, enc, 63] ++ text ++ str "?=" ++ post)
        = .ok (pre ++ str "=?" ++ cs ++ [63, enc, 63] ++ text ++ str "?=" ++ post) := h
    simp only [decodeHeaders, decodeValues, h1]
  · intro fuel body hdr err
    obtain ⟨dhdr, hd⟩ := decodeHeaders_total T hE hS hdr
    exact parseMessage_no_header_error (goLib T) fuel body hdr dhdr err hd

/-- C7, amended, on the words of the counterexample: the base64 payload `!!!` and
the quoted-printable payload `=ZZ` do not decode, and the values come back as
they are, alone or inside other text; `parseMessage` on a header mapping that
holds them returns a message. -/
theorem C7_malformed_word_is_literal_witness :
    ((∀ b, ∃ r, noTables.EUCJP b = .ok r) ∧ (∀ b, ∃ r, noTables.ShiftJIS b = .ok r)) ∧
    (mime.decode 66 (str "!!!") = .error (base64.CorruptInputError 0) ∧
      mime.decode 81 (str "=ZZ") = .error (.Newf "mime: invalid hex byte %#02x" [[90]])) ∧
    decodeHeaders (goLib noTables) [(str "Subject", [str "=?UTF-8?B?!!!?="])]
      = .ok [(str "Subject", [str "=?UTF-8?B?!!!?="])] ∧
    decodeHeaders (goLib noTables) [(str "Subject", [str "Re: =?UTF-8?Q?=ZZ?= (fwd)"])]
      = .ok [(str "Subject", [str "Re: =?UTF-8?Q?=ZZ?= (fwd)"])] ∧
    parseMessage (goLib noTables) 1 (str "hi") malformedWordHeader
      = .ok (.mk malformedWordHeader (str "hi") malformedWordHeader (some (str "hi")) []) :=
  ⟨⟨fun b => ⟨b, rfl⟩, fun b => ⟨b, rfl⟩⟩, ⟨by rfl, by rfl⟩,
    (C7_malformed_word_is_literal noTables (fun b => ⟨b, rfl⟩) (fun b => ⟨b, rfl⟩)).1
      [] (str "UTF-8") 66 (str "!!!") [] (base64.CorruptInputError 0)
      (by decide) (by decide) (by decide) (by rfl) (by decide) (str "Subject"),
    (C7_malformed_word_is_literal noTables (fun b => ⟨b, rfl⟩) (fun b => ⟨b, rfl⟩)).1
      (str "Re: ") (str "UTF-8") 81 (str "=ZZ") (str " (fwd)")
      (.Newf "mime: invalid hex byte %#02x" [[90]])
      (by decide) (by decide) (by decide) (by rfl) (by decide) (str "Subject"),
    by rfl⟩

/-- C8, which the code breaks. On success `parseMessage(body, header)` returns a
node with `RawBody == body` and `RawHeaders == header`, and the root that `Parse`
returns has the header read from the input and, as `RawBody`, the end of the
input as it is. With Go's multipart reader, a part of a multipart node has as
`RawBody` a slice of the `RawBody` of that node, as it is, whatever its transfer
encoding, base64 included, unless its header declares `quoted-printable`: then
`RawBody` is the quoted-printable decoding of the slice and `RawHeaders` has lost
`Content-Transfer-Encoding`. -/
theorem C8_part_raw_body (T : Tables) (fuel : Nat) (body : Bytes) (header : MIMEHeader)
    (m : Message) (h : parseMessage (goLib T) fuel body header = .ok m) :
    m.RawBody = body ∧ m.RawHeaders = header ∧
    (∀ n, Message.Node n m → n.isMultipart (goLib T) → ∀ p ∈ n.Parts,
      ∃ (H : MIMEHeader) (data : Bytes), data <:+: n.RawBody ∧
        ((strings.EqualFold (multipart.headerGet H (str "Content-Transfer-Encoding"))
              (str "quoted-printable") = false ∧ p.RawHeaders = H ∧ p.RawBody = data) ∨
         (strings.EqualFold (multipart.headerGet H (str "Content-Transfer-Encoding"))
              (str "quoted-printable") = true ∧
            p.RawHeaders = H.del (str "Content-Transfer-Encoding") ∧
            quotedprintable.NewReader (.ok data) = .ok p.RawBody))) ∧
    (∀ fuel1 r m1, Parse (goLib T) fuel1 r = .ok m1 →
      (textproto.ReadMIMEHeader r).1 = .ok m1.RawHeaders ∧
      (textproto.ReadMIMEHeader r).2 = m1.RawBody ∧ m1.RawBody <:+ r) := by
  obtain ⟨hb, hh⟩ := parseMessage_ok_raw (goLib T) fuel body header m h
  refine ⟨hb, hh, ?_, ?_⟩
  · intro n hn hm p hp
    obtain ⟨fuel1, hparsed⟩ := node_parsed (goLib T) hn fuel body header h
    obtain ⟨_, hall⟩ := parseMessage_ok_segments (goLib T) _ _ _ n hparsed hm
    obtain ⟨seg, hseg, b, hsb, hpp⟩ := forall₂_right_mem hall p hp
    obtain ⟨hb1, hh1⟩ := parseMessage_ok_raw (goLib T) _ _ _ p hpp
    obtain ⟨H, data, hd, hc⟩ := nextParts_parts _ _ _ _ _ _ seg hseg b hsb
    refine ⟨H, data, hd, ?_⟩
    rw [hb1, hh1]
    exact hc
  · intro fuel1 r m1 hP
    have hsuf := ReadMIMEHeader_suffix r
    simp only [Parse, goLib] at hP
    cases hR : textproto.ReadMIMEHeader r with
    | mk hdr rest =>
      rw [hR] at hP hsuf
      simp only [] at hP hsuf
      cases hdr with
      | error err => simp at hP
      | ok hd =>
        simp only [bytes.NewBuffer, ioutil.ReadAll] at hP
        obtain ⟨hb1, hh1⟩ := parseMessage_ok_raw _ _ _ _ m1 hP
        rw [hb1, hh1]
        exact ⟨rfl, rfl, hsuf⟩

/-- C8, at the failing input: a `multipart/mixed` message whose part is declared
`quoted-printable` with body `a=3Db`. The node of the part has the decoded bytes
`a=b` as `RawBody`, which occur nowhere in the input, and its `RawHeaders` have
lost `Content-Transfer-Encoding`; the part of the same message declared `base64`
keeps its body `aGk=`. -/
theorem C8_part_raw_body_witness :
    parseMessage (goLib noTables) 2 qpPartBody mixedHeader
      = .ok (.mk mixedHeader qpPartBody mixedHeader none
          [.mk plainHeader (str "a=b") plainHeader (some (str "a=b")) []]) ∧
    Parse (goLib noTables) 2
        (str "Content-Type: multipart/mixed; boundary=b\r\n\r\n" ++ qpPartBody)
      = .ok (.mk mixedHeader qpPartBody mixedHeader none
          [.mk plainHeader (str "a=b") plainHeader (some (str "a=b")) []]) ∧
    ¬ (str "a=b" <:+: str "Content-Type: multipart/mixed; boundary=b\r\n\r\n" ++ qpPartBody) ∧
    (Message.mk mixedHeader qpPartBody mixedHeader none
        [.mk plainHeader (str "a=b") plainHeader (some (str "a=b")) []]).RawBody = qpPartBody ∧
    parseMessage (goLib noTables) 2 base64PartBody mixedHeader = .ok base64PartNode ∧
    base64PartNode.Parts.map Message.RawBody = [str "aGk="] :=
  ⟨by rfl, by rfl, by decide,
    (C8_part_raw_body noTables 2 qpPartBody mixedHeader
      (.mk mixedHeader qpPartBody mixedHeader none
        [.mk plainHeader (str "a=b") plainHeader (some (str "a=b")) []]) (by rfl)).1,
    by rfl, by rfl⟩

/-- C9. For a charset name outside the table, the empty name included,
`decodeBody` does the transfer decoding only; when the transfer encoding is
neither `base64` nor `quoted-printable` it returns the body unchanged, and the
`DecodedBody` of such a `text/*` node is its `RawBody`. -/
theorem C9_pass_through_charset (L : Lib) (charset te : GoString) (body : Bytes)
    (hc : passThrough L charset) :
    (∀ d, decodeBody L charset te (bytes.NewBuffer body) = .ok d ↔
        transferDecode L (L.ToLower te) body = .ok d) ∧
    ((∃ err, decodeBody L charset te (bytes.NewBuffer body) = .error err) ↔
        ∃ err, transferDecode L (L.ToLower te) body = .error err) ∧
    (L.ToLower te ≠ str "base64" → L.ToLower te ≠ str "quoted-printable" →
        decodeBody L charset te (bytes.NewBuffer body) = .ok body ∧
        ∀ fuel header m, parseMessage L fuel body header = .ok m → m.isText L →
          (m.mediaParams L).indexStr (str "charset") = charset → m.transferEncoding = te →
          m.DecodedBody = some m.RawBody) ∧
    ∀ T, passThrough (goLib T) [] := by
  have hnone := (passThrough_iff L charset).mp hc
  have hiff : ∀ d, decodeBody L charset te (bytes.NewBuffer body) = .ok d ↔
      transferDecode L (L.ToLower te) body = .ok d := by
    intro d
    rw [decodeBody_ok_iff]
    simp [charsetThenTransfer, charsetDecode, hnone]
  have hempty : ∀ T, passThrough (goLib T) [] := by
    intro T
    have e : (goLib T).ToLower [] = [] := rfl
    simp only [passThrough, e]
    decide
  refine ⟨hiff, ?_, ?_, hempty⟩
  · constructor
    · rintro ⟨err, he⟩
      cases ht : transferDecode L (L.ToLower te) body with
      | error e => exact ⟨e, rfl⟩
      | ok d =>
        rw [(hiff d).mpr ht] at he
        exact absurd he (by simp)
    · rintro ⟨err, he⟩
      cases hd : decodeBody L charset te (bytes.NewBuffer body) with
      | error e => exact ⟨e, rfl⟩
      | ok d =>
        rw [(hiff d).mp hd] at he
        exact absurd he (by simp)
  · intro h1 h2
    have hb : decodeBody L charset te (bytes.NewBuffer body) = .ok body := by
      rw [hiff]
      simp [transferDecode, h1, h2]
    refine ⟨hb, ?_⟩
    intro fuel header m hm ht hcs hte
    obtain ⟨d, hd, hdb⟩ := text_node_decoded L fuel body header m m hm (Message.Node.root m) ht
    obtain ⟨hraw, _⟩ := parseMessage_ok_raw L fuel body header m hm
    rw [hcs, hte, hraw, hb] at hdb
    cases hdb
    rw [hd, hraw]

/-- C9, at a concrete input: the charset `utf-8` with the transfer encoding
`8bit`, as in the fixture `body-utf8-encoded`. -/
theorem C9_pass_through_charset_witness :
    passThrough (goLib noTables) (str "utf-8") ∧
    decodeBody (goLib noTables) (str "utf-8") (str "8bit")
        (bytes.NewBuffer (str "テスト用のデータです。\r\n"))
      = .ok (str "テスト用のデータです。\r\n") :=
  ⟨by decide, ((C9_pass_through_charset (goLib noTables) (str "utf-8") (str "8bit")
    (str "テスト用のデータです。\r\n") (by decide)).2.2.1 (by decide) (by decide)).1⟩

/-- C10. Base64 round trip: for every byte string `x`, every charset outside the
table and every spelling of the transfer encoding that lower-cases to `base64`,
`decodeBody` on the padded base64 encoding of `x` returns `x`. -/
theorem C10_base64_round_trip (L : Lib) (x : Bytes) (charset te : GoString)
    (hx : ∀ b ∈ x, b < 256) (hc : passThrough L charset)
    (hte : L.ToLower te = str "base64") :
    decodeBody L charset te (bytes.NewBuffer (base64.StdEncoding.EncodeToString x)) = .ok x := by
  rw [decodeBody_ok_iff]
  have hnone := (passThrough_iff L charset).mp hc
  simp only [charsetThenTransfer, charsetDecode, hnone, transferDecode, hte, if_true,
    base64.StdEncoding.DecodeString]
  rw [decode_encode x hx 0 []]
  rfl

/-- C10, at the fixture: the body `dGhpcyBpcyBkYXRhCg==` is the base64 encoding
of `this is data\n` and decodes to it, whatever the case of `base64`. -/
theorem C10_base64_round_trip_witness :
    base64.StdEncoding.EncodeToString (str "this is data\n") = str "dGhpcyBpcyBkYXRhCg==" ∧
    decodeBody (goLib noTables) (str "UTF-8") (str "BASE64")
        (bytes.NewBuffer (base64.StdEncoding.EncodeToString (str "this is data\n")))
      = .ok (str "this is data\n") :=
  ⟨by decide, C10_base64_round_trip (goLib noTables) (str "this is data\n") (str "UTF-8")
    (str "BASE64") (by decide) (by decide) (by decide)⟩

/-! ## The claims, continued -/

theorem parseParts_ok_stop (parse : Bytes → MIMEHeader → Except Failure Message) :
    ∀ (s : PartStream) (acc parts : List Message), parseParts parse s acc = .ok parts →
      s.stop = none := by
  intro s
  induction s with
  | eof => intro acc parts _; rfl
  | fail err => intro acc parts h; simp [parseParts] at h
  | part Header body next ih =>
    intro acc parts h
    simp only [parseParts] at h
    split at h
    · exact absurd h (by simp)
    · split at h
      · exact absurd h (by simp)
      · exact absurd h (by simp)
      · exact ih _ _ h


theorem decodeMap_lf : base64.decodeMap 10 = none := by decide

theorem decodeMap_cr : base64.decodeMap 13 = none := by decide

/-- What `skipNewlines` leaves has the bytes of the input that are not newlines,
and does not start with a newline. -/
theorem skipNewlines_spec :
    ∀ (src : Bytes) (si : Nat),
      base64.stripNewlines (base64.skipNewlines src si).1 = base64.stripNewlines src ∧
      ∀ c rest, (base64.skipNewlines src si).1 = c :: rest → ¬ (c = 10 ∨ c = 13) := by
  intro src
  induction src with
  | nil => intro si; simp [base64.skipNewlines]
  | cons c src ih =>
    intro si
    by_cases hc : c = 10 ∨ c = 13
    · simp only [base64.skipNewlines, hc, if_true]
      refine ⟨?_, (ih (si + 1)).2⟩
      rw [(ih (si + 1)).1]
      simp [base64.stripNewlines, List.filter, hc]
    · simp only [base64.skipNewlines, hc, if_false]
      refine ⟨trivial, ?_⟩
      intro d rest h
      simp only [List.cons.injEq] at h
      rw [← h.1]
      exact hc

theorem stripNewlines_cons_of_not (c : Nat) (s : Bytes) (h : ¬ (c = 10 ∨ c = 13)) :
    base64.stripNewlines (c :: s) = c :: base64.stripNewlines s := by
  simp [base64.stripNewlines, List.filter, h]

theorem stripNewlines_cons_of (c : Nat) (s : Bytes) (h : c = 10 ∨ c = 13) :
    base64.stripNewlines (c :: s) = base64.stripNewlines s := by
  simp [base64.stripNewlines, List.filter, h]

/-- After newlines are skipped nothing is left exactly when the input holds
newlines only. -/
theorem skipNewlines_nil_iff (src : Bytes) (si : Nat) :
    (base64.skipNewlines src si).1 = [] ↔ base64.stripNewlines src = [] := by
  obtain ⟨h1, h2⟩ := skipNewlines_spec src si
  constructor
  · intro h
    rw [← h1, h]
    rfl
  · intro h
    cases hs : (base64.skipNewlines src si).1 with
    | nil => rfl
    | cons c rest =>
      rw [hs, stripNewlines_cons_of_not c rest (h2 c rest hs)] at h1
      rw [h] at h1
      exact absurd h1 (by simp)

/-- The padding of a quantum is accepted exactly when, newlines apart, one `=`
follows a quantum of two characters and nothing a quantum of three. -/
theorem decodePadding_ok_iff (src : Bytes) (si : Nat) (dbuf : List Nat) (out : Bytes) :
    (∃ r, base64.decodePadding src si dbuf out = .ok r) ↔
      (dbuf.length = 2 ∧ base64.stripNewlines src = [61]) ∨
      (2 < dbuf.length ∧ base64.stripNewlines src = []) := by
  unfold base64.decodePadding
  by_cases h2 : dbuf.length < 2
  · simp only [h2, if_true]
    constructor
    · rintro ⟨r, hr⟩
      exact absurd hr (by simp)
    · rintro (⟨h, _⟩ | ⟨h, _⟩) <;> omega
  · simp only [h2, if_false]
    by_cases heq : dbuf.length = 2
    · simp only [heq, if_true]
      obtain ⟨hstrip, hhead⟩ := skipNewlines_spec src si
      cases hs : base64.skipNewlines src si with
      | mk s1 si1 =>
        rw [hs] at hstrip hhead
        cases s1 with
        | nil =>
          simp only []
          have : base64.stripNewlines src = [] := by rw [← hstrip]; rfl
          simp [this]
        | cons c rest =>
          simp only []
          have hc := hhead c rest rfl
          have hsrc : base64.stripNewlines src = c :: base64.stripNewlines rest := by
            rw [← hstrip]
            exact stripNewlines_cons_of_not c rest hc
          by_cases h61 : c = 61
          · subst h61
            simp only [ne_eq, not_true_eq_false, if_false]
            have hnil := skipNewlines_nil_iff rest (si1 + 1)
            cases hs2 : base64.skipNewlines rest (si1 + 1) with
            | mk s2 si2 =>
              rw [hs2] at hnil
              cases s2 with
              | nil =>
                have : base64.stripNewlines rest = [] := hnil.mp rfl
                simp [hsrc, this]
              | cons d rest2 =>
                have : base64.stripNewlines rest ≠ [] := fun h => by
                  have := hnil.mpr h
                  simp at this
                simp [hsrc, this]
          · simp [hsrc, h61]
    · simp only [heq, if_false]
      have hnil := skipNewlines_nil_iff src si
      cases hs2 : base64.skipNewlines src si with
      | mk s2 si2 =>
        rw [hs2] at hnil
        have hlt : 2 < dbuf.length := by omega
        cases s2 with
        | nil =>
          have : base64.stripNewlines src = [] := hnil.mp rfl
          simp [this, hlt]
        | cons d rest2 =>
          have : base64.stripNewlines src ≠ [] := fun h => by
            have := hnil.mpr h
            simp at this
          simp [this]

theorem validFrom_mod (j k : Nat) (t : Bytes) (h : j % 4 = k % 4) :
    base64.ValidFrom j t → base64.ValidFrom k t := by
  rintro ⟨body, pad, ht, hb, hp⟩
  refine ⟨body, pad, ht, hb, ?_⟩
  rcases hp with ⟨h1, h2⟩ | ⟨h1, h2⟩ | ⟨h1, h2⟩
  · exact Or.inl ⟨h1, by omega⟩
  · exact Or.inr (Or.inl ⟨h1, by omega⟩)
  · exact Or.inr (Or.inr ⟨h1, by omega⟩)

theorem validFrom_nil (j : Nat) : base64.ValidFrom j [] ↔ j % 4 = 0 := by
  constructor
  · rintro ⟨body, pad, ht, _, hp⟩
    have hnil := List.append_eq_nil.mp ht.symm
    rcases hp with ⟨_, h2⟩ | ⟨h1, _⟩ | ⟨h1, _⟩
    · rw [hnil.1] at h2
      simpa using h2
    · rw [hnil.2] at h1
      exact absurd h1 (by simp)
    · rw [hnil.2] at h1
      exact absurd h1 (by simp)
  · intro h
    exact ⟨[], [], rfl, by simp, Or.inl ⟨rfl, by simpa using h⟩⟩

theorem validFrom_alphabet (j c : Nat) (t : Bytes)
    (hc : (base64.decodeMap c).isSome = true) :
    base64.ValidFrom j (c :: t) ↔ base64.ValidFrom (j + 1) t := by
  have h61 : c ≠ 61 := by
    intro h
    rw [h, decodeMap_pad] at hc
    exact absurd hc (by simp)
  constructor
  · rintro ⟨body, pad, ht, hb, hp⟩
    cases body with
    | nil =>
      simp only [List.nil_append] at ht
      rcases hp with ⟨h1, _⟩ | ⟨h1, _⟩ | ⟨h1, _⟩
      · rw [h1] at ht
        exact absurd ht (by simp)
      · rw [h1] at ht
        simp only [List.cons.injEq] at ht
        exact absurd ht.1 h61
      · rw [h1] at ht
        simp only [List.cons.injEq] at ht
        exact absurd ht.1 h61
    | cons b body =>
      simp only [List.cons_append, List.cons.injEq] at ht
      refine ⟨body, pad, ht.2, fun x hx => hb x (List.mem_cons_of_mem _ hx), ?_⟩
      simp only [List.length_cons] at hp
      rcases hp with ⟨h1, h2⟩ | ⟨h1, h2⟩ | ⟨h1, h2⟩
      · exact Or.inl ⟨h1, by omega⟩
      · exact Or.inr (Or.inl ⟨h1, by omega⟩)
      · exact Or.inr (Or.inr ⟨h1, by omega⟩)
  · rintro ⟨body, pad, ht, hb, hp⟩
    refine ⟨c :: body, pad, by simp [ht], ?_, ?_⟩
    · intro x hx
      rcases List.mem_cons.mp hx with rfl | hx
      · exact hc
      · exact hb x hx
    · simp only [List.length_cons]
      rcases hp with ⟨h1, h2⟩ | ⟨h1, h2⟩ | ⟨h1, h2⟩
      · exact Or.inl ⟨h1, by omega⟩
      · exact Or.inr (Or.inl ⟨h1, by omega⟩)
      · exact Or.inr (Or.inr ⟨h1, by omega⟩)

/-- A byte outside the alphabet can only start the padding. -/
theorem validFrom_outside (j c : Nat) (t : Bytes) (hc : base64.decodeMap c = none) :
    base64.ValidFrom j (c :: t) ↔
      c = 61 ∧ ((j % 4 = 3 ∧ t = []) ∨ (j % 4 = 2 ∧ t = [61])) := by
  constructor
  · rintro ⟨body, pad, ht, hb, hp⟩
    cases body with
    | nil =>
      simp only [List.nil_append] at ht
      simp only [List.length_nil, Nat.add_zero] at hp
      rcases hp with ⟨h1, _⟩ | ⟨h1, h2⟩ | ⟨h1, h2⟩
      · rw [h1] at ht
        exact absurd ht (by simp)
      · rw [h1] at ht
        simp only [List.cons.injEq] at ht
        exact ⟨ht.1, Or.inl ⟨h2, ht.2⟩⟩
      · rw [h1] at ht
        simp only [List.cons.injEq] at ht
        exact ⟨ht.1, Or.inr ⟨h2, ht.2⟩⟩
    | cons b body =>
      simp only [List.cons_append, List.cons.injEq] at ht
      have := hb b (List.mem_cons_self _ _)
      rw [← ht.1, hc] at this
      exact absurd this (by simp)
  · rintro ⟨rfl, h | h⟩
    · exact ⟨[], [61], by simp [h.2], by simp, Or.inr (Or.inl ⟨rfl, by simpa using h.1⟩)⟩
    · exact ⟨[], [61, 61], by simp [h.2], by simp, Or.inr (Or.inr ⟨rfl, by simpa using h.1⟩)⟩

/-- Go's decoder accepts exactly the texts that, newlines left out, complete a
padded base64 text. -/
theorem decode_ok_iff :
    ∀ (src : Bytes) (si : Nat) (dbuf : List Nat) (out : Bytes), dbuf.length < 4 →
      ((∃ r, base64.decode src si dbuf out = .ok r) ↔
        base64.ValidFrom dbuf.length (base64.stripNewlines src)) := by
  intro src
  induction src with
  | nil =>
    intro si dbuf out hlen
    have hs : base64.stripNewlines [] = [] := rfl
    rw [hs, validFrom_nil]
    simp only [base64.decode]
    by_cases hd : dbuf = []
    · simp [hd]
    · have : dbuf.length ≠ 0 := fun h => hd (List.length_eq_zero.mp h)
      simp only [hd, if_false]
      constructor
      · rintro ⟨r, hr⟩
        exact absurd hr (by simp)
      · intro h
        omega
  | cons c rest ih =>
    intro si dbuf out hlen
    rw [base64.decode]
    cases hm : base64.decodeMap c with
    | some v =>
      have hc : (base64.decodeMap c).isSome = true := by simp [hm]
      have hnl : ¬ (c = 10 ∨ c = 13) := by
        rintro (h | h)
        · rw [h, decodeMap_lf] at hm
          exact absurd hm (by simp)
        · rw [h, decodeMap_cr] at hm
          exact absurd hm (by simp)
      rw [stripNewlines_cons_of_not c rest hnl, validFrom_alphabet _ c _ hc]
      simp only []
      by_cases h3 : dbuf.length = 3
      · simp only [h3, if_true]
        rw [ih (si + 1) [] _ (by simp)]
        exact ⟨validFrom_mod _ _ _ (by simp), validFrom_mod _ _ _ (by simp)⟩
      · simp only [h3, if_false]
        rw [ih (si + 1) (dbuf ++ [v]) out (by simp; omega)]
        simp
    | none =>
      simp only []
      by_cases hnl : c = 10 ∨ c = 13
      · simp only [hnl, if_true]
        rw [stripNewlines_cons_of c rest hnl]
        exact ih (si + 1) dbuf out hlen
      · simp only [hnl, if_false]
        rw [stripNewlines_cons_of_not c rest hnl, validFrom_outside _ c _ hm]
        by_cases h61 : c = 61
        · simp only [h61, ne_eq, not_true_eq_false, if_false, true_and]
          rw [decodePadding_ok_iff]
          constructor
          · rintro (⟨h1, h2⟩ | ⟨h1, h2⟩)
            · exact Or.inr ⟨by omega, h2⟩
            · exact Or.inl ⟨by omega, h2⟩
          · rintro (⟨h1, h2⟩ | ⟨h1, h2⟩)
            · exact Or.inr ⟨by omega, h2⟩
            · exact Or.inl ⟨by omega, h2⟩
        · simp only [ne_eq, h61, not_false_eq_true, if_true, false_and, iff_false]
          rintro ⟨r, hr⟩
          exact absurd hr (by simp)

/-- Go `base64.StdEncoding.DecodeString` succeeds exactly on the texts that,
newlines left out, are valid payloads. -/
theorem DecodeString_ok_iff (s : GoString) :
    (∃ r, base64.StdEncoding.DecodeString s = .ok r) ↔
      base64.ValidPayload (base64.stripNewlines s) := by
  simpa [base64.StdEncoding.DecodeString, base64.ValidPayload] using decode_ok_iff s 0 [] [] (by simp)

/-- With a transfer encoding that lower-cases to `base64`, `decodeBody` fails
exactly when the charset decoder fails or its output, newlines left out, is no
valid payload. -/
theorem decodeBody_base64_error_iff (L : Lib) (charset te : GoString) (raw : Bytes)
    (hte : L.ToLower te = str "base64") :
    (∃ err, decodeBody L charset te (bytes.NewBuffer raw) = .error err) ↔
      ∀ r, charsetDecode L (L.ToLower charset) raw = .ok r →
        ¬ base64.ValidPayload (base64.stripNewlines r) := by
  have hok : (∃ d, decodeBody L charset te (bytes.NewBuffer raw) = .ok d) ↔
      ∃ r, charsetDecode L (L.ToLower charset) raw = .ok r ∧
        base64.ValidPayload (base64.stripNewlines r) := by
    simp only [decodeBody_ok_iff, charsetThenTransfer, transferDecode, hte, if_true]
    cases hc : charsetDecode L (L.ToLower charset) raw with
    | error e => simp
    | ok b =>
      simp only [Except.ok.injEq, exists_eq_left']
      exact DecodeString_ok_iff b
  constructor
  · rintro ⟨err, herr⟩ r hr hvalid
    obtain ⟨d, hd⟩ := hok.mpr ⟨r, hr, hvalid⟩
    rw [herr] at hd
    exact absurd hd (by simp)
  · intro h
    cases hd : decodeBody L charset te (bytes.NewBuffer raw) with
    | error err => exact ⟨err, rfl⟩
    | ok d =>
      obtain ⟨r, hr, hvalid⟩ := hok.mp ⟨d, hd⟩
      exact absurd hvalid (h r hr)

/-- C11, as it stands, fails: a `text/plain` body in base64 that ends in CR LF
holds two bytes outside the alphabet and is no valid payload, yet `decodeBody`
and `parseMessage` decode it, Go's decoder skipping CR and LF. -/
theorem C11_newlines_are_skipped :
    (goLib noTables).ToLower
        (Message.mk base64TextHeader (str "aGk=\r\n") [] none []).transferEncoding
      = str "base64" ∧
    (∃ c ∈ str "aGk=\r\n", base64.decodeMap c = none ∧ c ≠ 61) ∧
    ¬ base64.ValidPayload (str "aGk=\r\n") ∧
    decodeBody (goLib noTables) (str "utf-8") (str "base64") (bytes.NewBuffer (str "aGk=\r\n"))
      = .ok (str "hi") ∧
    parseMessage (goLib noTables) 1 (str "aGk=\r\n") base64TextHeader
      = .ok (.mk base64TextHeader (str "aGk=\r\n") base64TextHeader (some (str "hi")) []) := by
  refine ⟨by decide, ⟨13, by decide, by decide, by decide⟩, ?_, by rfl, by rfl⟩
  have hs : str "aGk=\r\n" = [97, 71, 107, 61, 13, 10] := by decide
  rw [hs, base64.ValidPayload, validFrom_alphabet _ _ _ (by decide),
    validFrom_alphabet _ _ _ (by decide), validFrom_alphabet _ _ _ (by decide),
    validFrom_outside _ _ _ (by decide)]
  simp

/-- C11, amended. For a `text/*` entity whose `Content-Transfer-Encoding`
lower-cases to `base64`, `decodeBody` returns an error exactly when the charset
decoder fails on the body or its output, CR and LF left out, is no valid
standard base64 payload; and `parseMessage` then returns an error and no
message. -/
theorem C11_invalid_base64 (L : Lib) (fuel : Nat) (body : Bytes) (header : MIMEHeader)
    (v ctype : GoString) (params : GoMap GoString)
    (hv : (header.index (str "Content-Type")).head? = some v)
    (hp : L.ParseMediaType v = .ok (ctype, params))
    (ht : strings.HasPrefix ctype (str "text/") = true)
    (hte : L.ToLower (Message.mk header body [] none []).transferEncoding = str "base64") :
    ((∃ err, decodeBody L (params.indexStr (str "charset"))
          (Message.mk header body [] none []).transferEncoding (bytes.NewBuffer body)
        = .error err) ↔
      ∀ r, charsetDecode L (L.ToLower (params.indexStr (str "charset"))) body = .ok r →
        ¬ base64.ValidPayload (base64.stripNewlines r)) ∧
    ((∀ r, charsetDecode L (L.ToLower (params.indexStr (str "charset"))) body = .ok r →
        ¬ base64.ValidPayload (base64.stripNewlines r)) →
      ∃ err, parseMessage L (fuel + 1) body header = .error (.error err)) := by
  have hiff := decodeBody_base64_error_iff L (params.indexStr (str "charset"))
    (Message.mk header body [] none []).transferEncoding body hte
  refine ⟨hiff, ?_⟩
  intro hinv
  obtain ⟨err, herr⟩ := hiff.mpr hinv
  cases hd : decodeHeaders L header with
  | error e =>
    exact ⟨.Errorf "failed to decode headers: %s" [] e, by simp only [parseMessage, hd]⟩
  | ok dhdr =>
    have hte1 : (Message.mk header body dhdr none []).transferEncoding
        = (Message.mk header body [] none []).transferEncoding := rfl
    refine ⟨.Errorf "failed to decode body: %s" [] err, ?_⟩
    simp only [parseMessage, hd, Message.RawHeaders, hv, hp, ht, if_true, hte1,
      Message.RawBody, herr]

/-- C11, amended, on a `text/plain` entity in base64 whose body `aGk` lacks its
padding: `decodeBody` and `parseMessage` return an error. -/
theorem C11_invalid_base64_witness :
    ((base64TextHeader.index (str "Content-Type")).head? = some (str "text/plain; charset=utf-8") ∧
      (goLib noTables).ParseMediaType (str "text/plain; charset=utf-8")
        = .ok (str "text/plain", [(str "charset", str "utf-8")]) ∧
      strings.HasPrefix (str "text/plain") (str "text/") = true ∧
      (goLib noTables).ToLower (Message.mk base64TextHeader (str "aGk") [] none []).transferEncoding
        = str "base64") ∧
    ¬ base64.ValidPayload (base64.stripNewlines (str "aGk")) ∧
    (∃ err, parseMessage (goLib noTables) 1 (str "aGk") base64TextHeader = .error (.error err)) ∧
    parseMessage (goLib noTables) 1 (str "aGk") base64TextHeader
      = .error (.error (.Errorf "failed to decode body: %s" []
          (.Errorf "failed to decode b64: %s" [] (base64.CorruptInputError 0)))) :=
  have hinv : ¬ base64.ValidPayload (base64.stripNewlines (str "aGk")) := by
    have hs : base64.stripNewlines (str "aGk") = [97, 71, 107] := by decide
    rw [hs, base64.ValidPayload, validFrom_alphabet _ _ _ (by decide),
      validFrom_alphabet _ _ _ (by decide), validFrom_alphabet _ _ _ (by decide), validFrom_nil]
    decide
  ⟨⟨by decide, by rfl, by decide, by decide⟩, hinv,
    (C11_invalid_base64 (goLib noTables) 0 (str "aGk") base64TextHeader
      (str "text/plain; charset=utf-8") (str "text/plain") [(str "charset", str "utf-8")]
      (by decide) (by rfl) (by decide) (by decide)).2
      (fun r hr => by
        have hr1 : r = str "aGk" := by
          have h0 : charsetDecode (goLib noTables)
              ((goLib noTables).ToLower
                (GoMap.indexStr [(str "charset", str "utf-8")] (str "charset")))
              (str "aGk") = .ok (str "aGk") := by rfl
          rw [h0] at hr
          exact (Except.ok.inj hr).symm
        rw [hr1]
        exact hinv),
    by rfl⟩
/-- C12. The `Parts` of a multipart node that `parseMessage` returns are, in
order, the nodes `parseMessage` returns on the segments (header and body) the
multipart reader yields before the terminating boundary: as many parts as
segments, the part at each position being the node of the segment there. -/
theorem C12_parts_are_segments (L : Lib) (fuel : Nat) (body : Bytes) (header : MIMEHeader)
    (m : Message) (h : parseMessage L fuel body header = .ok m) (hm : m.isMultipart L) :
    List.Forall₂ (fun seg p => ∃ b, seg.2 = .ok b ∧ parseMessage L (fuel - 1) b seg.1 = .ok p)
        (L.NewReader body ((m.mediaParams L).indexStr (str "boundary"))).segments m.Parts ∧
      m.Parts.length =
        (L.NewReader body ((m.mediaParams L).indexStr (str "boundary"))).segments.length ∧
      (L.NewReader body ((m.mediaParams L).indexStr (str "boundary"))).stop = none := by
  obtain ⟨_, hall⟩ := parseMessage_ok_segments L fuel body header m h hm
  refine ⟨hall, (List.Forall₂.length_eq hall).symm, ?_⟩
  obtain ⟨fuel1, ctype, hf, _, _, _, hmt, hc⟩ := parseMessage_ok_shape L fuel body header m h
  obtain ⟨ctype1, hmt1, hmp⟩ := hm
  rw [hmt] at hmt1
  cases hmt1
  have htext := hasPrefix_multipart_not_text ctype hmp
  rcases hc with ⟨ht, _⟩ | ⟨_, _, _, hparts⟩ | ⟨_, hmf, _⟩
  · rw [ht] at htext
    exact absurd htext (by simp)
  · exact parseParts_ok_stop _ _ _ _ hparts
  · rw [hmp] at hmf
    exact absurd hmf (by simp)

/-- C12, at the fixture: the two-part `multipart/mixed` message gives two parts,
with decoded bodies `this is test mail\r\n` and `this is data\n`. -/
theorem C12_parts_are_segments_witness :
    (parseMessage (goLib noTables) 2 fixtureBody fixtureHeader = .ok fixtureNode ∧
      fixtureNode.isMultipart (goLib noTables)) ∧
    fixtureNode.Parts.length = 2 ∧
    fixtureNode.Parts.map Message.DecodedBody
      = [some (str "this is test mail\r\n"), some (str "this is data\n")] ∧
    fixtureNode.Parts.length =
      ((goLib noTables).NewReader fixtureBody
        ((fixtureNode.mediaParams (goLib noTables)).indexStr (str "boundary"))).segments.length :=
  ⟨⟨by rfl, ⟨str "multipart/mixed", by rfl, by decide⟩⟩, by rfl, by rfl,
    (C12_parts_are_segments (goLib noTables) 2 fixtureBody fixtureHeader fixtureNode (by rfl)
      ⟨str "multipart/mixed", by rfl, by decide⟩).2.1⟩


theorem forall₂_left_mem {α β : Type} {R : α → β → Prop} {l1 : List α} {l2 : List β}
    (h : List.Forall₂ R l1 l2) : ∀ a ∈ l1, ∃ b ∈ l2, R a b := by
  induction h with
  | nil => simp
  | cons hr _ ih =>
    intro a ha
    rcases List.mem_cons.mp ha with rfl | ha
    · exact ⟨_, List.mem_cons_self _ _, hr⟩
    · obtain ⟨b, hb, hr1⟩ := ih a ha
      exact ⟨b, List.mem_cons_of_mem _ hb, hr1⟩

/-- The loop over the parts returns a Go error, or the parts, when the recursive
call neither panics nor runs out of budget on a segment. -/
theorem parseParts_error_or_ok (parse : Bytes → MIMEHeader → Except Failure Message) :
    ∀ (s : PartStream) (acc : List Message),
      (∀ seg ∈ s.segments, ∀ b, seg.2 = .ok b →
        parse b seg.1 ≠ .error .panic ∧ parse b seg.1 ≠ .error .outOfFuel) →
      (∃ parts, parseParts parse s acc = .ok parts) ∨
        ∃ err, parseParts parse s acc = .error (.error err) := by
  intro s
  induction s with
  | eof => intro acc _; exact Or.inl ⟨acc, rfl⟩
  | fail err => intro acc _; exact Or.inr ⟨_, rfl⟩
  | part Header body next ih =>
    intro acc h
    cases body with
    | error e => exact Or.inr ⟨_, rfl⟩
    | ok partBody =>
      have hseg := h (Header, .ok partBody) (by simp [PartStream.segments]) partBody rfl
      simp only [parseParts]
      cases hp : parse partBody Header with
      | ok partMsg =>
        simp only []
        exact ih _ (fun seg hs b hb => h seg (by simp [PartStream.segments, hs]) b hb)
      | error f =>
        cases f with
        | error e => exact Or.inr ⟨_, rfl⟩
        | panic => exact absurd hp hseg.1
        | outOfFuel => exact absurd hp hseg.2

/-- A multipart entity one of whose segments fails, fails. -/
theorem fails_of_subPart (L : Lib) (child parent : Bytes × MIMEHeader)
    (hs : SubPart L child parent) (hf : Fails L child.1 child.2) :
    Fails L parent.1 parent.2 := by
  intro fuel m h
  obtain ⟨fuel1, dhdr, v, ctype, params, _, _, hv, hp, hc⟩ :=
    parseMessage_ok_inv L fuel parent.1 parent.2 m h
  simp only [SubPart, subSegments, hv, hp] at hs
  split_ifs at hs with hm
  · have ht := hasPrefix_multipart_not_text ctype hm
    rcases hc with ⟨ht1, _⟩ | ⟨_, _, parts, hparts, _⟩ | ⟨_, hmf, _⟩
    · rw [ht] at ht1
      exact absurd ht1 (by simp)
    · obtain ⟨new, _, hall⟩ := parseParts_ok _ _ _ _ hparts
      obtain ⟨p, _, b, hb, hpb⟩ := forall₂_left_mem hall _ hs
      simp only [Except.ok.injEq] at hb
      subst hb
      exact hf fuel1 p hpb
    · rw [hm] at hmf
      exact absurd hmf (by simp)
  · simp at hs

/-- No message comes out of an entity whose first `Content-Type` value the
media-type parser rejects. -/
theorem fails_of_bad_media_type (L : Lib) (body : Bytes) (header : MIMEHeader)
    (v : GoString) (e : Error)
    (hv : (header.index (str "Content-Type")).head? = some v)
    (hp : L.ParseMediaType v = .error e) : Fails L body header := by
  intro fuel1 m h
  obtain ⟨_, _, v1, _, _, _, _, hv1, hp1, _⟩ := parseMessage_ok_inv L fuel1 body header m h
  rw [hv] at hv1
  cases hv1
  rw [hp] at hp1
  exact absurd hp1 (by simp)

/-- C13, which the code breaks. When `parseMessage` fails on a segment of a
multipart entity, at any nesting depth, it returns no message on the enclosing
entity: no tree with the failing part left out or undecoded. What it returns is
an error as long as no segment makes the recursive call panic; a segment with no
`Content-Type` does (C1), and the enclosing call then panics instead of
returning an error. -/
theorem C13_no_partial_success (L : Lib) (body : Bytes) (header : MIMEHeader)
    (cb : Bytes) (ch : MIMEHeader)
    (hn : Relation.TransGen (SubPart L) (cb, ch) (body, header)) (hf : Fails L cb ch) :
    Fails L body header ∧
      ∀ fuel, (∀ seg ∈ subSegments L body header, ∀ b, seg.2 = .ok b →
          parseMessage L fuel b seg.1 ≠ .error .panic ∧
          parseMessage L fuel b seg.1 ≠ .error .outOfFuel) →
        ∃ err, parseMessage L (fuel + 1) body header = .error (.error err) := by
  have key : ∀ (p : Bytes × MIMEHeader), Relation.TransGen (SubPart L) (cb, ch) p →
      Fails L p.1 p.2 := by
    intro p hp
    induction hp with
    | single h => exact fails_of_subPart L _ _ h hf
    | tail _ h ih => exact fails_of_subPart L _ _ h ih
  have hfail : Fails L body header := key (body, header) hn
  refine ⟨hfail, ?_⟩
  intro fuel hseg
  cases hd : decodeHeaders L header with
  | error e =>
    exact ⟨.Errorf "failed to decode headers: %s" [] e, by simp only [parseMessage, hd]⟩
  | ok dhdr =>
    have hsub : ∃ c, SubPart L c (body, header) := by
      cases hn with
      | single h => exact ⟨_, h⟩
      | tail _ h => exact ⟨_, h⟩
    obtain ⟨c, hc⟩ := hsub
    simp only [SubPart, subSegments] at hc
    simp only [subSegments] at hseg
    cases hv : (header.index (str "Content-Type")).head? with
    | none => simp [hv] at hc
    | some v =>
      simp only [hv] at hc hseg
      cases hp : L.ParseMediaType v with
      | error e => simp [hp] at hc
      | ok r =>
        obtain ⟨ctype, params⟩ := r
        simp only [hp] at hc hseg
        split_ifs at hc hseg with hm
        · have ht := hasPrefix_multipart_not_text ctype hm
          have hnot := hfail (fuel + 1)
          simp only [parseMessage, hd, Message.RawHeaders, hv, hp, ht, hm] at hnot ⊢
          rcases parseParts_error_or_ok (fun b h => parseMessage L fuel b h) _ [] hseg with
            ⟨parts, hparts⟩ | ⟨err, herr⟩
          · have h1 := hnot (.mk header body dhdr none parts)
            simp [hparts] at h1
          · exact ⟨err, by simp [herr]⟩
        · simp at hc

/-- C13, at the failing input: a `multipart/mixed` body whose first part has no
`Content-Type` and whose second part has a malformed one. `parseMessage` fails on
the second segment with an error, and on the enclosing entity it returns no
message; but it panics there, on the first segment, instead of returning an
error. -/
theorem C13_no_partial_success_witness :
    (SubPart (goLib noTables) (str "yo", [(str "Content-Type", [str "text/plain; charset"])])
        (badPartsBody, mixedHeader) ∧
      Fails (goLib noTables) (str "yo") [(str "Content-Type", [str "text/plain; charset"])]) ∧
    Fails (goLib noTables) badPartsBody mixedHeader ∧
    parseMessage (goLib noTables) 1 (str "yo")
        [(str "Content-Type", [str "text/plain; charset"])]
      = .error (.error (.Errorf "failed to parse Content-Type header: %s" []
          (.New "mime: invalid media parameter"))) ∧
    parseMessage (goLib noTables) 1 (str "hi") [(str "Subject", [str "x"])] = .error .panic ∧
    parseMessage (goLib noTables) 2 badPartsBody mixedHeader = .error .panic :=
  ⟨⟨by decide, fails_of_bad_media_type (goLib noTables) _ _ (str "text/plain; charset")
      (.New "mime: invalid media parameter") (by rfl) (by rfl)⟩,
    (C13_no_partial_success (goLib noTables) badPartsBody mixedHeader (str "yo")
      [(str "Content-Type", [str "text/plain; charset"])]
      (Relation.TransGen.single (by decide))
      (fails_of_bad_media_type (goLib noTables) _ _ (str "text/plain; charset")
        (.New "mime: invalid media parameter") (by rfl) (by rfl))).1,
    by rfl, by rfl, by rfl⟩
/-- C14. When the media type starts with neither `text/` nor `multipart/`,
`parseMessage` succeeds whenever the headers decode, whatever the body and the
`Content-Transfer-Encoding` are, with `DecodedBody` absent and `Parts` empty. -/
theorem C14_other_media_type (L : Lib) (fuel : Nat) (body : Bytes) (header dhdr : MIMEHeader)
    (v ctype : GoString) (params : GoMap GoString)
    (hv : (header.index (str "Content-Type")).head? = some v)
    (hp : L.ParseMediaType v = .ok (ctype, params))
    (ht : strings.HasPrefix ctype (str "text/") = false)
    (hm : strings.HasPrefix ctype (str "multipart/") = false)
    (hd : decodeHeaders L header = .ok dhdr) :
    parseMessage L (fuel + 1) body header = .ok (.mk header body dhdr none []) ∧
      (Message.mk header body dhdr none []).DecodedBody = none ∧
      (Message.mk header body dhdr none []).Parts = [] := by
  refine ⟨?_, rfl, rfl⟩
  simp only [parseMessage, hd, Message.RawHeaders, hv, hp, ht, hm]
  simp

/-- C14, at a concrete input: `application/octet-stream` declared `base64` with a
body that is no base64 text. -/
theorem C14_other_media_type_witness :
    (mime.ParseMediaType noTables (str "application/octet-stream")
        = .ok (str "application/octet-stream", []) ∧
      decodeHeaders (goLib noTables) octetHeader = .ok octetHeader) ∧
    parseMessage (goLib noTables) 1 (str "!!! not base64 !!!") octetHeader
      = .ok (.mk octetHeader (str "!!! not base64 !!!") octetHeader none []) :=
  ⟨⟨by rfl, by rfl⟩,
    (C14_other_media_type (goLib noTables) 0 (str "!!! not base64 !!!") octetHeader octetHeader
      (str "application/octet-stream") (str "application/octet-stream") [] (by rfl) (by rfl)
      (by decide) (by decide) (by rfl)).1⟩


/-- The values `decodeValues` returns are the decoded values, in order. -/
theorem decodeValues_forall₂ (L : Lib) (k : GoString) :
    ∀ (values ds : List GoString), decodeValues L k values = .ok ds →
      List.Forall₂ (fun v d => L.DecodeHeader (charsetReader L) v = .ok d) values ds := by
  intro values
  induction values with
  | nil =>
    intro ds h
    simp only [decodeValues, Except.ok.injEq] at h
    subst h
    exact List.Forall₂.nil
  | cons v values ih =>
    intro ds h
    simp only [decodeValues] at h
    split at h
    · exact absurd h (by simp)
    · rename_i d hd
      split at h
      · exact absurd h (by simp)
      · rename_i ds1 hds1
        simp only [Except.ok.injEq] at h
        subst h
        exact List.Forall₂.cons hd (ih ds1 hds1)

/-- The entries `decodeHeaders` returns are the entries of its argument with
every value decoded, in order. -/
theorem decodeHeaders_forall₂ (L : Lib) :
    ∀ (hdr decoded : MIMEHeader), decodeHeaders L hdr = .ok decoded →
      List.Forall₂ (fun e d => d.1 = e.1 ∧
        List.Forall₂ (fun v dv => L.DecodeHeader (charsetReader L) v = .ok dv) e.2 d.2)
        hdr decoded := by
  intro hdr
  induction hdr with
  | nil =>
    intro decoded h
    simp only [decodeHeaders, Except.ok.injEq] at h
    subst h
    exact List.Forall₂.nil
  | cons entry hdr ih =>
    obtain ⟨k, values⟩ := entry
    intro decoded h
    simp only [decodeHeaders] at h
    split at h
    · exact absurd h (by simp)
    · rename_i ds hds
      split at h
      · exact absurd h (by simp)
      · rename_i dec1 hdec1
        simp only [Except.ok.injEq] at h
        subst h
        exact List.Forall₂.cons ⟨rfl, decodeValues_forall₂ L k values ds hds⟩ (ih dec1 hdec1)

/-- A header mapping all of whose values the word decoder returns unchanged is
returned unchanged by `decodeHeaders`. -/
theorem decodeHeaders_id (L : Lib) :
    ∀ hdr : MIMEHeader,
      (∀ e ∈ hdr, ∀ v ∈ e.2, L.DecodeHeader (charsetReader L) v = .ok v) →
      decodeHeaders L hdr = .ok hdr := by
  have hv : ∀ (k : GoString) (values : List GoString),
      (∀ v ∈ values, L.DecodeHeader (charsetReader L) v = .ok v) →
      decodeValues L k values = .ok values := by
    intro k values
    induction values with
    | nil => intro _; rfl
    | cons v values ih =>
      intro h
      simp only [decodeValues, h v (List.mem_cons_self _ _),
        ih (fun w hw => h w (List.mem_cons_of_mem _ hw))]
  intro hdr
  induction hdr with
  | nil => intro _; rfl
  | cons entry hdr ih =>
    obtain ⟨k, values⟩ := entry
    intro h
    simp only [decodeHeaders, hv k values (h (k, values) (List.mem_cons_self _ _)),
      ih (fun e he => h e (List.mem_cons_of_mem _ he))]

/-- Go `DecodeHeader` returns a value with no `=?` in it as it is. -/
theorem DecodeHeader_plain (T : Tables) (cr : GoString → Reader → Except Error Reader)
    (v : GoString) (h : ¬ str "=?" <:+: v) : mime.DecodeHeader T cr v = .ok v := by
  simp only [mime.DecodeHeader, (bytes.Index_none_iff (str "=?") v).mpr h]

/-- C15. With Go's word decoder, `decodeHeaders` leaves every value that holds
no `=?` as it is, at its key and position, whatever the other values are; and on
a header mapping none of whose values holds `=?` it succeeds and returns the
mapping itself, so that a message parsed from it has `DecodedHeaders` equal to
`RawHeaders`. -/
theorem C15_plain_values_unchanged (T : Tables) (hdr : MIMEHeader) :
    (∀ decoded, decodeHeaders (goLib T) hdr = .ok decoded →
      List.Forall₂ (fun e d => d.1 = e.1 ∧
        List.Forall₂ (fun v dv => ¬ str "=?" <:+: v → dv = v) e.2 d.2) hdr decoded) ∧
    ((∀ e ∈ hdr, ∀ v ∈ e.2, ¬ str "=?" <:+: v) →
      decodeHeaders (goLib T) hdr = .ok hdr ∧
      ∀ fuel body m, parseMessage (goLib T) fuel body hdr = .ok m →
        m.DecodedHeaders = m.RawHeaders) := by
  constructor
  · intro decoded h
    refine (decodeHeaders_forall₂ (goLib T) hdr decoded h).imp ?_
    intro e d hed
    refine ⟨hed.1, hed.2.imp ?_⟩
    intro v dv hv hplain
    have h1 : mime.DecodeHeader T (charsetReader (goLib T)) v = .ok dv := hv
    rw [DecodeHeader_plain T _ v hplain] at h1
    exact (Except.ok.inj h1).symm
  · intro hplain
    have hid : decodeHeaders (goLib T) hdr = .ok hdr :=
      decodeHeaders_id (goLib T) hdr
        (fun e he v hv => DecodeHeader_plain T _ v (hplain e he v hv))
    refine ⟨hid, ?_⟩
    intro fuel body m hm
    obtain ⟨_, _, _, hraw, _, hdec, _⟩ := parseMessage_ok_shape (goLib T) fuel body hdr m hm
    rw [hid] at hdec
    rw [hraw]
    exact (Except.ok.inj hdec).symm

/-- C15, on a header mapping of the test message: the plain values of `Subject`
and `Content-Type` come back as they are, next to a value that is an encoded
word. -/
theorem C15_plain_values_unchanged_witness :
    decodeHeaders (goLib noTables)
        [(str "Subject", [str "plain subject", str "=?UTF-8?B?aGk=?="]),
         (str "Content-Type", [str "text/plain; charset=utf-8"])]
      = .ok [(str "Subject", [str "plain subject", str "hi"]),
         (str "Content-Type", [str "text/plain; charset=utf-8"])] ∧
    decodeHeaders (goLib noTables) plainHeader = .ok plainHeader :=
  ⟨by rfl,
    ((C15_plain_values_unchanged noTables plainHeader).2 (by decide)).1⟩

/-- No character of the base64 alphabet is `?`. -/
theorem encodeStd_ne_question (v : Nat) : base64.encodeStd.getD v 0 ≠ 63 := by
  by_cases h : v < 64
  · have hall : ∀ w, w < 64 → base64.encodeStd.getD w 0 ≠ 63 := by decide
    exact hall v h
  · have hlen : base64.encodeStd.length ≤ v := by
      have : base64.encodeStd.length = 64 := by decide
      omega
    rw [List.getD_eq_default _ _ hlen]
    decide

/-- The base64 text of any bytes holds no `?`. -/
theorem encodeToString_no_question :
    ∀ (n : Nat) (x : Bytes), x.length ≤ n → (63 : Nat) ∉ base64.StdEncoding.EncodeToString x := by
  intro n
  induction n using Nat.strong_induction_on with
  | _ n ih =>
    intro x hx
    match x, hx with
    | [], _ => simp [base64.StdEncoding.EncodeToString]
    | [a], _ =>
      simp only [base64.StdEncoding.EncodeToString, base64.sextets, List.map, List.mem_append,
        List.mem_cons, List.mem_singleton, List.not_mem_nil, or_false, not_or]
      exact ⟨⟨fun h => encodeStd_ne_question _ h.symm, fun h => encodeStd_ne_question _ h.symm⟩,
        by decide, by decide⟩
    | [a, b], _ =>
      simp only [base64.StdEncoding.EncodeToString, base64.sextets, List.map, List.mem_append,
        List.mem_cons, List.mem_singleton, List.not_mem_nil, or_false, not_or]
      exact ⟨⟨fun h => encodeStd_ne_question _ h.symm, fun h => encodeStd_ne_question _ h.symm,
        fun h => encodeStd_ne_question _ h.symm⟩, by decide⟩
    | a :: b :: c :: rest, hx =>
      simp only [base64.StdEncoding.EncodeToString, base64.sextets, List.map, List.mem_append,
        List.mem_cons, List.not_mem_nil, or_false, not_or]
      refine ⟨⟨fun h => encodeStd_ne_question _ h.symm, fun h => encodeStd_ne_question _ h.symm,
        fun h => encodeStd_ne_question _ h.symm, fun h => encodeStd_ne_question _ h.symm⟩, ?_⟩
      simp only [List.length_cons] at hx
      exact ih rest.length (by omega) rest (le_refl _)

/-- Go `bytes.Index` finds `?=` right after a text that holds no `?`. -/
theorem bytes.Index_closing :
    ∀ e : Bytes, (63 : Nat) ∉ e → bytes.Index (e ++ [63, 61]) [63, 61] = some e.length := by
  intro e
  induction e with
  | nil => intro _; rfl
  | cons c e ih =>
    intro h
    have hc : ¬ c = 63 := fun hc => h (by simp [hc])
    have he : (63 : Nat) ∉ e := fun he => h (List.mem_cons_of_mem _ he)
    have hpre : List.isPrefixOf [63, 61] (c :: (e ++ [63, 61])) = false := by
      simp [List.isPrefixOf, Ne.symm hc]
    rw [List.cons_append, bytes.Index, hpre, ih he]
    rfl

/-- The loop of `DecodeHeader` is over at the end of the value. -/
theorem decodeHeaderLoop_nil (T : Tables) (cr : GoString → Reader → Except Error Reader) :
    ∀ (fuel : Nat) (bw : Bool) (buf : Bytes),
      mime.decodeHeaderLoop T cr fuel [] bw buf = .ok buf := by
  intro fuel bw buf
  cases fuel with
  | zero => simp [mime.decodeHeaderLoop]
  | succ n =>
    have h : bytes.Index [] (str "=?") = none := by decide
    simp [mime.decodeHeaderLoop, h]

/-- Go `DecodeHeader` on one `B`-encoded word in UTF-8 gives back the encoded
bytes. -/
theorem DecodeHeader_utf8_b (T : Tables) (cr : GoString → Reader → Except Error Reader)
    (s : Bytes) (hs : ∀ b ∈ s, b < 256) :
    mime.DecodeHeader T cr
      (str "=?UTF-8?B?" ++ base64.StdEncoding.EncodeToString s ++ str "?=") = .ok s := by
  have hpre : str "=?UTF-8?B?" = [61, 63, 85, 84, 70, 45, 56, 63, 66, 63] := by decide
  have hsuf : str "?=" = [63, 61] := by decide
  have hmark : str "=?" = [61, 63] := by decide
  have hq : str "?" = [63] := by decide
  have hutf : strings.EqualFold [85, 84, 70, 45, 56] (str "utf-8") = true := by decide
  have hno : (63 : Nat) ∉ base64.StdEncoding.EncodeToString s :=
    encodeToString_no_question s.length s (le_refl _)
  have hdec : base64.StdEncoding.DecodeString (base64.StdEncoding.EncodeToString s) = .ok s := by
    simpa [base64.StdEncoding.DecodeString] using decode_encode s hs 0 []
  generalize base64.StdEncoding.EncodeToString s = e at hno hdec ⊢
  have hclose := bytes.Index_closing e hno
  have hlen : ¬ (e ++ [63, 61]).length + 10 < 12 := by simp
  rw [hpre, hsuf]
  have hH : [61, 63, 85, 84, 70, 45, 56, 63, 66, 63] ++ e ++ [63, 61]
      = 61 :: 63 :: 85 :: 84 :: 70 :: 45 :: 56 :: 63 :: 66 :: 63 :: (e ++ [63, 61]) := by simp
  rw [hH]
  generalize htail : e ++ [63, 61] = tail at hclose hlen
  have h1 : bytes.Index (61 :: 63 :: 85 :: 84 :: 70 :: 45 :: 56 :: 63 :: 66 :: 63 :: tail) [61, 63]
      = some 0 := rfl
  have h2 : bytes.Index (85 :: 84 :: 70 :: 45 :: 56 :: 63 :: 66 :: 63 :: tail) [63]
      = some 5 := rfl
  have h3 : mime.decode 66 e = .ok s := by simp [mime.decode, hdec]
  have h4 : mime.convert T cr [] [85, 84, 70, 45, 56] s = .ok s := by
    simp [mime.convert, hutf]
  have h5 : tail.take e.length = e := by rw [← htail]; exact List.take_left _ _
  have h6 : List.drop (0 + 2 + 5 + 1 + 1 + 1 + e.length)
      (85 :: 84 :: 70 :: 45 :: 56 :: 63 :: 66 :: 63 :: tail) = [] := by
    rw [← htail]
    have hl : (85 :: 84 :: 70 :: 45 :: 56 :: 63 :: 66 :: 63 :: (e ++ [63, 61])).length
        ≤ 0 + 2 + 5 + 1 + 1 + 1 + e.length := by
      simp only [List.length_cons, List.length_append, List.length_nil]
      omega
    exact List.drop_eq_nil_of_le hl
  have h7 : (if 0 > 0 ∧ (True ∨ mime.hasNonWhitespace [] = true) then ([] : Bytes) ++ [] else [])
      = [] := by simp
  have h8 : ¬ tail.length + 1 + 1 + 1 + 1 + 1 + 1 + 1 + 1 + 1 + 1 < 0 + 2 + 5 + 1 + 4 := by omega
  simp only [mime.DecodeHeader, hmark, h1, List.drop, List.take]
  rw [List.length_cons, mime.decodeHeaderLoop]
  simp only [hmark, hq, hsuf, h1, h2, List.drop, List.take, List.getD_cons_succ,
    List.getD_cons_zero, List.length_cons]
  rw [if_neg h8, if_neg (by simp), hclose]
  simp only [h5, h3, h7, h4, h6, decodeHeaderLoop_nil]

/-- C16. Encoded-word round trip, with Go's word decoder: for every byte string
`s`, so for every UTF-8 text, the value `=?UTF-8?B?` followed by the standard
base64 of `s` and `?=` is decoded to exactly `s`, by the word decoder and by
`decodeHeaders` under any key. -/
theorem C16_encoded_word_round_trip (T : Tables) (s : Bytes) (hs : ∀ b ∈ s, b < 256) :
    mime.DecodeHeader T (charsetReader (goLib T))
        (str "=?UTF-8?B?" ++ base64.StdEncoding.EncodeToString s ++ str "?=") = .ok s ∧
    ∀ k : GoString,
      decodeHeaders (goLib T)
          [(k, [str "=?UTF-8?B?" ++ base64.StdEncoding.EncodeToString s ++ str "?="])]
        = .ok [(k, [s])] := by
  have h := DecodeHeader_utf8_b T (charsetReader (goLib T)) s hs
  refine ⟨h, ?_⟩
  intro k
  have h1 : (goLib T).DecodeHeader (charsetReader (goLib T))
      (str "=?UTF-8?B?" ++ base64.StdEncoding.EncodeToString s ++ str "?=") = .ok s := h
  simp only [decodeHeaders, decodeValues, h1]

/-- C16, on the value of the test message: `=?UTF-8?B?44OG44K544OI44Oh44O844Or?=`
is the encoded word of `テストメール` and decodes to it. -/
theorem C16_encoded_word_round_trip_witness :
    (∀ b ∈ str "テストメール", b < 256) ∧
    str "=?UTF-8?B?" ++ base64.StdEncoding.EncodeToString (str "テストメール") ++ str "?="
      = str "=?UTF-8?B?44OG44K544OI44Oh44O844Or?=" ∧
    mime.DecodeHeader noTables (charsetReader (goLib noTables))
        (str "=?UTF-8?B?" ++ base64.StdEncoding.EncodeToString (str "テストメール") ++ str "?=")
      = .ok (str "テストメール") ∧
    decodeHeaders (goLib noTables) [(str "Subject", [str "=?UTF-8?B?44OG44K544OI44Oh44O844Or?="])]
      = .ok [(str "Subject", [str "テストメール"])] :=
  ⟨by decide, by decide,
    (C16_encoded_word_round_trip noTables (str "テストメール") (by decide)).1, by rfl⟩
/-- C17. When the media-type parser rejects the first `Content-Type` value,
`parseMessage` returns an error and no message: the error of the parser, wrapped,
once the headers have decoded. -/
theorem C17_malformed_content_type (L : Lib) (fuel : Nat) (body : Bytes) (header : MIMEHeader)
    (v : GoString) (e : Error)
    (hv : (header.index (str "Content-Type")).head? = some v)
    (hp : L.ParseMediaType v = .error e) :
    (∃ err, parseMessage L (fuel + 1) body header = .error (.error err)) ∧
      (∀ dhdr, decodeHeaders L header = .ok dhdr →
        parseMessage L (fuel + 1) body header =
          .error (.error (.Errorf "failed to parse Content-Type header: %s" [] e))) ∧
      ∀ fuel1 m, parseMessage L fuel1 body header ≠ .ok m := by
  have h1 : ∀ dhdr, decodeHeaders L header = .ok dhdr →
      parseMessage L (fuel + 1) body header =
        .error (.error (.Errorf "failed to parse Content-Type header: %s" [] e)) := by
    intro dhdr hd
    simp only [parseMessage, hd, Message.RawHeaders, hv, hp]
  refine ⟨?_, h1, ?_⟩
  · cases hd : decodeHeaders L header with
    | error e1 =>
      exact ⟨.Errorf "failed to decode headers: %s" [] e1, by simp only [parseMessage, hd]⟩
    | ok dhdr => exact ⟨_, h1 dhdr hd⟩
  · exact fails_of_bad_media_type L body header v e hv hp

/-- C17, at concrete inputs: an empty `Content-Type` value and a parameter
without `=`. -/
theorem C17_malformed_content_type_witness :
    (mime.ParseMediaType noTables (str "") = .error (.New "mime: no media type") ∧
      mime.ParseMediaType noTables (str "text/plain; charset")
        = .error (.New "mime: invalid media parameter")) ∧
    (∃ err, parseMessage (goLib noTables) 1 (str "hi") [(str "Content-Type", [str ""])]
      = .error (.error err)) ∧
    (∃ err, parseMessage (goLib noTables) 1 (str "hi")
        [(str "Content-Type", [str "text/plain; charset"])]
      = .error (.error err)) :=
  ⟨⟨by rfl, by rfl⟩,
    (C17_malformed_content_type (goLib noTables) 0 (str "hi") [(str "Content-Type", [str ""])]
      (str "") (.New "mime: no media type") (by rfl) (by rfl)).1,
    (C17_malformed_content_type (goLib noTables) 0 (str "hi")
      [(str "Content-Type", [str "text/plain; charset"])]
      (str "text/plain; charset") (.New "mime: invalid media parameter") (by rfl) (by rfl)).1⟩


/-- On the empty body `decodeBody` returns the empty string as soon as the three
table decoders and the quoted-printable reader return nothing on no input. -/
theorem decodeBody_empty (L : Lib) (charset te : GoString)
    (h1 : L.ISO2022JP [] = .ok []) (h2 : L.EUCJP [] = .ok []) (h3 : L.ShiftJIS [] = .ok [])
    (h4 : L.quotedprintable (.ok []) = .ok []) :
    decodeBody L charset te (bytes.NewBuffer []) = .ok [] := by
  rw [decodeBody_ok_iff]
  have hc : charsetDecode L (L.ToLower charset) [] = .ok [] := by
    simp only [charsetDecode, encodings, GoMap.get?]
    split_ifs <;> simp [h1, h2, h3]
  simp only [charsetThenTransfer, hc, transferDecode]
  split_ifs
  · rfl
  · exact h4
  · rfl

/-- C18. On the empty body `decodeBody` succeeds and returns the empty string,
for every charset name and every transfer encoding; the EUC-JP and Shift_JIS
decoders, which are taken as given, are assumed to return nothing on no input. -/
theorem C18_empty_body (T : Tables) (charset te : GoString)
    (hE : T.EUCJP [] = .ok []) (hS : T.ShiftJIS [] = .ok []) :
    decodeBody (goLib T) charset te (bytes.NewBuffer []) = .ok [] :=
  decodeBody_empty (goLib T) charset te (by rfl) hE hS (by rfl)

/-- C18, at concrete inputs: the three table charsets, `base64` and
`quoted-printable`, in mixed letter case. -/
theorem C18_empty_body_witness :
    decodeBody (goLib noTables) (str "Shift_JIS") (str "Quoted-Printable") (bytes.NewBuffer [])
      = .ok [] ∧
    decodeBody (goLib noTables) (str "EUC-JP") (str "BASE64") (bytes.NewBuffer []) = .ok [] ∧
    decodeBody (goLib noTables) (str "iso-2022-JP") (str "7bit") (bytes.NewBuffer []) = .ok [] :=
  ⟨C18_empty_body noTables (str "Shift_JIS") (str "Quoted-Printable") (by rfl) (by rfl),
    C18_empty_body noTables (str "EUC-JP") (str "BASE64") (by rfl) (by rfl),
    C18_empty_body noTables (str "iso-2022-JP") (str "7bit") (by rfl) (by rfl)⟩

/-- C19. `decodeBody(charset, te, raw)` is the transfer decoding for the
lower-cased `te` of what the charset decoder for the lower-cased `charset` makes
of `raw`: both succeed with the same result or both fail. It depends on `charset`
and `te` through their lower-cased forms only, and for a table charset with a
transfer encoding other than `base64` and `quoted-printable` it is the table
decoder on the raw body. -/
theorem C19_decode_body_order (L : Lib) (charset te : GoString) (raw : Bytes) :
    (∀ d, decodeBody L charset te (bytes.NewBuffer raw) = .ok d ↔
        charsetThenTransfer L charset te raw = .ok d) ∧
    ((∃ err, decodeBody L charset te (bytes.NewBuffer raw) = .error err) ↔
        ∃ err, charsetThenTransfer L charset te raw = .error err) ∧
    (∀ charset1 te1, L.ToLower charset1 = L.ToLower charset → L.ToLower te1 = L.ToLower te →
        decodeBody L charset1 te1 (bytes.NewBuffer raw)
          = decodeBody L charset te (bytes.NewBuffer raw)) ∧
    (∀ enc, (encodings L).get? (L.ToLower charset) = some enc →
        L.ToLower te ≠ str "base64" → L.ToLower te ≠ str "quoted-printable" →
        ∀ d, decodeBody L charset te (bytes.NewBuffer raw) = .ok d ↔ enc raw = .ok d) := by
  have hiff := decodeBody_ok_iff L charset te raw
  refine ⟨hiff, ?_, ?_, ?_⟩
  · constructor
    · rintro ⟨err, he⟩
      cases ht : charsetThenTransfer L charset te raw with
      | error e => exact ⟨e, rfl⟩
      | ok d =>
        rw [(hiff d).mpr ht] at he
        exact absurd he (by simp)
    · rintro ⟨err, he⟩
      cases hd : decodeBody L charset te (bytes.NewBuffer raw) with
      | error e => exact ⟨e, rfl⟩
      | ok d =>
        rw [(hiff d).mp hd] at he
        exact absurd he (by simp)
  · intro charset1 te1 hc ht
    simp only [decodeBody, charsetReader, hc, ht]
  · intro enc henc h1 h2 d
    rw [hiff]
    simp only [charsetThenTransfer, charsetDecode, henc, transferDecode, h1, h2, if_false]
    cases enc raw <;> simp

/-- C19, at a concrete input: the ISO-2022-JP text `ESC ( I 1 ESC ( B` (a
half-width katakana letter, which needs no table) sent as `7bit` is run through
the table decoder, in whatever letter case the charset and the encoding are
written; the kanji of the fixture `body-iso-2022-jp-encoded` go through the same
decoder with the JIS X 0208 table. -/
theorem C19_decode_body_order_witness :
    decodeBody (goLib noTables) (str "ISO-2022-JP") (str "7BIT")
        (bytes.NewBuffer [27, 40, 73, 49, 27, 40, 66])
      = decodeBody (goLib noTables) (str "iso-2022-jp") (str "7bit")
        (bytes.NewBuffer [27, 40, 73, 49, 27, 40, 66]) ∧
    decodeBody (goLib noTables) (str "iso-2022-jp") (str "7bit")
        (bytes.NewBuffer [27, 40, 73, 49, 27, 40, 66]) = .ok (str "ｱ") ∧
    japanese.ISO2022JP noTables [27, 40, 73, 49, 27, 40, 66] = .ok (str "ｱ") :=
  ⟨(C19_decode_body_order (goLib noTables) (str "iso-2022-jp") (str "7bit")
      [27, 40, 73, 49, 27, 40, 66]).2.2.1 (str "ISO-2022-JP") (str "7BIT") (by rfl) (by rfl),
    by rfl, by rfl⟩

/-- What Go `bytes.Index` finds lies inside `s`. -/
theorem bytes.Index_some_le (sep : Bytes) :
    ∀ (s : Bytes) (i : Nat), bytes.Index s sep = some i → i + sep.length ≤ s.length := by
  intro s
  induction s with
  | nil =>
    intro i h
    simp only [bytes.Index] at h
    split_ifs at h with hs
    simp only [Option.some.injEq] at h
    subst h
    simp [hs]
  | cons c s ih =>
    intro i h
    simp only [bytes.Index] at h
    split_ifs at h with hp
    · simp only [Option.some.injEq] at h
      subst h
      have := (List.isPrefixOf_iff_prefix.mp hp).length_le
      simpa using this
    · cases hi : bytes.Index s sep with
      | none => simp [hi] at h
      | some j =>
        simp only [hi, Option.map_some', Option.some.injEq] at h
        subst h
        have := ih j hi
        simp only [List.length_cons]
        omega

/-- Go `ReadSlice` splits its input, and consumes a byte unless it meets the end. -/
theorem ReadSlice_length (s : Bytes) :
    (bufio.ReadSlice s).1.length + (bufio.ReadSlice s).2.1.length = s.length ∧
    ((bufio.ReadSlice s).2.2 = false → (bufio.ReadSlice s).2.1.length < s.length) := by
  unfold bufio.ReadSlice
  cases hi : bytes.Index s [10] with
  | none => simp
  | some i =>
    have := bytes.Index_some_le [10] s i hi
    simp only [List.length_singleton] at this
    simp only [List.length_take, List.length_drop]
    omega

theorem ReadLine_length (s line rest : Bytes) (h : bufio.ReadLine s = some (line, rest)) :
    rest.length ≤ s.length := by
  unfold bufio.ReadLine at h
  split_ifs at h
  cases hi : bytes.Index s [10] with
  | none =>
    simp only [hi, Option.some.injEq, Prod.mk.injEq] at h
    rw [← h.2]
    simp
  | some i =>
    simp only [hi, Option.some.injEq, Prod.mk.injEq] at h
    rw [← h.2]
    simp

theorem readContinuation_length :
    ∀ (fuel : Nat) (buf s : Bytes),
      (textproto.readContinuation fuel buf s).2.length ≤ s.length := by
  intro fuel
  induction fuel with
  | zero => intro buf s; simp [textproto.readContinuation]
  | succ fuel ih =>
    intro buf s
    simp only [textproto.readContinuation]
    have hdrop : (s.dropWhile (fun c => decide (c = 32 ∨ c = 9))).length ≤ s.length :=
      (List.dropWhile_suffix _).length_le
    split_ifs with h
    · exact le_refl _
    · cases hr : bufio.ReadLine (s.dropWhile (fun c => decide (c = 32 ∨ c = 9))) with
      | none => simpa using hdrop
      | some lr =>
        obtain ⟨line, rest⟩ := lr
        have h1 := ReadLine_length _ line rest hr
        have h2 := ih (buf ++ [32] ++ textproto.trim line) rest
        simp only []
        omega

theorem readContinuedLineSlice_length (s : Bytes) :
    (textproto.readContinuedLineSlice s).2.length ≤ s.length := by
  unfold textproto.readContinuedLineSlice
  cases hr : bufio.ReadLine s with
  | none => simp
  | some lr =>
    obtain ⟨line, rest⟩ := lr
    have h1 := ReadLine_length s line rest hr
    simp only []
    split_ifs
    · exact h1
    · exact h1
    · have h2 := readContinuation_length (rest.length + 1) (textproto.trim line) rest
      simp only []
      omega

theorem readHeaderLoop_length :
    ∀ (fuel : Nat) (s : Bytes) (m : MIMEHeader),
      (textproto.readHeaderLoop fuel s m).2.length ≤ s.length := by
  intro fuel
  induction fuel with
  | zero => intro s m; simp [textproto.readHeaderLoop]
  | succ fuel ih =>
    intro s m
    have h1 := readContinuedLineSlice_length s
    simp only [textproto.readHeaderLoop]
    cases hr : textproto.readContinuedLineSlice s with
    | mk r rest =>
      rw [hr] at h1
      simp only [] at h1
      cases r with
      | error err => exact h1
      | ok kv =>
        simp only []
        split_ifs
        · exact h1
        · cases hi : bytes.Index kv [58] with
          | none => exact h1
          | some i =>
            simp only []
            split_ifs
            all_goals first
              | exact h1
              | exact le_trans (ih rest _) h1

theorem ReadMIMEHeader_length (s : Bytes) :
    (textproto.ReadMIMEHeader s).2.length ≤ s.length := by
  unfold textproto.ReadMIMEHeader
  cases s with
  | nil => exact readHeaderLoop_length 1 [] []
  | cons c s =>
    simp only []
    split_ifs
    · cases hr : bufio.ReadLine (c :: s) with
      | none => simp
      | some lr =>
        obtain ⟨line, rest⟩ := lr
        have h1 := ReadLine_length _ line rest hr
        simp only []
        split_ifs
        · exact h1
        · exact h1
    · exact readHeaderLoop_length _ _ _

theorem scanRest_length (nlDashBoundary : Bytes) :
    ∀ (fuel : Nat) (buf data d r : Bytes),
      multipart.scanRest nlDashBoundary fuel buf data = .ok (d, r) →
      d.length + r.length ≤ data.length + buf.length := by
  intro fuel
  induction fuel with
  | zero => intro buf data d r h; simp [multipart.scanRest] at h
  | succ fuel ih =>
    intro buf data d r h
    simp only [multipart.scanRest] at h
    cases hi : bytes.Index buf nlDashBoundary with
    | none => simp [hi] at h
    | some i =>
      simp only [hi] at h
      split_ifs at h
      · simp only [Except.ok.injEq, Prod.mk.injEq] at h
        rw [← h.1, ← h.2]
        simp only [List.length_append, List.length_take, List.length_drop]
        omega
      · have := ih _ _ d r h
        simp only [List.length_append, List.length_take, List.length_drop] at this
        omega

theorem readPart_length (dashBoundary nlDashBoundary buf d r : Bytes)
    (h : multipart.readPart dashBoundary nlDashBoundary buf = .ok (d, r)) :
    d.length + r.length ≤ buf.length := by
  unfold multipart.readPart at h
  split_ifs at h with h1 h2 h3
  · simp only [Except.ok.injEq, Prod.mk.injEq] at h
    rw [← h.1, ← h.2]
    simp
  · have hle : dashBoundary.length ≤ buf.length :=
      (List.isPrefixOf_iff_prefix.mp h1).length_le
    have := scanRest_length _ _ _ _ d r h
    simp only [List.length_drop] at this
    omega
  · have := scanRest_length _ _ _ _ d r h
    simpa using this

theorem decodeLine_length :
    ∀ (fuel : Nat) (line out : Bytes), quotedprintable.decodeLine fuel line = .ok out →
      out.length ≤ line.length := by
  intro fuel
  induction fuel with
  | zero =>
    intro line out h
    simp only [quotedprintable.decodeLine, Except.ok.injEq] at h
    subst h
    simp
  | succ fuel ih =>
    intro line out h
    cases line with
    | nil =>
      simp only [quotedprintable.decodeLine, Except.ok.injEq] at h
      subst h
      simp
    | cons b line =>
      have hmap : ∀ (l : Bytes) (x : Nat) (o : Bytes),
          (quotedprintable.decodeLine fuel l).map (fun out => x :: out) = .ok o →
          o.length ≤ l.length + 1 := by
        intro l x o ho
        cases hd : quotedprintable.decodeLine fuel l with
        | error e => simp [hd, Except.map] at ho
        | ok o1 =>
          simp only [hd, Except.map, Except.ok.injEq] at ho
          subst ho
          have := ih l o1 hd
          simp only [List.length_cons]
          omega
      simp only [quotedprintable.decodeLine] at h
      simp only [List.length_cons]
      split_ifs at h
      · cases hx : quotedprintable.readHexByte line with
        | ok v =>
          simp only [hx] at h
          have := hmap _ _ _ h
          simp only [List.length_drop] at this
          omega
        | error err =>
          simp only [hx] at h
          cases line with
          | nil => simp at h
          | cons c line1 =>
            simp only [] at h
            split_ifs at h
            exact hmap _ _ _ h
      all_goals exact hmap _ _ _ h

theorem dropWhile_ws_head (r : Bytes) (h : r.head? = some 10) :
    (r.dropWhile quotedprintable.isQPDiscardWhitespace).length + 1 ≤ r.length := by
  cases r with
  | nil => simp at h
  | cons c r =>
    simp only [List.head?_cons, Option.some.injEq] at h
    subst h
    have h10 : quotedprintable.isQPDiscardWhitespace 10 = true := by decide
    have := (List.dropWhile_suffix quotedprintable.isQPDiscardWhitespace (l := r)).length_le
    simp only [List.dropWhile_cons, h10, if_true, List.length_cons]
    omega

theorem dropWhile_ws_crlf (r : Bytes) (h : List.isPrefixOf [10, 13] r = true) :
    (r.dropWhile quotedprintable.isQPDiscardWhitespace).length + 2 ≤ r.length := by
  obtain ⟨t, ht⟩ := List.isPrefixOf_iff_prefix.mp h
  subst ht
  have h10 : quotedprintable.isQPDiscardWhitespace 10 = true := by decide
  have h13 : quotedprintable.isQPDiscardWhitespace 13 = true := by decide
  have := (List.dropWhile_suffix quotedprintable.isQPDiscardWhitespace (l := t)).length_le
  simp only [List.cons_append, List.nil_append, List.dropWhile_cons, h10, h13, if_true,
    List.length_cons]
  omega

/-- The content of a quoted-printable line is no longer than the line. -/
theorem qp_content_length (w : Bytes) :
    (if (List.dropWhile quotedprintable.isQPDiscardWhitespace w.reverse).reverse.getLast?
          = some 61 then
        (List.dropWhile quotedprintable.isQPDiscardWhitespace w.reverse).reverse.dropLast
      else
        if w.getLast? = some 10 then
          (List.dropWhile quotedprintable.isQPDiscardWhitespace w.reverse).reverse ++
            if List.isSuffixOf [13, 10] w = true then [13, 10] else [10]
        else (List.dropWhile quotedprintable.isQPDiscardWhitespace w.reverse).reverse).length
      ≤ w.length := by
  have h0 := (List.dropWhile_suffix quotedprintable.isQPDiscardWhitespace
    (l := w.reverse)).length_le
  simp only [List.length_reverse] at h0
  split_ifs with h1 h2 h3
  · simp only [List.length_dropLast, List.length_reverse]
    omega
  · have := dropWhile_ws_crlf w.reverse (by simpa [List.isSuffixOf] using h3)
    simp only [List.length_reverse] at this
    simp only [List.length_append, List.length_reverse, List.length_cons, List.length_nil]
    omega
  · have := dropWhile_ws_head w.reverse (by simpa using h2)
    simp only [List.length_reverse] at this
    simp only [List.length_append, List.length_reverse, List.length_cons, List.length_nil]
    omega
  · simp only [List.length_reverse]
    exact h0

theorem readAll_length :
    ∀ (fuel : Nat) (s out : Bytes), quotedprintable.readAll fuel s = .ok out →
      out.length ≤ s.length := by
  intro fuel
  induction fuel with
  | zero =>
    intro s out h
    simp only [quotedprintable.readAll, Except.ok.injEq] at h
    subst h
    simp
  | succ fuel ih =>
    intro s out h
    have hlen := (ReadSlice_length s).1
    cases hrs : bufio.ReadSlice s with
    | mk w re =>
      obtain ⟨rest, eof⟩ := re
      rw [hrs] at hlen
      simp only [] at hlen
      simp only [quotedprintable.readAll, hrs] at h
      split at h
      · exact absurd h (by simp)
      · rename_i out1 heq
        have h1 := le_trans (decodeLine_length _ _ _ heq) (qp_content_length w)
        have hfin : out = out1 ∨
            ∃ more, quotedprintable.readAll fuel rest = .ok more ∧ out = out1 ++ more := by
          cases hm : quotedprintable.readAll fuel rest with
          | error e =>
            simp only [hm, Except.map] at h
            split_ifs at h
            all_goals exact Or.inl (Except.ok.inj h).symm
          | ok more =>
            simp only [hm, Except.map] at h
            split_ifs at h
            all_goals first
              | exact Or.inl (Except.ok.inj h).symm
              | exact Or.inr ⟨more, rfl, (Except.ok.inj h).symm⟩
        rcases hfin with rfl | ⟨more, hm, rfl⟩
        · omega
        · have := ih rest more hm
          simp only [List.length_append]
          omega

/-- Go `quotedprintable.NewReader` never lengthens what it reads. -/
theorem qp_NewReader_length (data b : Bytes)
    (h : quotedprintable.NewReader (.ok data) = .ok b) : b.length ≤ data.length :=
  readAll_length _ _ _ h

/-- The parts Go's multipart reader hands out are strictly shorter than what it
reads from. -/
theorem nextParts_shrinks (boundary : GoString) :
    ∀ (fuel : Nat) (s : Bytes) (partsRead : Nat) (nl : Bytes) (e : Bool),
      ∀ seg ∈ (multipart.nextParts boundary fuel s partsRead nl e).segments,
        ∀ b, seg.2 = .ok b → b.length < s.length := by
  intro fuel
  induction fuel with
  | zero =>
    intro s partsRead nl e seg hseg
    simp [multipart.nextParts, PartStream.segments] at hseg
  | succ fuel ih =>
    intro s partsRead nl e seg hseg b hb
    have hlen := ReadSlice_length s
    cases hrs : bufio.ReadSlice s with
    | mk line re =>
      obtain ⟨rest, eof⟩ := re
      rw [hrs] at hlen
      simp only [] at hlen
      simp only [multipart.nextParts, hrs] at hseg
      split at hseg
      · simp [PartStream.segments] at hseg
      split at hseg
      · simp [PartStream.segments] at hseg
      split at hseg
      · simp [PartStream.segments] at hseg
      rename_i h1 h2 h3
      have hrest : rest.length < s.length := hlen.2 (by simpa using h3)
      split at hseg
      · split at hseg
        · split_ifs at hseg <;> simp [PartStream.segments] at hseg
        · rename_i Header rest1 hh
          have hr1 : rest1.length ≤ rest.length := by
            have := ReadMIMEHeader_length rest
            rw [hh] at this
            exact this
          split at hseg
          · simp only [PartStream.segments, List.mem_singleton] at hseg
            rw [hseg] at hb
            exact absurd hb (by simp)
          · rename_i data rest2 hp
            have hd := readPart_length _ _ _ _ _ hp
            simp only [PartStream.segments, List.mem_cons] at hseg
            rcases hseg with hseg | hseg
            · rw [hseg] at hb
              simp only [] at hb
              split_ifs at hb
              · have := qp_NewReader_length data b hb
                omega
              · simp only [Except.ok.injEq] at hb
                subst hb
                omega
            · have := ih _ _ _ _ seg hseg b hb
              omega
      · split_ifs at hseg
        · simp [PartStream.segments] at hseg
        · simp [PartStream.segments] at hseg
        · have := ih _ _ _ _ seg hseg b hb
          omega
        · have := ih _ _ _ _ seg hseg b hb
          omega
        · simp [PartStream.segments] at hseg

/-- Go `multipart.NewReader` hands out part bodies strictly shorter than the
body it reads. -/
theorem NewReader_shrinks (body : Bytes) (boundary : GoString) :
    ∀ seg ∈ (multipart.NewReader body boundary).segments,
      ∀ b, seg.2 = .ok b → b.length < body.length :=
  nextParts_shrinks boundary _ _ _ _ _

/-- The loop over the parts does the same with two recursive calls that agree on
the segments. -/
theorem parseParts_congr (p1 p2 : Bytes → MIMEHeader → Except Failure Message) :
    ∀ (s : PartStream) (acc : List Message),
      (∀ seg ∈ s.segments, ∀ b, seg.2 = .ok b → p1 b seg.1 = p2 b seg.1) →
      parseParts p1 s acc = parseParts p2 s acc := by
  intro s
  induction s with
  | eof => intro acc _; rfl
  | fail err => intro acc _; rfl
  | part Header body next ih =>
    intro acc h
    cases body with
    | error e => rfl
    | ok partBody =>
      have h0 := h (Header, .ok partBody) (by simp [PartStream.segments]) partBody rfl
      simp only [] at h0
      simp only [parseParts, h0]
      cases hp : p2 partBody Header with
      | ok partMsg =>
        exact ih _ (fun seg hs b hb => h seg (by simp [PartStream.segments, hs]) b hb)
      | error f => cases f <;> rfl

/-- The loop over the parts runs out of budget only when the recursive call does
on a segment. -/
theorem parseParts_ne_outOfFuel (parse : Bytes → MIMEHeader → Except Failure Message) :
    ∀ (s : PartStream) (acc : List Message),
      (∀ seg ∈ s.segments, ∀ b, seg.2 = .ok b → parse b seg.1 ≠ .error .outOfFuel) →
      parseParts parse s acc ≠ .error .outOfFuel := by
  intro s
  induction s with
  | eof => intro acc _; simp [parseParts]
  | fail err => intro acc _; simp [parseParts]
  | part Header body next ih =>
    intro acc h
    cases body with
    | error e => simp [parseParts]
    | ok partBody =>
      have h0 := h (Header, .ok partBody) (by simp [PartStream.segments]) partBody rfl
      simp only [] at h0
      simp only [parseParts]
      cases hp : parse partBody Header with
      | ok partMsg =>
        exact ih _ (fun seg hs b hb => h seg (by simp [PartStream.segments, hs]) b hb)
      | error f =>
        cases f with
        | error e => simp
        | panic => simp
        | outOfFuel => exact absurd hp h0

/-- With a reader that shrinks, a budget above the length of the body is enough:
the result is that of any other such budget, and is not the budget running out. -/
theorem parseMessage_fuel (L : Lib) (hS : Shrinking L) :
    ∀ (fuel1 : Nat) (body : Bytes) (header : MIMEHeader) (fuel2 : Nat),
      body.length < fuel1 → body.length < fuel2 →
      parseMessage L fuel1 body header = parseMessage L fuel2 body header ∧
      parseMessage L fuel1 body header ≠ .error .outOfFuel := by
  intro fuel1
  induction fuel1 with
  | zero => intro body header fuel2 h1; omega
  | succ f1 ih =>
    intro body header fuel2 h1 h2
    cases fuel2 with
    | zero => omega
    | succ f2 =>
      simp only [parseMessage]
      cases hd : decodeHeaders L header with
      | error e => simp
      | ok dhdr =>
        simp only [Message.RawHeaders]
        cases hv : (header.index (str "Content-Type")).head? with
        | none => simp
        | some v =>
          simp only []
          cases hp : L.ParseMediaType v with
          | error e => simp
          | ok r =>
            obtain ⟨ctype, params⟩ := r
            simp only []
            cases ht : strings.HasPrefix ctype (str "text/") with
            | true =>
              simp only [if_true]
              cases decodeBody L (params.indexStr (str "charset"))
                (Message.mk header body dhdr none []).transferEncoding
                (bytes.NewBuffer (Message.mk header body dhdr none []).RawBody) <;> simp
            | false =>
              simp only [Bool.false_eq_true, if_false]
              cases hm : strings.HasPrefix ctype (str "multipart/") with
              | false => simp
              | true =>
                simp only [if_true]
                have hlt : ∀ seg ∈ (L.NewReader body (params.indexStr (str "boundary"))).segments,
                    ∀ b, seg.2 = .ok b → b.length < f1 ∧ b.length < f2 := by
                  intro seg hseg b hb
                  have := hS body _ seg hseg b hb
                  omega
                have hcongr := parseParts_congr (fun b h => parseMessage L f1 b h)
                  (fun b h => parseMessage L f2 b h) _ []
                  (fun seg hseg b hb =>
                    (ih b seg.1 f2 (hlt seg hseg b hb).1 (hlt seg hseg b hb).2).1)
                have hne := parseParts_ne_outOfFuel (fun b h => parseMessage L f1 b h) _ []
                  (fun seg hseg b hb =>
                    (ih b seg.1 f2 (hlt seg hseg b hb).1 (hlt seg hseg b hb).2).2)
                rw [← hcongr]
                refine ⟨rfl, ?_⟩
                cases hpp : parseParts (fun b h => parseMessage L f1 b h)
                    (L.NewReader body (params.indexStr (str "boundary"))) [] with
                | ok parts => simp
                | error f =>
                  intro hcontra
                  simp only [Except.error.injEq] at hcontra
                  rw [hcontra] at hpp
                  exact hne hpp

/-- The depth of a list of trees, from a bound on each. -/
theorem depthParts_le (n : Nat) :
    ∀ parts : List Message, (∀ p ∈ parts, p.depth + 1 ≤ n) → Message.depthParts parts ≤ n := by
  intro parts
  induction parts with
  | nil => intro _; simp [Message.depthParts]
  | cons p ps ih =>
    intro h
    simp only [Message.depthParts]
    exact max_le (h p (List.mem_cons_self _ _)) (ih (fun q hq => h q (List.mem_cons_of_mem _ hq)))

/-- With a reader that shrinks, the tree returned is no deeper than the body is
long. -/
theorem parseMessage_depth (L : Lib) (hS : Shrinking L) :
    ∀ (fuel : Nat) (body : Bytes) (header : MIMEHeader) (m : Message),
      parseMessage L fuel body header = .ok m → m.depth ≤ body.length := by
  intro fuel
  induction fuel with
  | zero => intro body header m h; simp [parseMessage] at h
  | succ fuel ih =>
    intro body header m h
    obtain ⟨fuel1, dhdr, v, ctype, params, hf, _, _, _, hc⟩ :=
      parseMessage_ok_inv L (fuel + 1) body header m h
    have hf1 : fuel1 = fuel := by omega
    subst hf1
    rcases hc with ⟨_, d, _, rfl⟩ | ⟨_, _, parts, hparts, rfl⟩ | ⟨_, _, rfl⟩
    · simp [Message.depth, Message.depthParts]
    · simp only [Message.depth]
      obtain ⟨new, hnew, hall⟩ := parseParts_ok _ _ _ _ hparts
      simp only [List.nil_append] at hnew
      subst hnew
      apply depthParts_le
      intro p hp
      obtain ⟨seg, hseg, b, hb, hpb⟩ := forall₂_right_mem hall p hp
      have h1 := ih b seg.1 p hpb
      have h2 := hS body _ seg hseg b hb
      omega
    · simp [Message.depth, Message.depthParts]

/-- The multipart reader of Go shrinks. -/
theorem goLib_shrinking (T : Tables) : Shrinking (goLib T) :=
  fun body boundary => NewReader_shrinks body boundary

/-- C20. With Go's multipart reader `parseMessage` terminates on every input:
every part body handed to the recursive call is strictly shorter than the body
of the enclosing entity, so a recursion budget above the length of the body is
never used up, the result being a message, an error or a panic, the same for
every such budget; and the tree returned is no deeper than the body is long. -/
theorem C20_terminates (T : Tables) (body : Bytes) (header : MIMEHeader) :
    (∀ boundary, ∀ seg ∈ ((goLib T).NewReader body boundary).segments,
      ∀ b, seg.2 = .ok b → b.length < body.length) ∧
    (∀ fuel, body.length < fuel →
      parseMessage (goLib T) fuel body header ≠ .error .outOfFuel ∧
      parseMessage (goLib T) fuel body header
        = parseMessage (goLib T) (body.length + 1) body header) ∧
    (∀ fuel m, parseMessage (goLib T) fuel body header = .ok m →
      m.depth ≤ body.length) := by
  refine ⟨goLib_shrinking T body, ?_, ?_⟩
  · intro fuel hf
    have h := parseMessage_fuel (goLib T) (goLib_shrinking T) fuel body header
      (body.length + 1) hf (Nat.lt_succ_self _)
    exact ⟨h.2, h.1⟩
  · intro fuel m h
    exact parseMessage_depth (goLib T) (goLib_shrinking T) fuel body header m h

/-- C20, on the two-part message of the tests: its tree has depth 1, below the
length of its body, and its two part bodies are shorter than the body. -/
theorem C20_terminates_witness :
    parseMessage (goLib noTables) 2 fixtureBody fixtureHeader = .ok fixtureNode ∧
    fixtureNode.depth = 1 ∧
    fixtureNode.depth ≤ fixtureBody.length ∧
    fixtureNode.Parts.map (fun p => p.RawBody.length) = [19, 20] ∧
    fixtureBody.length = 482 :=
  ⟨by rfl, by decide,
    (C20_terminates noTables fixtureBody fixtureHeader).2.2 2 fixtureNode (by rfl),
    by decide, by decide⟩
end Eml
